import Mathlib

/-!
# The authentication pipeline of `bootstrap`

A shallow embedding of `authorization/middleware.go` and `authorization/access.go`
(with the pieces of `tokens/` they call), and the properties of the pipeline proved over it.

Go strings are sequences of bytes; requests, contexts and errors are plain data; what a
handler does to its `ResponseWriter` and to the `next` handler is returned as a list of events;
what the Go standard library, the `jwt-go` library and the network contribute is taken as a
parameter (`World`).
-/

namespace Bootstrap

/-! ## Go strings -/

/-- A Go string: an immutable sequence of bytes, each byte a natural number below 256.
`len(s)` is `s.length`, `s[i:j]` is `(s.take j).drop i`, `s == ""` is `s = []`. -/
abbrev GoString := List Nat

/-- The UTF-8 encoding of one character. -/
def utf8Bytes (c : Char) : List Nat :=
  let n := c.toNat
  if n < 128 then [n]
  else if n < 2048 then [192 + n / 64, 128 + n % 64]
  else if n < 65536 then [224 + n / 4096, 128 + n / 64 % 64, 128 + n % 64]
  else [240 + n / 262144, 128 + n / 4096 % 64, 128 + n / 64 % 64, 128 + n % 64]

/-- The Go string a source literal denotes. -/
def str (s : String) : GoString := (s.toList.map utf8Bytes).flatten

/-- One byte of `strings.ToUpper` on ASCII text: `a`..`z` go to `A`..`Z`. -/
def upperByte (c : Nat) : Nat := if 97 ≤ c ∧ c ≤ 122 then c - 32 else c

/-- Go's `strings.ToUpper`, as far as a comparison of its result with an ASCII literal can
tell: ASCII letters are upper-cased byte by byte and every other byte is kept. (On input with a
byte of 128 or more Go maps runes instead of bytes; each rune of the result then stems from one
rune of the input, so the result has fewer runes than the input has bytes, or holds U+FFFD, and
is never six ASCII letters when the input has six bytes.) On ASCII text, such as a region code,
this is Go's result. -/
def ToUpper (s : GoString) : GoString := s.map upperByte

/-- One byte lower-cased: `A`..`Z` go to `a`..`z`. -/
def lowerByte (c : Nat) : Nat := if 65 ≤ c ∧ c ≤ 90 then c + 32 else c

/-- Go's `strings.ToLower` on ASCII text, which is all the program applies it to as a whole
string (region codes and locale tags): ASCII letters are lower-cased byte by byte and every
other byte is kept. -/
def ToLower (s : GoString) : GoString := s.map lowerByte

/-! ## Errors -/

/-- Which of the two errors of `strconv` a `*strconv.NumError` wraps. -/
inductive NumErrKind
  | ErrSyntax
  | ErrRange
  deriving DecidableEq, Repr

/-- The text of `strconv.ErrSyntax` and `strconv.ErrRange`. -/
def NumErrKind.Error : NumErrKind → GoString
  | .ErrSyntax => str "invalid syntax"
  | .ErrRange => str "value out of range"

/-- A non-nil Go `error` value. The program only ever tests errors against `nil` and reads
their text, so an error is told apart by what it is made of. -/
inductive GoError
  /-- The value of `errors.New(s)` and of `fmt.Errorf` without `%w`: its text is `s`. -/
  | errorString (s : GoString)
  /-- A `*strconv.NumError`; `quoted` is `strconv.Quote(Num)`, which the library renders. -/
  | numError (Func Num : GoString) (Err : NumErrKind) (quoted : GoString)
  /-- Any other error a library hands back, with the text its `Error()` returns. -/
  | foreign (text : GoString)
  deriving DecidableEq, Repr

/-- The method `Error()`. -/
def GoError.Error : GoError → GoString
  | .errorString s => s
  | .numError f _ k q => str "strconv." ++ f ++ str ": parsing " ++ q ++ str ": " ++ k.Error
  | .foreign t => t

def ErrNoTokenFound : GoError := .errorString (str "jwtauth: no token found")
def ErrTokenInvalid : GoError := .errorString (str "jwtauth: token is not valid")
def ErrSubNotFound : GoError := .errorString (str "jwtauth: sub is wrong")
def ErrSubInvalid : GoError := .errorString (str "jwtauth: sub doesn't match requested user")

/-! ## Maps, headers, query values, cookies -/

/-- A Go map with string keys, as an association list read at the first binding of a key;
`none` is the `ok == false` of `v, ok := m[k]`. -/
def mapGet {β : Type} : List (GoString × β) → GoString → Option β
  | [], _ => none
  | (k, v) :: rest, key => if k = key then some v else mapGet rest key

/-- The bytes `net/textproto` accepts in a header field name (the `token` characters). -/
def validHeaderFieldByte (c : Nat) : Bool :=
  (48 ≤ c && c ≤ 57) || (65 ≤ c && c ≤ 90) || (97 ≤ c && c ≤ 122) ||
  [33, 35, 36, 37, 38, 39, 42, 43, 45, 46, 94, 95, 96, 124, 126].contains c

/-- The loop of `canonicalMIMEHeaderKey`: a letter that starts the key or follows `-` is
upper-cased, any other letter is lower-cased. -/
def canonicalLoop : Bool → GoString → GoString
  | _, [] => []
  | upper, c :: rest =>
    let c1 :=
      if upper ∧ 97 ≤ c ∧ c ≤ 122 then c - 32
      else if ¬ upper ∧ 65 ≤ c ∧ c ≤ 90 then c + 32
      else c
    c1 :: canonicalLoop (c1 == 45) rest

/-- Go's `http.CanonicalHeaderKey` (`textproto.CanonicalMIMEHeaderKey`): a key holding a byte
that is not valid in a field name is returned unchanged, any other key is put in canonical
case. -/
def CanonicalHeaderKey (s : GoString) : GoString :=
  if s.all validHeaderFieldByte then canonicalLoop true s else s

/-- The type `http.Header`: a map from keys to lists of values. -/
abbrev Header := List (GoString × List GoString)

/-- The type `url.Values`: a map from keys to lists of values. -/
abbrev Values := List (GoString × List GoString)

/-- The method `Header.Get`: the first value under the canonical form of `key`, or `""`. -/
def Header.Get (h : Header) (key : GoString) : GoString :=
  match mapGet h (CanonicalHeaderKey key) with
  | some (v :: _) => v
  | _ => []

/-- The method `url.Values.Get`: the first value under `key` as written, or `""`. -/
def Values.Get (v : Values) (key : GoString) : GoString :=
  match mapGet v key with
  | some (x :: _) => x
  | _ => []

/-- The two fields of `http.Cookie` the program reads. -/
structure Cookie where
  Name : GoString
  Value : GoString
  deriving DecidableEq, Repr

/-! ## The access profile and the visitor -/

/-- A Go slice of `int64`: `none` is the nil slice, which `omitempty` and the decoder tell
apart from an empty one. -/
abbrev Int64Slice := Option (List Int)

structure AdminType where
  Ent : Int64Slice
  deriving DecidableEq, Repr

/-- The embedded `AdminType` of the Go struct is the field `Ent`. -/
structure FsAdminType where
  Ent : Int64Slice
  FundSrc : Int64Slice
  deriving DecidableEq, Repr

structure TeacherType where
  Cls : Int64Slice
  deriving DecidableEq, Repr

structure TeamMemberType where
  Kid : Int64Slice
  deriving DecidableEq, Repr

/-- The response of the access endpoint; a nil pointer field is `none`. -/
structure Access where
  SuperUser : Bool
  Admin : Option AdminType
  VOAdmin : Option AdminType
  VONoChildAdmin : Option AdminType
  FSAdmin : Option FsAdminType
  FSVOAdmin : Option FsAdminType
  Teacher : Option TeacherType
  CoTeacher : Option TeacherType
  AssistantTeacher : Option TeacherType
  TeamMember : Option TeamMemberType
  deriving DecidableEq, Repr

/-- The context object populated by `MakeAuthValidator`; `Access` is a pointer, `none` when
nil. -/
structure Visitor where
  UserID : Int
  SignedIam : GoString
  Access : Option Access
  deriving DecidableEq, Repr

/-! ## The locale tag (`middlewares/locale.go`) -/

/-- A `language.Base`, the language subtag of a locale: `code` is its ISO 639 code, as the
library keeps it. -/
structure Base where
  code : GoString
  deriving DecidableEq, Repr

/-- The method `String` of `language.Base`. -/
def Base.String (b : Base) : GoString := b.code

/-- A `language.Region`: a region with a two-letter ISO 3166-1 code (the unknown region is
`ZZ`), given by the places of its two letters in the alphabet, or a region that has only a UN
M.49 code of three digits. -/
inductive Region
  | iso (a b : Fin 26)
  | m49 (code : Fin 1000)
  deriving DecidableEq, Repr

/-- The method `String` of `language.Region`: the two upper-case letters of the ISO code, or
the three digits of the M.49 code. -/
def Region.String : Region → GoString
  | .iso a b => [65 + a.val, 65 + b.val]
  | .m49 code => [48 + code.val / 100, 48 + code.val / 10 % 10, 48 + code.val % 10]

/-- The struct `LocaleTag`: language, region, variant; the two pointers are not nil. -/
structure LocaleTag where
  Language : Base
  Region : Bootstrap.Region
  Variant : GoString
  deriving DecidableEq, Repr

/-- The method `Original`: the value of the locale tag in the way it was consumed. -/
def LocaleTag.Original (lt : LocaleTag) : GoString :=
  let locale := lt.Language.String ++ str "-" ++ ToLower lt.Region.String
  if lt.Variant = [] then locale
  else locale ++ str "-" ++ lt.Variant

/-- The method `BundleName`: the value of the locale tag in the way of a bundle name. -/
def LocaleTag.BundleName (lt : LocaleTag) : GoString :=
  let locale := lt.Language.String ++ str "_" ++ ToUpper lt.Region.String
  if lt.Variant = [] then locale
  else locale ++ str "_" ++ ToUpper lt.Variant

/-! ## Request contexts and requests -/

/-- A key of `context.WithValue`. Keys are compared with `==` on interface values, so a key of
type `RequestContext` equals only a `RequestContext` with the same text. -/
inductive CtxKey
  /-- A key `RequestContext(name)`. -/
  | RequestContext (name : GoString)
  /-- A key `bootstrapContextKey(name)` of the package `middleware`. -/
  | bootstrapContextKey (name : GoString)
  /-- A key of any other type, as other packages use. -/
  | foreign (id : Nat)
  deriving DecidableEq, Repr

/-- A Go `interface{}` value, by dynamic type: what a context, a claims map or a token header
holds. -/
inductive Any
  /-- The nil interface: also what `Value` returns for a key that is not bound. -/
  | nil
  | string (s : GoString)
  | int (n : Int)
  | bool (b : Bool)
  /-- A non-nil `*Visitor`. -/
  | visitor (v : Visitor)
  /-- A non-nil `*Access`. -/
  | access (a : Access)
  /-- A `LocaleTag`. -/
  | localeTag (t : LocaleTag)
  /-- A value of any other type. -/
  | foreign (id : Nat)
  deriving DecidableEq, Repr

/-- A `context.Context`: the bindings added by `WithValue`, the latest first. -/
abbrev Context := List (CtxKey × Any)

/-- The function `context.WithValue`. -/
def WithValue (parent : Context) (key : CtxKey) (val : Any) : Context :=
  (key, val) :: parent

/-- The method `Value`: the latest binding of `key`, the nil interface if there is none. -/
def Context.Value : Context → CtxKey → Any
  | [], _ => .nil
  | (k, v) :: parent, key => if k = key then v else Context.Value parent key

/-- The type assertion `x.(string)`: the string and `ok`. -/
def Any.assertString : Any → GoString × Bool
  | .string s => (s, true)
  | _ => ([], false)

def VisitorRequestContext : CtxKey := .RequestContext (str "VisitorRequestContextData")

/-- What the pipeline reads of an `*http.Request`: its header, the parsed query of its URL
(`r.URL.Query()`), the cookies `net/http` reads out of its `Cookie` header lines, and its
context. -/
structure Request where
  Header : Bootstrap.Header
  Query : Values
  Cookies : List Cookie
  ctx : Context
  deriving DecidableEq, Repr

/-- The method `WithContext`: the same request with another context. -/
def Request.WithContext (r : Request) (ctx : Context) : Request := { r with ctx := ctx }

/-- The method `Cookie`, for the non-empty names the program passes: the first cookie with
the given name; `none` is `ErrNoCookie`. -/
def Request.Cookie (r : Request) (name : GoString) : Option Cookie :=
  r.Cookies.find? (fun c => decide (c.Name = name))

/-- What a handler does with its `ResponseWriter` and with the next handler, in order. -/
inductive Event
  /-- The call `jsend.Wrap(w).Message(message).Status(status).Send()`: one response with
  that HTTP status and that `message` field. -/
  | respond (status : Nat) (message : GoString)
  /-- The call `next.ServeHTTP(w, r)`. -/
  | next (r : Request)
  deriving DecidableEq, Repr

/-! ## Locating the token (`FindTokenMiddleware`) -/

def iamTokenFromQuery (r : Request) : GoString := Values.Get r.Query (str "iam")

def iamTokenFromCookie (r : Request) : GoString :=
  match r.Cookie (str "iam") with
  | none => []
  | some cookie => cookie.Value

def iamTokenFromHeader (header : GoString) (r : Request) : GoString :=
  let bearer := r.Header.Get header
  if bearer.length > 7 ∧ ToUpper (bearer.take 6) = str "BEARER" then bearer.drop 7
  else bearer

/-- The functions which find the `iam` token, in the order the middleware tries them. -/
def findTokenFns : List (Request → GoString) :=
  [iamTokenFromHeader (str "Authorization"), iamTokenFromQuery, iamTokenFromCookie,
    iamTokenFromHeader (str "iam")]

/-- The loop `for _, fn := range findTokenFns { token = fn(r); if token != "" { break } }`,
started with the current value of `token`. -/
def findTokenLoop (r : Request) : List (Request → GoString) → GoString → GoString
  | [], token => token
  | fn :: rest, _ =>
    let token := fn r
    if token ≠ [] then token else findTokenLoop r rest token

/-- The handler `FindTokenMiddleware()(next)` run on `r`. -/
def FindTokenMiddleware (r : Request) : List Event :=
  let token := findTokenLoop r findTokenFns []
  if token = [] then
    [Event.respond 401 ErrNoTokenFound.Error]
  else
    let ctx := WithValue r.ctx (.RequestContext (str "token")) (.string token)
    [Event.next (r.WithContext ctx)]

/-! ## The outside world -/

/-- The fields of `url.URL`. -/
structure URL where
  Scheme : GoString
  Opaque : GoString
  User : Option (GoString × Option GoString)
  Host : GoString
  Path : GoString
  RawPath : GoString
  ForceQuery : Bool
  RawQuery : GoString
  Fragment : GoString
  deriving DecidableEq, Repr

/-- An outgoing `*http.Request`, as `http.NewRequest` builds it and the client sends it. -/
structure HTTPRequest where
  Method : GoString
  URL : Bootstrap.URL
  Header : Bootstrap.Header
  deriving DecidableEq, Repr

/-- An `*http.Response`; `Body` is what `ioutil.ReadAll(resp.Body)` returns. -/
structure HTTPResponse where
  Status : GoString
  StatusCode : Int
  Body : Except GoError GoString

/-- The local `payload` struct of `LoadAccess`. -/
structure AccessPayload where
  Message : GoString
  Data : Access
  Status : GoString
  deriving DecidableEq, Repr

/-- Public key information; `CreatedOn` is an instant, which the program never reads. -/
structure PublicKey where
  KeyID : GoString
  CreatedOn : Int
  SourceID : GoString
  Key : GoString
  deriving DecidableEq, Repr

/-- The expected response of the key server: the `message` and `status` of the embedded
standard body and the `data` pointer that shadows the body's own. -/
structure PublicKeyResponse where
  Message : GoString
  Status : GoString
  Data : Option PublicKey
  deriving DecidableEq, Repr

/-- An `*rsa.PublicKey`. -/
structure RSAPublicKey where
  N : Nat
  E : Nat
  deriving DecidableEq, Repr

/-- The dynamic type of `token.Claims`. -/
inductive Claims
  | MapClaims (m : List (GoString × Any))
  | foreign (id : Nat)
  deriving DecidableEq, Repr

/-- The fields of `jwt.Token` the program reads. -/
structure Token where
  Header : List (GoString × Any)
  Claims : Bootstrap.Claims
  Valid : Bool
  deriving DecidableEq, Repr

/-- What the program takes from outside its own code: standard-library and `jwt-go` functions
that are not modelled, and the network. -/
structure World where
  /-- The function `strconv.Quote`. -/
  Quote : GoString → GoString
  /-- The function `url.Parse`. -/
  urlParse : GoString → Except GoError URL
  /-- The method `(*url.URL).String`. -/
  urlString : URL → GoString
  /-- The URL `http.NewRequest` stores in the request it builds from a URL string, or its
  error. -/
  newRequestURL : GoString → Except GoError URL
  /-- The exchange `http.Client.Do` performs for a request: a response or a transport error. -/
  roundTrip : HTTPRequest → Except GoError HTTPResponse
  /-- The call `json.Unmarshal(b, &payload)` in `LoadAccess`. -/
  unmarshalAccessPayload : GoString → Except GoError AccessPayload
  /-- The call `json.Unmarshal(b, &keyResponse)` in `loadPublicKey`. -/
  unmarshalPublicKeyResponse : GoString → Except GoError PublicKeyResponse
  /-- The function `jwt.ParseRSAPublicKeyFromPEM`. -/
  ParseRSAPublicKeyFromPEM : GoString → Except GoError RSAPublicKey
  /-- The function `jwt.Parse`, given the token string and the key function. -/
  jwtParse : GoString → (Token → Except GoError RSAPublicKey) → Except GoError Token

/-- What a validator or a loader does to the outside world, in order. -/
inductive Effect
  /-- A call of `LoadAccess` with these arguments. -/
  | LoadAccess (authorizationServiceURL userID token : GoString)
  /-- A request handed to the HTTP client. -/
  | Do (req : HTTPRequest)
  deriving DecidableEq, Repr

/-! ## Standard-library functions that are modelled -/

/-- The pieces of a string between occurrences of the byte `sep`. -/
def splitBy (sep : Nat) : GoString → List GoString
  | [] => [[]]
  | c :: rest =>
    if c = sep then [] :: splitBy sep rest
    else
      match splitBy sep rest with
      | [] => [[c]]
      | x :: xs => (c :: x) :: xs

/-- One element of a path met by `path.Clean`, with the elements kept so far (the latest
first): empty elements and `.` are dropped, `..` removes the element before it, or is kept at
the start of a path that is not rooted. -/
def cleanStep (rooted : Bool) (kept : List GoString) (elem : GoString) : List GoString :=
  if elem = [] ∨ elem = str "." then kept
  else if elem = str ".." then
    match kept with
    | [] => if rooted then [] else [elem]
    | top :: below => if top = str ".." then elem :: kept else below
  else elem :: kept

/-- Go's `path.Clean`. -/
def pathClean (path : GoString) : GoString :=
  if path = [] then str "."
  else
    let rooted := path.head? == some 47
    let kept := ((splitBy 47 path).foldl (cleanStep rooted) []).reverse
    let body := (kept.intersperse (str "/")).flatten
    if rooted then 47 :: body else if body = [] then str "." else body

/-- Go's `path.Join`: the non-empty elements joined by slashes and cleaned; the empty string
when every element is empty. -/
def pathJoin (elem : List GoString) : GoString :=
  match elem.filter (fun e => decide (e ≠ [])) with
  | [] => []
  | es => pathClean ((es.intersperse (str "/")).flatten)

/-- The verb `%d` of `fmt` on an `int`. -/
def fmtInt (n : Int) : GoString := str (toString n)

/-- The size of Go's `int` in bits (`strconv.IntSize`) on the 64-bit platforms the service
is built for. -/
def intSize : Nat := 64

/-- The digit loop of the fast path of `strconv.Atoi`; `ch -= '0'` wraps around on a byte. -/
def atoiDigits : GoString → Int → Option Int
  | [], n => some n
  | ch :: rest, n =>
    let d := (ch + 256 - 48) % 256
    if d > 9 then none else atoiDigits rest (n * 10 + d)

/-- The loop of `strconv.ParseUint` in base 10 for `intSize` bits, over `uint64`. -/
def parseUintLoop : GoString → Nat → Nat × Option NumErrKind
  | [], n => (n, none)
  | c :: rest, n =>
    if 48 ≤ c ∧ c ≤ 57 then
      let d := c - 48
      if n ≥ (2 ^ 64 - 1) / 10 + 1 then (2 ^ intSize - 1, some .ErrRange)
      else
        let n10 := n * 10 % 2 ^ 64
        let n1 := (n10 + d) % 2 ^ 64
        if n1 < n10 ∨ n1 > 2 ^ intSize - 1 then (2 ^ intSize - 1, some .ErrRange)
        else parseUintLoop rest n1
    else (0, some .ErrSyntax)

/-- Go's `strconv.ParseUint(s, 10, 0)`: value and kind of error. -/
def ParseUint (s : GoString) : Nat × Option NumErrKind :=
  if s = [] then (0, some .ErrSyntax) else parseUintLoop s 0

/-- Go's `strconv.ParseInt(s, 10, 0)`: value and kind of error. -/
def ParseInt (s : GoString) : Int × Option NumErrKind :=
  if s = [] then (0, some .ErrSyntax)
  else
    let neg := s.head? == some 45
    let s1 := if s.head? == some 43 ∨ s.head? == some 45 then s.drop 1 else s
    match ParseUint s1 with
    | (_, some .ErrSyntax) => (0, some .ErrSyntax)
    | (un, _) =>
      let cutoff : Nat := 2 ^ (intSize - 1)
      if ¬ neg ∧ un ≥ cutoff then ((cutoff : Int) - 1, some .ErrRange)
      else if neg ∧ un > cutoff then (-(cutoff : Int), some .ErrRange)
      else (if neg then -(un : Int) else (un : Int), none)

/-- Go's `strconv.Atoi`: the value and the error, a `*NumError` with `Func` set to `Atoi` and
`Num` the string as given. -/
def Atoi (w : World) (s : GoString) : Int × Option GoError :=
  if 0 < s.length ∧ s.length < 19 then
    let s1 := if s.head? == some 45 ∨ s.head? == some 43 then s.drop 1 else s
    if s1.length < 1 then (0, some (.numError (str "Atoi") s .ErrSyntax (w.Quote s)))
    else
      match atoiDigits s1 0 with
      | none => (0, some (.numError (str "Atoi") s .ErrSyntax (w.Quote s)))
      | some n => (if s.head? == some 45 then -n else n, none)
  else
    match ParseInt s with
    | (i64, some kind) => (i64, some (.numError (str "Atoi") s kind (w.Quote s)))
    | (i64, none) => (i64, none)

/-- The method `Header.Set`: the values under the canonical form of `key` become `[value]`. -/
def Header.Set (h : Header) (key value : GoString) : Header :=
  (CanonicalHeaderKey key, [value]) ::
    h.filter (fun kv => decide (kv.1 ≠ CanonicalHeaderKey key))

/-- Go's `http.NewRequest(method, url, nil)` for a valid method: a request with the parsed
URL and an empty header, or the parse error. -/
def NewRequest (w : World) (method url : GoString) : Except GoError HTTPRequest :=
  match w.newRequestURL url with
  | .error err => .error err
  | .ok u => .ok { Method := method, URL := u, Header := [] }

/-! ## Loading the access profile (`authorization/access.go`) -/

/-- The function `LoadAccess`: the profile or the error, and the requests it handed to the
HTTP client. (The deferred `resp.Body.Close()` only logs and changes no result.) -/
def LoadAccess (w : World) (authorizationServiceURL userID token : GoString) :
    Except GoError Access × List Effect :=
  match w.urlParse authorizationServiceURL with
  | .error err =>
    (.error (.errorString (str "unable to parse authorization service url: " ++ err.Error)), [])
  | .ok serverURL =>
    let serverURL := { serverURL with Path := pathJoin [serverURL.Path, str "access", userID] }
    match NewRequest w (str "GET") (w.urlString serverURL) with
    | .error err =>
      (.error (.errorString
        (str "unable to create a request to authorization service: " ++ err.Error)), [])
    | .ok req =>
      let req := { req with Header := req.Header.Set (str "iam") token }
      match w.roundTrip req with
      | .error err => (.error err, [.Do req])
      | .ok resp =>
        if resp.StatusCode ≠ 200 then
          (.error (.errorString (str "unable to retrieve access data '" ++ resp.Status ++
            str "', status " ++ fmtInt resp.StatusCode)), [.Do req])
        else
          match resp.Body with
          | .error err => (.error err, [.Do req])
          | .ok b =>
            match w.unmarshalAccessPayload b with
            | .error err =>
              (.error (.errorString
                (str "unable to unmarshal result from authorization service: " ++ err.Error)),
                [.Do req])
            | .ok payload =>
              if payload.Status ≠ str "success" then
                (.error (.errorString payload.Message), [.Do req])
              else (.ok payload.Data, [.Do req])

/-! ## Keys (`tokens/`) -/

/-- The error `jwt.ErrInvalidKey`. -/
def ErrInvalidKey : GoError := .errorString (str "key is invalid")

/-- The function `RetrieveKID`: the key id and the error. -/
def RetrieveKID (headers : List (GoString × Any)) : GoString × Option GoError :=
  match mapGet headers (str "kid") with
  | none => ([], some ErrInvalidKey)
  | some kid =>
    match kid.assertString with
    | (kidstr, true) => if kidstr ≠ [] then (kidstr, none) else ([], some ErrInvalidKey)
    | (_, false) => ([], some ErrInvalidKey)

/-- The function `loadPublicKey`: the key record or the error, and the requests handed to the
HTTP client (`http.Get` builds the request and sends it). -/
def loadPublicKey (w : World) (keyID keyServerURL : GoString) :
    Except GoError PublicKey × List Effect :=
  match w.urlParse keyServerURL with
  | .error err =>
    (.error (.errorString (str "unable to parse keys server url: " ++ err.Error)), [])
  | .ok serverURL =>
    let serverURL := { serverURL with Path := pathJoin [serverURL.Path, str "keys", keyID] }
    match NewRequest w (str "GET") (w.urlString serverURL) with
    | .error err =>
      (.error (.errorString (str "unable to fetch key from keys server: " ++ err.Error)), [])
    | .ok req =>
      match w.roundTrip req with
      | .error err =>
        (.error (.errorString (str "unable to fetch key from keys server: " ++ err.Error)),
          [.Do req])
      | .ok resp =>
        if resp.StatusCode ≠ 200 then
          (.error (.errorString (str "unable to retrieve license '" ++ resp.Status ++
            str "', status " ++ fmtInt resp.StatusCode)), [.Do req])
        else
          match resp.Body with
          | .error err =>
            (.error (.errorString
              (str "unable to read response from keys server: " ++ err.Error)), [.Do req])
          | .ok b =>
            match w.unmarshalPublicKeyResponse b with
            | .error err =>
              (.error (.errorString
                (str "unable to unmarshal result from keys server: " ++ err.Error)), [.Do req])
            | .ok keyResponse =>
              match keyResponse.Data with
              | none =>
                (.error (.errorString
                  (str "unexpected response body from keys server: " ++ b)), [.Do req])
              | some data =>
                if data.Key = [] then
                  (.error (.errorString
                    (str "unexpected response body from keys server: " ++ b)), [.Do req])
                else (.ok data, [.Do req])

/-- The function `RetrievePublicKey`. -/
def RetrievePublicKey (w : World) (keysServerURL keyID : GoString) :
    Except GoError RSAPublicKey × List Effect :=
  match loadPublicKey w keyID keysServerURL with
  | (.error err, sent) => (.error err, sent)
  | (.ok pubKey, sent) =>
    match w.ParseRSAPublicKeyFromPEM pubKey.Key with
    | .error err => (.error err, sent)
    | .ok verifyKey => (.ok verifyKey, sent)

/-! ## Verifying the token and validating its claims (`authorization/middleware.go`) -/

/-- The type `jwt.MapClaims`. -/
abbrev MapClaims := List (GoString × Any)

/-- What one run of a claims validator yields: the request and the error it returns, and
what it did to the outside world. -/
structure Validated where
  request : Request
  err : Option GoError
  effects : List Effect
  deriving DecidableEq, Repr

/-- The type `ClaimsValidator`. -/
abbrev ClaimsValidator := MapClaims → Request → Validated

def makeVerificationRSAKeyFn (w : World) (keysServerURL : GoString) :
    Token → Except GoError RSAPublicKey :=
  fun tk =>
    match RetrieveKID tk.Header with
    | (_, some err) => .error err
    | (kid, none) => (RetrievePublicKey w keysServerURL kid).1

/-- The handler `VerifyTokenMiddleware(keysServerURL, validator)(next)` run on `r`. -/
def VerifyTokenMiddleware (w : World) (keysServerURL : GoString) (validator : ClaimsValidator)
    (r : Request) : List Event :=
  match (r.ctx.Value (.RequestContext (str "token"))).assertString with
  | (_, false) => [Event.respond 500 (str "Internal Server Error: token not found")]
  | (tokenString, true) =>
    match w.jwtParse tokenString (makeVerificationRSAKeyFn w keysServerURL) with
    | .error err => [Event.respond 401 err.Error]
    | .ok token =>
      match token.Claims, token.Valid with
      | .MapClaims claims, true =>
        match (validator claims r).err with
        | some err => [Event.respond 401 err.Error]
        | none => [Event.next (validator claims r).request]
      | _, _ => [Event.respond 401 ErrTokenInvalid.Error]

/-- The validator `MakeAuthValidator(authorizationServiceURL, logger)`. -/
def MakeAuthValidator (w : World) (authorizationServiceURL : GoString) : ClaimsValidator :=
  fun claims r =>
    match mapGet claims (str "sub") with
    | none => ⟨r, some ErrSubNotFound, []⟩
    | some .nil => ⟨r, some ErrSubNotFound, []⟩
    | some sub =>
      match sub.assertString with
      | (_, false) => ⟨r, some ErrSubNotFound, []⟩
      | (subscription, true) =>
        match (r.ctx.Value (.RequestContext (str "token"))).assertString with
        | (_, false) => ⟨r, some ErrNoTokenFound, []⟩
        | (token, true) =>
          let call := Effect.LoadAccess authorizationServiceURL subscription token
          match LoadAccess w authorizationServiceURL subscription token with
          | (.error err, sent) => ⟨r, some err, call :: sent⟩
          | (.ok access, sent) =>
            match Atoi w subscription with
            | (_, some err) => ⟨r, some err, call :: sent⟩
            | (userID, none) =>
              let visitor : Visitor :=
                { UserID := userID, SignedIam := token, Access := some access }
              let ctx := WithValue r.ctx VisitorRequestContext (.visitor visitor)
              ⟨r.WithContext ctx, none, call :: sent⟩

/-! ## JSON values -/

/-- A JSON value, as `encoding/json` writes and reads one: a string is held as the Go string
it stands for, a number written as an integer literal by its value, any other number by its
literal. -/
inductive JSON
  | null
  | bool (b : Bool)
  | number (n : Int)
  | fraction (lit : GoString)
  | string (s : GoString)
  | array (items : List JSON)
  | object (members : List (GoString × JSON))

/-- What `encoding/json` contributes beyond the shape of the values: the text it writes for a
value, and its answer for Go values of types this model does not describe. -/
structure Encoding where
  /-- The text of a JSON value. -/
  render : JSON → GoString
  /-- The function `json.Marshal` on a value of another type. -/
  marshalForeign : Nat → Except GoError JSON
  /-- The function `json.Marshal` on a `LocaleTag`. -/
  marshalLocaleTag : LocaleTag → Except GoError JSON

/-- A member written with `omitempty` for a slice: left out when the slice has no element. -/
def sliceMember (name : GoString) (s : Int64Slice) : List (GoString × JSON) :=
  match s with
  | none => []
  | some [] => []
  | some (x :: xs) => [(name, .array ((x :: xs).map .number))]

/-- A member written with `omitempty` for a pointer: left out when the pointer is nil. -/
def ptrMember (name : GoString) (v : Option JSON) : List (GoString × JSON) :=
  match v with
  | none => []
  | some j => [(name, j)]

/-- The value `json.Marshal` writes for an `AdminType`. -/
def AdminType.toJSON (a : AdminType) : JSON := .object (sliceMember (str "ent") a.Ent)

/-- The value `json.Marshal` writes for an `FsAdminType`: the field of the embedded struct
first. -/
def FsAdminType.toJSON (a : FsAdminType) : JSON :=
  .object (sliceMember (str "ent") a.Ent ++ sliceMember (str "fundSrc") a.FundSrc)

/-- The value `json.Marshal` writes for a `TeacherType`. -/
def TeacherType.toJSON (a : TeacherType) : JSON := .object (sliceMember (str "cls") a.Cls)

/-- The value `json.Marshal` writes for a `TeamMemberType`. -/
def TeamMemberType.toJSON (a : TeamMemberType) : JSON :=
  .object (sliceMember (str "kid") a.Kid)

/-- The value `json.Marshal` writes for an `Access`: `SuperUser` always, each role only when
its pointer is not nil. -/
def Access.toJSON (a : Access) : JSON :=
  .object ([(str "SuperUser", .bool a.SuperUser)] ++
    ptrMember (str "Admin") (a.Admin.map AdminType.toJSON) ++
    ptrMember (str "VOAdmin") (a.VOAdmin.map AdminType.toJSON) ++
    ptrMember (str "VONoChildAdmin") (a.VONoChildAdmin.map AdminType.toJSON) ++
    ptrMember (str "FSAdmin") (a.FSAdmin.map FsAdminType.toJSON) ++
    ptrMember (str "FSVOAdmin") (a.FSVOAdmin.map FsAdminType.toJSON) ++
    ptrMember (str "Teacher") (a.Teacher.map TeacherType.toJSON) ++
    ptrMember (str "CoTeacher") (a.CoTeacher.map TeacherType.toJSON) ++
    ptrMember (str "AssistantTeacher") (a.AssistantTeacher.map TeacherType.toJSON) ++
    ptrMember (str "TeamMember") (a.TeamMember.map TeamMemberType.toJSON))

/-- The value `json.Marshal` writes for a `*Visitor`: the struct has no tags, so the members
carry the field names and a nil `Access` is written as `null`. -/
def Visitor.toJSON (v : Visitor) : JSON :=
  .object [(str "UserID", .number v.UserID), (str "SignedIam", .string v.SignedIam),
    (str "Access", match v.Access with
      | none => .null
      | some a => a.toJSON)]

/-- The value `json.Marshal` writes for an `interface{}` value, or its error. -/
def Any.toJSON (enc : Encoding) : Any → Except GoError JSON
  | .nil => .ok .null
  | .string s => .ok (.string s)
  | .int n => .ok (.number n)
  | .bool b => .ok (.bool b)
  | .visitor v => .ok v.toJSON
  | .access a => .ok a.toJSON
  | .localeTag t => enc.marshalLocaleTag t
  | .foreign id => enc.marshalForeign id

/-- The fields `Value` and `Type` of a `*json.UnmarshalTypeError`: the kind of JSON value met
and the Go type it does not fit. -/
structure UnmarshalTypeError where
  Value : GoString
  GoType : GoString
  deriving DecidableEq, Repr

/-- How the decoder names a JSON value in a type error. -/
def JSON.kind : JSON → GoString
  | .null => str "null"
  | .bool _ => str "bool"
  | .number _ => str "number"
  | .fraction _ => str "number"
  | .string _ => str "string"
  | .array _ => str "array"
  | .object _ => str "object"

/-- The decoder's comparison of a field name made of ASCII characters with a member name:
letters match without regard to case, and in the member name the Kelvin sign (U+212A) also
matches `k` and the long s (U+017F) also matches `s`. -/
def equalFold : GoString → GoString → Bool
  | [], [] => true
  | n :: ns, 226 :: 132 :: 170 :: ks => (upperByte n == 75) && equalFold ns ks
  | n :: ns, 197 :: 191 :: ks => (upperByte n == 83) && equalFold ns ks
  | n :: ns, k :: ks => (upperByte n == upperByte k) && equalFold ns ks
  | _, _ => false

/-- The field a member name selects among the names of a struct's fields: the field with
exactly that name, else the first field whose name matches it under `equalFold`. -/
def fieldIndex (names : List GoString) (key : GoString) : Option Nat :=
  match names.findIdx? (fun n => decide (n = key)) with
  | some i => some i
  | none => names.findIdx? (fun n => equalFold n key)

/-- Decoding a JSON value into an `int64` that holds `cur`: `null` leaves it, an integer
literal in range sets it. -/
def decodeInt64 (j : JSON) (cur : Int) : Except UnmarshalTypeError Int :=
  match j with
  | .null => .ok cur
  | .number n =>
    if -(2 ^ 63 : Int) ≤ n ∧ n < 2 ^ 63 then .ok n
    else .error ⟨str "number " ++ fmtInt n, str "int64"⟩
  | .fraction lit => .error ⟨str "number " ++ lit, str "int64"⟩
  | other => .error ⟨other.kind, str "int64"⟩

/-- Decoding the elements of a JSON array into the elements of a slice: the element at an
index the slice already has starts from the value held there, any other from zero. -/
def decodeInt64Elems : List JSON → List Int → Except UnmarshalTypeError (List Int)
  | [], _ => .ok []
  | j :: js, cur =>
    match decodeInt64 j (cur.headD 0) with
    | .error e => .error e
    | .ok x =>
      match decodeInt64Elems js cur.tail with
      | .error e => .error e
      | .ok xs => .ok (x :: xs)

/-- Decoding a JSON value into a `[]int64` that holds `cur`: `null` makes it nil, an array
gives it the array's elements. -/
def decodeInt64Slice (j : JSON) (cur : Int64Slice) : Except UnmarshalTypeError Int64Slice :=
  match j with
  | .null => .ok none
  | .array items =>
    match decodeInt64Elems items (cur.getD []) with
    | .error e => .error e
    | .ok xs => .ok (some xs)
  | other => .error ⟨other.kind, str "[]int64"⟩

/-- Decoding a JSON value into a `bool` that holds `cur`. -/
def decodeBool (j : JSON) (cur : Bool) : Except UnmarshalTypeError Bool :=
  match j with
  | .null => .ok cur
  | .bool b => .ok b
  | other => .error ⟨other.kind, str "bool"⟩

/-- Decoding the members of a JSON object one after the other into a struct value; a member
that selects no field is skipped by `step` itself. -/
def decodeMembers {α : Type} (step : α → GoString × JSON → Except UnmarshalTypeError α) :
    List (GoString × JSON) → α → Except UnmarshalTypeError α
  | [], cur => .ok cur
  | m :: ms, cur =>
    match step cur m with
    | .error e => .error e
    | .ok next => decodeMembers step ms next

/-- Decoding a JSON value into a pointer to a struct that holds `cur`: `null` makes the
pointer nil, an object is decoded into the struct pointed to, a new one if there is none. -/
def decodePtr {α : Type} (typeName : GoString) (zero : α)
    (step : α → GoString × JSON → Except UnmarshalTypeError α) (j : JSON) (cur : Option α) :
    Except UnmarshalTypeError (Option α) :=
  match j with
  | .null => .ok none
  | .object members =>
    match decodeMembers step members (cur.getD zero) with
    | .error e => .error e
    | .ok v => .ok (some v)
  | other => .error ⟨other.kind, typeName⟩

def AdminType.decodeMember (cur : AdminType) (m : GoString × JSON) :
    Except UnmarshalTypeError AdminType :=
  match fieldIndex [str "ent"] m.1 with
  | some 0 =>
    match decodeInt64Slice m.2 cur.Ent with
    | .error e => .error e
    | .ok v => .ok { cur with Ent := v }
  | _ => .ok cur

def FsAdminType.decodeMember (cur : FsAdminType) (m : GoString × JSON) :
    Except UnmarshalTypeError FsAdminType :=
  match fieldIndex [str "ent", str "fundSrc"] m.1 with
  | some 0 =>
    match decodeInt64Slice m.2 cur.Ent with
    | .error e => .error e
    | .ok v => .ok { cur with Ent := v }
  | some 1 =>
    match decodeInt64Slice m.2 cur.FundSrc with
    | .error e => .error e
    | .ok v => .ok { cur with FundSrc := v }
  | _ => .ok cur

def TeacherType.decodeMember (cur : TeacherType) (m : GoString × JSON) :
    Except UnmarshalTypeError TeacherType :=
  match fieldIndex [str "cls"] m.1 with
  | some 0 =>
    match decodeInt64Slice m.2 cur.Cls with
    | .error e => .error e
    | .ok v => .ok { cur with Cls := v }
  | _ => .ok cur

def TeamMemberType.decodeMember (cur : TeamMemberType) (m : GoString × JSON) :
    Except UnmarshalTypeError TeamMemberType :=
  match fieldIndex [str "kid"] m.1 with
  | some 0 =>
    match decodeInt64Slice m.2 cur.Kid with
    | .error e => .error e
    | .ok v => .ok { cur with Kid := v }
  | _ => .ok cur

def decodeAdmin : JSON → Option AdminType → Except UnmarshalTypeError (Option AdminType) :=
  decodePtr (str "authorization.AdminType") ⟨none⟩ AdminType.decodeMember

def decodeFsAdmin : JSON → Option FsAdminType → Except UnmarshalTypeError (Option FsAdminType) :=
  decodePtr (str "authorization.FsAdminType") ⟨none, none⟩ FsAdminType.decodeMember

def decodeTeacher : JSON → Option TeacherType → Except UnmarshalTypeError (Option TeacherType) :=
  decodePtr (str "authorization.TeacherType") ⟨none⟩ TeacherType.decodeMember

def decodeTeamMember :
    JSON → Option TeamMemberType → Except UnmarshalTypeError (Option TeamMemberType) :=
  decodePtr (str "authorization.TeamMemberType") ⟨none⟩ TeamMemberType.decodeMember

/-- The names of the fields of `Access` in JSON, in the order of the struct. -/
def accessFieldNames : List GoString :=
  [str "SuperUser", str "Admin", str "VOAdmin", str "VONoChildAdmin", str "FSAdmin",
    str "FSVOAdmin", str "Teacher", str "CoTeacher", str "AssistantTeacher", str "TeamMember"]

/-- Decoding one member of a JSON object into an `Access`. -/
def Access.decodeMember (cur : Access) (m : GoString × JSON) :
    Except UnmarshalTypeError Access :=
  match fieldIndex accessFieldNames m.1 with
  | some 0 => (decodeBool m.2 cur.SuperUser).map (fun v => { cur with SuperUser := v })
  | some 1 => (decodeAdmin m.2 cur.Admin).map (fun v => { cur with Admin := v })
  | some 2 => (decodeAdmin m.2 cur.VOAdmin).map (fun v => { cur with VOAdmin := v })
  | some 3 =>
    (decodeAdmin m.2 cur.VONoChildAdmin).map (fun v => { cur with VONoChildAdmin := v })
  | some 4 => (decodeFsAdmin m.2 cur.FSAdmin).map (fun v => { cur with FSAdmin := v })
  | some 5 => (decodeFsAdmin m.2 cur.FSVOAdmin).map (fun v => { cur with FSVOAdmin := v })
  | some 6 => (decodeTeacher m.2 cur.Teacher).map (fun v => { cur with Teacher := v })
  | some 7 => (decodeTeacher m.2 cur.CoTeacher).map (fun v => { cur with CoTeacher := v })
  | some 8 =>
    (decodeTeacher m.2 cur.AssistantTeacher).map (fun v => { cur with AssistantTeacher := v })
  | some 9 => (decodeTeamMember m.2 cur.TeamMember).map (fun v => { cur with TeamMember := v })
  | _ => .ok cur

/-- Decoding a JSON value into an `Access` that holds `cur`, as `json.Unmarshal` does with a
pointer to it: `null` leaves it, an object is decoded member by member, and the first value
that does not fit its field ends the decoding with a type error. -/
def Access.decode (j : JSON) (cur : Access) : Except UnmarshalTypeError Access :=
  match j with
  | .null => .ok cur
  | .object members => decodeMembers Access.decodeMember members cur
  | other => .error ⟨other.kind, str "authorization.Access"⟩

/-- Deserializing into a new `Access`: every field starts from its zero value. -/
def Access.fromJSON (j : JSON) : Except UnmarshalTypeError Access :=
  Access.decode j
    { SuperUser := false, Admin := none, VOAdmin := none, VONoChildAdmin := none,
      FSAdmin := none, FSVOAdmin := none, Teacher := none, CoTeacher := none,
      AssistantTeacher := none, TeamMember := none }

/-! ## The response envelope (`response/`) -/

/-- A Go map with string keys after `m[k] = v`: the binding of `k` is replaced where it
stands, a new binding is added at the end. -/
def mapSet {β : Type} : List (GoString × β) → GoString → β → List (GoString × β)
  | [], key, v => [(key, v)]
  | (k, x) :: rest, key, v =>
    if k = key then (k, v) :: rest else (k, x) :: mapSet rest key v

/-- Parameters useful for paging through a subset. -/
structure Pagination where
  Offset : Int
  Limit : Int
  TotalRecords : Int
  deriving DecidableEq, Repr

/-- Individual validation failure metadata. -/
structure ValidationFailureResponse where
  Field : GoString
  Tag : GoString
  Value : Any
  Allowed : Any
  deriving DecidableEq, Repr

/-- A collection of validation failure responses. -/
abbrev ValidationResponses := List ValidationFailureResponse

/-- A value of the interface `ValidationFailure`: what its four methods return. -/
structure ValidationFailure where
  Field : GoString
  Tag : GoString
  Value : Any
  Param : GoString
  deriving DecidableEq, Repr

/-- The standard format for REST/JSON response bodies; a nil pointer is `none`. -/
structure StandardBody where
  Message : GoString
  Status : GoString
  Data : Any
  Pagination : Option Bootstrap.Pagination
  Validations : Option ValidationResponses
  deriving DecidableEq, Repr

/-- The type `StandardResponse`; a nil `headers` map is `none`, and the slice of validation
failures is the list of its elements. -/
structure StandardResponse where
  StatusCode : Int
  Message : GoString
  Data : Any
  pagination : Option Pagination
  validationFailures : List ValidationFailure
  headers : Option Header
  deriving DecidableEq, Repr

def CorsAllowedHeaders : GoString := str "authorization, origin, content-type"

def CorsAllowedMethods : GoString := str "GET, POST, PUT, DELETE, PATCH, OPTIONS"

/-- The method `AddHeader`: adds an HTTP header using canonical header case. -/
def StandardResponse.AddHeader (r : StandardResponse) (key value : GoString) :
    StandardResponse :=
  let cleanKey := CanonicalHeaderKey key
  let headers := match r.headers with
    | none => []
    | some h => h
  let headers := match mapGet headers cleanKey with
    | none => mapSet headers cleanKey []
    | some _ => headers
  let headers := mapSet headers cleanKey ((mapGet headers cleanKey).getD [] ++ [value])
  { r with headers := some headers }

/-- The method `AddCookie`: adds a `Set-Cookie` header; `cookieText` is what
`cookie.String()` returns for its cookie. -/
def StandardResponse.AddCookie (r : StandardResponse) (cookieText : GoString) :
    StandardResponse :=
  r.AddHeader (str "Set-Cookie") cookieText

/-- The function `New`: a standard response with defaults. -/
def New : StandardResponse :=
  StandardResponse.AddHeader
    { StatusCode := 0, Message := [], Data := .nil, pagination := none,
      validationFailures := [], headers := none }
    (str "Content-Type") (str "application/json")

/-- The method `AddCorsHeaders`. -/
def StandardResponse.AddCorsHeaders (r : StandardResponse) (origin : GoString) :
    StandardResponse :=
  let r := r.AddHeader (str "Access-Control-Allow-Origin") origin
  let r := r.AddHeader (str "Access-Control-Allow-Methods") CorsAllowedMethods
  let r := r.AddHeader (str "Access-Control-Allow-Headers") CorsAllowedHeaders
  r.AddHeader (str "Access-Control-Allow-Credentials") (str "true")

/-- The function `NewWithCors`. -/
def NewWithCors (origin : GoString) : StandardResponse := New.AddCorsHeaders origin

/-- The method `GetHeaders`. -/
def StandardResponse.GetHeaders (r : StandardResponse) : Option Header := r.headers

/-- The method `SetValidationFailures`. -/
def StandardResponse.SetValidationFailures (r : StandardResponse)
    (f : List ValidationFailure) : StandardResponse :=
  { r with validationFailures := f }

/-- The method `AddValidationFailure`. -/
def StandardResponse.AddValidationFailure (r : StandardResponse) (f : ValidationFailure) :
    StandardResponse :=
  { r with validationFailures := r.validationFailures ++ [f] }

/-- The method `SetPagination`; a nil pointer is `none`. -/
def StandardResponse.SetPagination (r : StandardResponse) (p : Option Pagination) :
    StandardResponse :=
  { r with pagination := p }

def getStatus (code : Int) : GoString :=
  if code < 1 then str ""
  else if code > 0 ∧ code < 200 then str "info"
  else if code > 199 ∧ code < 300 then str "success"
  else if code > 299 ∧ code < 400 then str "redirect"
  else if code > 399 ∧ code < 500 then str "client error"
  else str "server error"

/-- The loop of `prepareValidationResponses`: `responses[i]` is set for the failures from
index `i` on. -/
def prepareLoop : List ValidationFailure → Nat → ValidationResponses → ValidationResponses
  | [], _, responses => responses
  | err :: rest, i, responses =>
    prepareLoop rest (i + 1)
      (responses.set i
        { Field := err.Field, Tag := err.Tag, Value := err.Value, Allowed := .string err.Param })

/-- The function `prepareValidationResponses`: a slice of as many zero values as there are
failures, filled by the loop. -/
def prepareValidationResponses (errs : List ValidationFailure) : ValidationResponses :=
  prepareLoop errs 0
    (List.replicate errs.length { Field := [], Tag := [], Value := .nil, Allowed := .nil })

/-- The method `BuildBody`: builds a standard response body in a consistent format. -/
def StandardResponse.BuildBody (r : StandardResponse) : StandardBody :=
  let body : StandardBody :=
    { Status := getStatus r.StatusCode, Message := r.Message, Data := r.Data,
      Pagination := none, Validations := none }
  let validations := prepareValidationResponses r.validationFailures
  let body := if validations.length > 0 then { body with Validations := some validations }
    else body
  let body := if r.pagination ≠ none then { body with Pagination := r.pagination } else body
  body

/-- The value `json.Marshal` writes for a `Pagination`. -/
def Pagination.toJSON (p : Pagination) : JSON :=
  .object [(str "offset", .number p.Offset), (str "limit", .number p.Limit),
    (str "totalRecords", .number p.TotalRecords)]

/-- The value `json.Marshal` writes for a `ValidationFailureResponse`, or its error. -/
def ValidationFailureResponse.toJSON (enc : Encoding) (v : ValidationFailureResponse) :
    Except GoError JSON :=
  match v.Value.toJSON enc with
  | .error e => .error e
  | .ok value =>
    match v.Allowed.toJSON enc with
    | .error e => .error e
    | .ok allowed =>
      .ok (.object [(str "field", .string v.Field), (str "tag", .string v.Tag),
        (str "value", value), (str "allowed", allowed)])

/-- The values of a list of validation failure responses, or the first error. -/
def validationsToJSON (enc : Encoding) : ValidationResponses → Except GoError (List JSON)
  | [] => .ok []
  | v :: vs =>
    match v.toJSON enc with
    | .error e => .error e
    | .ok j =>
      match validationsToJSON enc vs with
      | .error e => .error e
      | .ok js => .ok (j :: js)

/-- The value `json.Marshal` writes for a `*StandardBody`, or its error: `message` and
`status` always, `data` unless it is the nil interface, `pagination` and `validations` unless
their pointers are nil. -/
def StandardBody.toJSON (enc : Encoding) (body : StandardBody) : Except GoError JSON :=
  match (if body.Data = .nil then .ok [] else
      match body.Data.toJSON enc with
      | .error e => .error e
      | .ok j => .ok [(str "data", j)] : Except GoError (List (GoString × JSON))) with
  | .error e => .error e
  | .ok data =>
    match (match body.Validations with
      | none => .ok []
      | some vs =>
        match validationsToJSON enc vs with
        | .error e => .error e
        | .ok js => .ok [(str "validations", JSON.array js)] :
        Except GoError (List (GoString × JSON))) with
    | .error e => .error e
    | .ok validations =>
      .ok (.object ([(str "message", .string body.Message),
        (str "status", .string body.Status)] ++ data ++
        ptrMember (str "pagination") (body.Pagination.map Pagination.toJSON) ++ validations))

/-- The function `json.Marshal` on a `*StandardBody`: the text of its value, or the error. -/
def jsonMarshalBody (enc : Encoding) (body : StandardBody) : Except GoError GoString :=
  match body.toJSON enc with
  | .error e => .error e
  | .ok j => .ok (enc.render j)

/-- An `http.ResponseWriter`: its header map, the status code of the response once the header
is written, the body written so far, and the error its `Write` returns, if it fails. -/
structure ResponseWriter where
  Header : Bootstrap.Header
  Code : Option Int
  Body : GoString
  writeError : Option GoError
  deriving DecidableEq, Repr

/-- The method `Header.Add`: the value is appended to the values under the canonical form
of `key`. -/
def Header.Add (h : Header) (key value : GoString) : Header :=
  mapSet h (CanonicalHeaderKey key) ((mapGet h (CanonicalHeaderKey key)).getD [] ++ [value])

/-- The method `WriteHeader`: the status code is set unless the header is already written. -/
def ResponseWriter.WriteHeader (w : ResponseWriter) (statusCode : Int) : ResponseWriter :=
  match w.Code with
  | none => { w with Code := some statusCode }
  | some _ => w

/-- The method `Write`: the header is written with status 200 if it is not yet written, and
the bytes are added to the body unless the writer fails. -/
def ResponseWriter.Write (w : ResponseWriter) (b : GoString) : ResponseWriter × Option GoError :=
  let w := w.WriteHeader 200
  match w.writeError with
  | some err => (w, some err)
  | none => ({ w with Body := w.Body ++ b }, none)

/-- The loops of `Send` over `sr.headers`: every value is added to the writer's header under
its key. (Go ranges over the map in no fixed order; the keys are distinct, so the resulting
map does not depend on it.) -/
def addHeaders (w : ResponseWriter) (headers : Header) : ResponseWriter :=
  headers.foldl
    (fun w kv => kv.2.foldl (fun w value => { w with Header := w.Header.Add kv.1 value }) w) w

/-- The function `Send`: writes a `StandardResponse` to the given `ResponseWriter`; the
writer afterwards and the error returned. -/
def Send (enc : Encoding) (w : ResponseWriter) (sr : StandardResponse) :
    ResponseWriter × Option GoError :=
  let body := sr.BuildBody
  match jsonMarshalBody enc body with
  | .error err => (w, some err)
  | .ok b =>
    let w := addHeaders w (sr.headers.getD [])
    if sr.StatusCode = 0 then (w, some (.errorString (str "status code must be set")))
    else
      let w := w.WriteHeader sr.StatusCode
      match w.Write b with
      | (w, some err) => (w, some err)
      | (w, none) => (w, none)

/-! ## The origin check (`middlewares/origins.go`) -/

/-- The context key used to retrieve the request's origin. -/
def originTagKey : CtxKey := .bootstrapContextKey (str "origin")

/-- The function `OriginFromContext`: the origin value of the context; `none` when the type
assertion panics because the value is not a string. -/
def OriginFromContext (ctx : Context) : Option GoString :=
  match ctx.Value originTagKey with
  | .string s => some s
  | _ => none

/-- A warning written to the logger: its message and its string fields. -/
structure LogEvent where
  Msg : GoString
  Fields : List (GoString × GoString)
  deriving DecidableEq, Repr

/-- What a handler of the package `middleware` did: the writer when it returns, the requests
it passed to `next.ServeHTTP` in order, and what it logged. -/
structure Handled where
  w : ResponseWriter
  next : List Request
  logged : List LogEvent
  deriving DecidableEq, Repr

/-- The handler `ValidateOriginMiddleware(allowedOrigins, logger)(next)` run on `r` with the
writer `w`. -/
def ValidateOriginMiddleware (enc : Encoding) (allowedOrigins : List GoString)
    (w : ResponseWriter) (r : Request) : Handled :=
  let originsMap := allowedOrigins.foldl (fun m o => mapSet m o ()) []
  let originIn := r.Header.Get (str "Origin")
  let denyResp := New
  let denyResp := { denyResp with StatusCode := 400 }
  let denyResp := { denyResp with Message := str "Origin is not permitted" }
  if originIn = [] then
    let denyResp := { denyResp with Message := str "Origin is required" }
    { w := (Send enc w denyResp).1, next := [],
      logged := [{ Msg := str "Request has no Origin header", Fields := [] }] }
  else
    match mapGet originsMap originIn with
    | some _ =>
      { w := w, next := [r.WithContext (WithValue r.ctx originTagKey (.string originIn))],
        logged := [] }
    | none =>
      { w := (Send enc w denyResp).1, next := [],
        logged := [{ Msg := str "Origin is not permitted",
                     Fields := [(str "originIn", originIn)] }] }

/-! ## The locale of a request (`middlewares/locale.go`) -/

/-- The context key of the locale tag. -/
def localeTagKey : CtxKey := .bootstrapContextKey (str "LocaleTag")

/-- The functions of `golang.org/x/text/language` the middleware calls. -/
structure LanguageLib where
  /-- The function `language.ParseBase`. -/
  ParseBase : GoString → Except GoError Base
  /-- The function `language.ParseRegion`. -/
  ParseRegion : GoString → Except GoError Region

/-- The function `LocaleTagFromContext`: the locale tag of the context; `none` when the type
assertion panics because the value is not a `LocaleTag`. -/
def LocaleTagFromContext (ctx : Context) : Option LocaleTag :=
  match ctx.Value localeTagKey with
  | .localeTag tag => some tag
  | _ => none

/-- Go's `http.Error`: the content type is set to plain text, the header is written with
`code` and the text is written as one line. -/
def httpError (w : ResponseWriter) (error : GoString) (code : Int) : ResponseWriter :=
  let w := { w with Header := w.Header.Set (str "Content-Type") (str "text/plain; charset=utf-8") }
  let w := { w with Header := w.Header.Set (str "X-Content-Type-Options") (str "nosniff") }
  let w := w.WriteHeader code
  (w.Write (error ++ [10])).1

/-- The handler `localeMiddleware(next)` run on `r` with the writer `w`; `localeParam` is
what `chi.URLParam(r, "locale")` returns. The result is `none` when an index expression
`locale[i]` panics because `i` is out of range. `strings.Split(localeStr, "-")` is
`splitBy 45`, and `http.StatusText(http.StatusNotFound)` is `Not Found`. -/
def localeMiddleware (lib : LanguageLib) (w : ResponseWriter) (r : Request)
    (localeParam : GoString) : Option Handled :=
  let localeStr := localeParam
  let localeStr := if localeStr = [] then str "en-us" else localeStr
  let locale := splitBy 45 localeStr
  match locale[0]? with
  | none => none
  | some locale0 =>
    let base := lib.ParseBase locale0
    match locale[1]? with
    | none => none
    | some locale1 =>
      let region := lib.ParseRegion locale1
      match base, region with
      | .ok base, .ok region =>
        let localeTag : LocaleTag := { Language := base, Region := region, Variant := [] }
        let localeTag : Option LocaleTag :=
          if locale.length > 2 then
            match locale[2]? with
            | none => none
            | some locale2 => some { localeTag with Variant := locale2 }
          else some localeTag
        match localeTag with
        | none => none
        | some localeTag =>
          let ctx := WithValue r.ctx localeTagKey (.localeTag localeTag)
          some { w := w, next := [r.WithContext ctx], logged := [] }
      | _, _ => some { w := httpError w (str "Not Found") 404, next := [], logged := [] }

/-! ## Utilities (`utils/utilities.go`) -/

/-- The conversion `string(b)` of a byte `b`: the UTF-8 encoding of the code point `b`. -/
def stringOfByte (b : Nat) : GoString :=
  if b < 128 then [b] else [192 + b / 64, 128 + b % 64]

/-- Go's `unicode.ToLower` on a code point below 256: the letters `A`..`Z` and the
upper-case letters of Latin-1 (U+00C0..U+00DE without the sign U+00D7) are moved up by 32. -/
def runeToLower (r : Nat) : Nat :=
  if (65 ≤ r ∧ r ≤ 90) ∨ (192 ≤ r ∧ r ≤ 222 ∧ r ≠ 215) then r + 32 else r

/-- The function `ToCamelCase`: `strings.ToLower(string(s[0])) + s[1:]`, the empty string as
it is. The string `string(s[0])` holds the one code point `s[0]`, so its lower case is the
encoding of the lower case of that code point. -/
def ToCamelCase (s : GoString) : GoString :=
  match s with
  | [] => s
  | b :: rest =>
    let first := stringOfByte (runeToLower b)
    first ++ rest

/-! ## Dates (`jsontime/date.go`) -/

/-- A `time.Time`, as far as its calendar date goes: the instant in seconds since the Unix
epoch, and the offset east of UTC, in seconds, that the location of the time has at that
instant. -/
structure Time where
  unix : Int
  offset : Int
  deriving DecidableEq, Repr

/-- The method `UTC`: the same instant with the location set to UTC. -/
def Time.UTC (t : Time) : Time := { t with offset := 0 }

/-- The year, month and day of the day that lies `days` days after 1970-01-01, in the
proleptic Gregorian calendar; the divisions round down. -/
def civilFromDays (days : Int) : Int × Int × Int :=
  let z := days + 719468
  let era := z / 146097
  let doe := z - era * 146097
  let yoe := (doe - doe / 1460 + doe / 36524 - doe / 146096) / 365
  let doy := doe - (365 * yoe + yoe / 4 - yoe / 100)
  let mp := (5 * doy + 2) / 153
  let d := doy - (153 * mp + 2) / 5 + 1
  let m := if mp < 10 then mp + 3 else mp - 9
  (if m ≤ 2 then yoe + era * 400 + 1 else yoe + era * 400, m, d)

/-- The method `Date`: the year, month and day in which the time occurs, in its location. -/
def Time.Date (t : Time) : Int × Int × Int := civilFromDays ((t.unix + t.offset) / 86400)

/-- The function `appendInt` of package `time`: the decimal text of `x`, padded with zeros to
`width` digits, after a minus sign when `x` is negative. -/
def appendInt (x : Int) (width : Nat) : GoString :=
  let digits := fmtInt (x.natAbs : Int)
  let padded := List.replicate (width - digits.length) 48 ++ digits
  if x < 0 then 45 :: padded else padded

/-- The loop of `Time.Format` over a layout whose elements are `2006` (the year), `01` (the
month) and `02` (the day of the month); a byte that starts none of them is copied. -/
def formatLoop (year month day : Int) : GoString → GoString
  | [] => []
  | 50 :: 48 :: 48 :: 54 :: rest => appendInt year 4 ++ formatLoop year month day rest
  | 48 :: 49 :: rest => appendInt month 2 ++ formatLoop year month day rest
  | 48 :: 50 :: rest => appendInt day 2 ++ formatLoop year month day rest
  | c :: rest => c :: formatLoop year month day rest

/-- The method `Format`, for layouts of years, months, days and separators. -/
def Time.Format (t : Time) (layout : GoString) : GoString :=
  formatLoop t.Date.1 t.Date.2.1 t.Date.2.2 layout

/-- The layout that matches the ISO standard for dates. -/
def DateFormat : GoString := str "2006-01-02"

/-- The type `Date`: a `time.Time` under another name. -/
abbrev Date := Time

/-- The method `Time` of a `Date`. -/
def Date.Time (d : Date) : Time := d

/-- The method `MarshalJSON`: the bytes and the error, which is always nil. -/
def Date.MarshalJSON (d : Date) : GoString × Option GoError :=
  let stamp := str "\"" ++ Time.Format d DateFormat ++ str "\""
  (stamp, none)

/-- The method `String`: converts a `Date` into a `DateFormat` string. -/
def Date.String (d : Date) : GoString :=
  (Date.Time d).UTC.Format DateFormat

/-! ## Definitions that follow the wording of the specification -/

/-- The results of the four locating strategies on a request, in the order the specification
lists them: `Authorization` header, query parameter `iam`, cookie `iam`, header `iam`. -/
def strategyResults (r : Request) : List GoString :=
  [iamTokenFromHeader (str "Authorization") r, iamTokenFromQuery r, iamTokenFromCookie r,
    iamTokenFromHeader (str "iam") r]

/-- The first six bytes of `h` are the letters of `Bearer`, in either case. -/
def hasBearerLetters (h : GoString) : Prop := (h.take 6).map lowerByte = str "bearer"

instance (h : GoString) : Decidable (hasBearerLetters h) := by
  unfold hasBearerLetters; infer_instance

/-- The header value begins with `"Bearer "` as the specification words it: the six letters
compared case-insensitively, followed by a space. -/
def beginsWithBearerSpace (h : GoString) : Prop := hasBearerLetters h ∧ h[6]? = some 32

instance (h : GoString) : Decidable (beginsWithBearerSpace h) := by
  unfold beginsWithBearerSpace; infer_instance

/-- A request whose `Authorization` header is `BearerXabc`. -/
def requestBearerX : Request :=
  { Header := [(str "Authorization", [str "BearerXabc"])], Query := [], Cookies := [], ctx := [] }

/-- A request with the header `Authorization: Bearer abc` and the query `?iam=xyz`. -/
def requestBearerAndQuery : Request :=
  { Header := [(str "Authorization", [str "Bearer abc"])], Query := [(str "iam", [str "xyz"])],
    Cookies := [], ctx := [] }

/-- A request that carries no credential at all, only an unrelated header. -/
def requestNoToken : Request :=
  { Header := [(str "Accept", [str "*/*"])], Query := [], Cookies := [], ctx := [] }

/-- The key under which `FindTokenMiddleware` stores the credential. -/
def tokenKey : CtxKey := .RequestContext (str "token")

/-- The profile `{"SuperUser":true}`. -/
def accessSuperUser : Access :=
  { SuperUser := true, Admin := none, VOAdmin := none, VONoChildAdmin := none, FSAdmin := none,
    FSVOAdmin := none, Teacher := none, CoTeacher := none, AssistantTeacher := none,
    TeamMember := none }

/-- The URL `http://auth` with the given path. -/
def urlAuth (path : GoString) : URL :=
  { Scheme := str "http", Opaque := [], User := none, Host := str "auth", Path := path,
    RawPath := [], ForceQuery := false, RawQuery := [], Fragment := [] }

/-- A world in which the access service at `http://auth` answers every request with HTTP 200
and `{"Status":"success", "Data": {"SuperUser":true}, "Message": "OK"}`, and `jwt.Parse`
accepts every token string, with the claims `{"sub": "116"}`. -/
def worldSuccess : World :=
  { Quote := fun s => [34] ++ s ++ [34]
    urlParse := fun _ => .ok (urlAuth [])
    urlString := fun u => u.Scheme ++ str "://" ++ u.Host ++ str "/" ++ u.Path
    newRequestURL := fun s => .ok (urlAuth (s.drop 11))
    roundTrip := fun _ =>
      .ok { Status := str "200 OK", StatusCode := 200,
            Body := .ok (str "\x7b\"Status\":\"success\", \"Data\": \x7b\"SuperUser\":true\x7d, \"Message\": \"OK\"\x7d") }
    unmarshalAccessPayload := fun _ =>
      .ok { Message := str "OK", Data := accessSuperUser, Status := str "success" }
    unmarshalPublicKeyResponse := fun _ => .error (.foreign (str "unexpected end of JSON input"))
    ParseRSAPublicKeyFromPEM := fun _ => .error (.foreign (str "Invalid Key"))
    jwtParse := fun _ _ =>
      .ok { Header := [], Claims := .MapClaims [(str "sub", .string (str "116"))],
            Valid := true } }

/-- A world like `worldSuccess` in which `jwt.Parse` rejects every token string. -/
def worldParseFails : World :=
  { worldSuccess with
    jwtParse := fun _ _ => .error (.foreign (str "token contains an invalid number of segments")) }

/-- A request whose context holds the credential `T`. -/
def requestWithToken : Request :=
  { Header := [], Query := [], Cookies := [], ctx := [(tokenKey, .string (str "T"))] }

/-- A validator that rejects everything with `unable to validate (fake err)`. -/
def fakeErrValidator : ClaimsValidator :=
  fun _ r => ⟨r, some (.errorString (str "unable to validate (fake err)")), []⟩

/-- A call of one of the two functions that reach a remote service. -/
inductive RemoteCall
  | RetrievePublicKey (keysServerURL keyID : GoString)
  | LoadAccess (authorizationServiceURL userID token : GoString)
  deriving DecidableEq, Repr

/-- What one call hands to the HTTP client when the requests of `trace` have been made before
it. The outside world may keep state: `net trace` is the world as it is after the requests of
`trace`, so what a server answers may depend on every request that came before. -/
def RemoteCall.effects (net : List Effect → World) (trace : List Effect) :
    RemoteCall → List Effect
  | .RetrievePublicKey keysServerURL keyID =>
    (Bootstrap.RetrievePublicKey (net trace) keysServerURL keyID).2
  | .LoadAccess url userID token => (Bootstrap.LoadAccess (net trace) url userID token).2

/-- A path as it stands in the text of a URL after the host: the empty path and a path that
begins with a slash as they are, any other path after a slash. -/
def withLeadingSlash (p : GoString) : GoString :=
  if p = [] ∨ p.head? = some 47 then p else 47 :: p

/-- The law of `net/url` the loaders rely on, for a base URL `u` with a host: for every path,
the text `(*URL).String` writes for `u` with that path is parsed again without error by
`http.NewRequest`, and the path of the parsed URL is that path, after a slash when it is not
empty and does not begin with one. -/
def World.rendersPaths (w : World) (u : URL) : Prop :=
  ∀ p : GoString, ∃ u1, w.newRequestURL (w.urlString { u with Path := p }) = .ok u1 ∧
    u1.Path = withLeadingSlash p

/-- An `http` URL with a four-letter host, read off its text: `http://host` and the path. -/
def parseHTTP4 (s : GoString) : URL :=
  { Scheme := str "http", Opaque := [], User := none, Host := (s.drop 7).take 4,
    Path := s.drop 11, RawPath := [], ForceQuery := false, RawQuery := [], Fragment := [] }

/-- The text of a URL with a scheme and a host: a path that does not start with a slash is
written after one. -/
def renderHTTP (u : URL) : GoString :=
  u.Scheme ++ str "://" ++ u.Host ++
    (if u.Path = [] ∨ u.Path.head? = some 47 then u.Path else 47 :: u.Path)

/-- A world in which the service answers every request with the given status line, status code
and body, and the two decoders of `encoding/json` answer as given. -/
def worldReply (status : GoString) (code : Int) (body : GoString)
    (access : Except GoError AccessPayload) (key : Except GoError PublicKeyResponse) : World :=
  { worldSuccess with
    urlParse := fun s => .ok (parseHTTP4 s)
    urlString := renderHTTP
    newRequestURL := fun s => .ok (parseHTTP4 s)
    roundTrip := fun _ => .ok { Status := status, StatusCode := code, Body := .ok body }
    unmarshalAccessPayload := fun _ => access
    unmarshalPublicKeyResponse := fun _ => key }

/-- The zero value of `Access`. -/
def accessZero : Access :=
  { SuperUser := false, Admin := none, VOAdmin := none, VONoChildAdmin := none, FSAdmin := none,
    FSVOAdmin := none, Teacher := none, CoTeacher := none, AssistantTeacher := none,
    TeamMember := none }

/-- The key server answers `404 Not Found` with an empty body. -/
def worldKeys404 : World :=
  worldReply (str "404 Not Found") 404 []
    (.error (.foreign (str "unexpected end of JSON input")))
    (.error (.foreign (str "unexpected end of JSON input")))

/-- The key server answers HTTP 200 with the body `{"key":"123"}`, which decodes to a
response without `data`. -/
def worldKeysNoData : World :=
  worldReply (str "200 OK") 200 (str "\x7b\"key\":\"123\"\x7d")
    (.error (.foreign (str "unexpected end of JSON input")))
    (.ok { Message := [], Status := [], Data := none })

/-- The key server answers HTTP 200 with the body `[]`: valid JSON without a `data` object,
which `json.Unmarshal` does not decode into a struct. -/
def worldKeysArray : World :=
  worldReply (str "200 OK") 200 (str "[]")
    (.error (.foreign
      (str "json: cannot unmarshal array into Go value of type struct \x7b Message string; Data authorization.Access; Status string \x7d")))
    (.error (.foreign
      (str "json: cannot unmarshal array into Go value of type tokens.PublicKeyResponse")))

/-- The access service answers HTTP 200 with `{"Message":"fail message","Status":"fail"}`. -/
def worldAccessFail : World :=
  worldReply (str "200 OK") 200 (str "\x7b\"Message\":\"fail message\",\"Status\":\"fail\"\x7d")
    (.ok { Message := str "fail message", Data := accessZero, Status := str "fail" })
    (.error (.foreign (str "unexpected end of JSON input")))

/-- The access service answers HTTP 200 with
`{"Message":"","Status":"success", "Data":{"SuperUser":false}}`. -/
def worldAccessZero : World :=
  worldReply (str "200 OK") 200
    (str "\x7b\"Message\":\"\",\"Status\":\"success\", \"Data\":\x7b\"SuperUser\":false\x7d\x7d")
    (.ok { Message := [], Data := accessZero, Status := str "success" })
    (.error (.foreign (str "unexpected end of JSON input")))

/-- The request `GET http://keys/keys/42`. -/
def requestKeys42 : HTTPRequest :=
  { Method := str "GET", URL := parseHTTP4 (str "http://keys/keys/42"), Header := [] }

/-- The request `GET http://auth/access/42`, before the `iam` header is set. -/
def requestAccess42 : HTTPRequest :=
  { Method := str "GET", URL := parseHTTP4 (str "http://auth/access/42"), Header := [] }

/-- A plain path element: not empty, without a slash, and neither `.` nor `..`. -/
def plainElem (e : GoString) : Prop := e ≠ [] ∧ 47 ∉ e ∧ e ≠ str "." ∧ e ≠ str ".."

instance (e : GoString) : Decidable (plainElem e) := by
  unfold plainElem; infer_instance

/-- The rooted path made of the given elements: each is written after a slash. -/
def rootedPath (elems : List GoString) : GoString := (elems.map (fun e => 47 :: e)).flatten

/-- The ids of a slice: a nil slice and an empty slice both have none. -/
def idsOf (s : Int64Slice) : List Int := s.getD []

/-- Every id of the slice is a value of `int64`. -/
def sliceInRange (s : Int64Slice) : Bool :=
  (idsOf s).all (fun n => decide (-(2 ^ 63 : Int) ≤ n ∧ n < 2 ^ 63))

/-- Every id of the profile is a value of `int64`, as the Go type says. -/
def Access.inRange (p : Access) : Bool :=
  (p.Admin.all (fun a => sliceInRange a.Ent)) &&
  (p.VOAdmin.all (fun a => sliceInRange a.Ent)) &&
  (p.VONoChildAdmin.all (fun a => sliceInRange a.Ent)) &&
  (p.FSAdmin.all (fun a => sliceInRange a.Ent && sliceInRange a.FundSrc)) &&
  (p.FSVOAdmin.all (fun a => sliceInRange a.Ent && sliceInRange a.FundSrc)) &&
  (p.Teacher.all (fun a => sliceInRange a.Cls)) &&
  (p.CoTeacher.all (fun a => sliceInRange a.Cls)) &&
  (p.AssistantTeacher.all (fun a => sliceInRange a.Cls)) &&
  (p.TeamMember.all (fun a => sliceInRange a.Kid))

/-- Two profiles agree as the round-trip property words it: the same `SuperUser` flag, the
same role fields present and absent, and in each present role the same ids, an omitted list
and an empty list not being told apart. -/
def sameProfile (p q : Access) : Prop :=
  p.SuperUser = q.SuperUser ∧
  p.Admin.map (fun a => idsOf a.Ent) = q.Admin.map (fun a => idsOf a.Ent) ∧
  p.VOAdmin.map (fun a => idsOf a.Ent) = q.VOAdmin.map (fun a => idsOf a.Ent) ∧
  p.VONoChildAdmin.map (fun a => idsOf a.Ent) = q.VONoChildAdmin.map (fun a => idsOf a.Ent) ∧
  p.FSAdmin.map (fun a => (idsOf a.Ent, idsOf a.FundSrc)) =
    q.FSAdmin.map (fun a => (idsOf a.Ent, idsOf a.FundSrc)) ∧
  p.FSVOAdmin.map (fun a => (idsOf a.Ent, idsOf a.FundSrc)) =
    q.FSVOAdmin.map (fun a => (idsOf a.Ent, idsOf a.FundSrc)) ∧
  p.Teacher.map (fun a => idsOf a.Cls) = q.Teacher.map (fun a => idsOf a.Cls) ∧
  p.CoTeacher.map (fun a => idsOf a.Cls) = q.CoTeacher.map (fun a => idsOf a.Cls) ∧
  p.AssistantTeacher.map (fun a => idsOf a.Cls) =
    q.AssistantTeacher.map (fun a => idsOf a.Cls) ∧
  p.TeamMember.map (fun a => idsOf a.Kid) = q.TeamMember.map (fun a => idsOf a.Kid)

/-- A slice as it comes back from JSON: a slice without elements comes back nil. -/
def normSlice (s : Int64Slice) : Int64Slice :=
  match s with
  | some (x :: xs) => some (x :: xs)
  | _ => none

/-- A profile as it comes back from JSON: every list without elements is nil. -/
def Access.normalize (p : Access) : Access :=
  { SuperUser := p.SuperUser
    Admin := p.Admin.map (fun a => ⟨normSlice a.Ent⟩)
    VOAdmin := p.VOAdmin.map (fun a => ⟨normSlice a.Ent⟩)
    VONoChildAdmin := p.VONoChildAdmin.map (fun a => ⟨normSlice a.Ent⟩)
    FSAdmin := p.FSAdmin.map (fun a => ⟨normSlice a.Ent, normSlice a.FundSrc⟩)
    FSVOAdmin := p.FSVOAdmin.map (fun a => ⟨normSlice a.Ent, normSlice a.FundSrc⟩)
    Teacher := p.Teacher.map (fun a => ⟨normSlice a.Cls⟩)
    CoTeacher := p.CoTeacher.map (fun a => ⟨normSlice a.Cls⟩)
    AssistantTeacher := p.AssistantTeacher.map (fun a => ⟨normSlice a.Cls⟩)
    TeamMember := p.TeamMember.map (fun a => ⟨normSlice a.Kid⟩) }

/-- A profile with roles, empty lists and ids. -/
def accessMixed : Access :=
  { SuperUser := true, Admin := some ⟨some [1, 2]⟩, VOAdmin := none, VONoChildAdmin := none,
    FSAdmin := some ⟨some [], some [5]⟩, FSVOAdmin := none, Teacher := some ⟨none⟩,
    CoTeacher := none, AssistantTeacher := none, TeamMember := some ⟨some [-7]⟩ }

/-- The profile under construction after the decoder has read `SuperUser` and the first `k`
roles of the serialization of `p`. -/
def Access.decodedUpTo (p : Access) (k : Nat) : Access :=
  { SuperUser := p.SuperUser
    Admin := if 1 ≤ k then p.normalize.Admin else none
    VOAdmin := if 2 ≤ k then p.normalize.VOAdmin else none
    VONoChildAdmin := if 3 ≤ k then p.normalize.VONoChildAdmin else none
    FSAdmin := if 4 ≤ k then p.normalize.FSAdmin else none
    FSVOAdmin := if 5 ≤ k then p.normalize.FSVOAdmin else none
    Teacher := if 6 ≤ k then p.normalize.Teacher else none
    CoTeacher := if 7 ≤ k then p.normalize.CoTeacher else none
    AssistantTeacher := if 8 ≤ k then p.normalize.AssistantTeacher else none
    TeamMember := if 9 ≤ k then p.normalize.TeamMember else none }

/-- The JSON value of a response body that has only a message and a status. -/
def envelope (message status : GoString) : JSON :=
  .object [(str "message", .string message), (str "status", .string status)]

/-- An encoding that writes the two-member envelope as Go does, for texts that need no
escaping, and knows no other Go types. -/
def encodingPlain : Encoding :=
  { render := fun j =>
      match j with
      | .object [(_, .string message), (_, .string status)] =>
        str "\x7b\"message\":\"" ++ message ++ str "\",\"status\":\"" ++ status ++
          str "\"\x7d"
      | _ => str "null"
    marshalForeign := fun _ => .error (.foreign (str "json: unsupported type"))
    marshalLocaleTag := fun _ => .error (.foreign (str "json: unsupported type")) }

/-- A writer nothing has been written to. -/
def writerNew : ResponseWriter := { Header := [], Code := none, Body := [], writeError := none }

/-- A request with the header `Origin: http://abc.com`. -/
def requestOriginAbc : Request :=
  { Header := [(str "Origin", [str "http://abc.com"])], Query := [], Cookies := [], ctx := [] }

/-- A request with the header `Origin: http://notallowed.com`. -/
def requestOriginOther : Request :=
  { Header := [(str "Origin", [str "http://notallowed.com"])], Query := [], Cookies := [],
    ctx := [] }

/-- The allowed origins of the repository's test. -/
def allowedOriginsTest : List GoString := [str "http://abc.com", str "http://123.com"]

/-- The response the origin check denies a request with, field by field. -/
def denyResponse (msg : GoString) : StandardResponse :=
  { StatusCode := 400, Message := msg, Data := .nil, pagination := none,
    validationFailures := [],
    headers := some [(str "Content-Type", [str "application/json"])] }

/-- The event is a call of the next handler. -/
def Event.isNext : Event → Bool
  | .next _ => true
  | .respond _ _ => false

/-- The six ranges of status codes the specification lists, by their number. -/
def statusRange (code : Int) : Nat → Prop
  | 0 => code < 1
  | 1 => 1 ≤ code ∧ code ≤ 199
  | 2 => 200 ≤ code ∧ code ≤ 299
  | 3 => 300 ≤ code ∧ code ≤ 399
  | 4 => 400 ≤ code ∧ code ≤ 499
  | 5 => 500 ≤ code
  | _ => False

/-- The status texts of the six ranges, by their number. -/
def statusText : Nat → GoString
  | 0 => str ""
  | 1 => str "info"
  | 2 => str "success"
  | 3 => str "redirect"
  | 4 => str "client error"
  | _ => str "server error"

/-- The date 2020-01-01 00:30 in a location two hours east of UTC, which is 2019-12-31 22:30
in UTC. -/
def dateNewYearEast : Date := { unix := 1577831400, offset := 7200 }

/-- Go's `strings.ReplaceAll` for one-byte strings: every byte `old` replaced by `new`. -/
def replaceByte (old new : Nat) (s : GoString) : GoString :=
  s.map (fun c => if c = old then new else c)

/-- The text consists of lower-case letters `a`..`z`; the empty text does. -/
def lowerLetters (s : GoString) : Prop := ∀ c ∈ s, 97 ≤ c ∧ c ≤ 122

instance (s : GoString) : Decidable (lowerLetters s) := by
  unfold lowerLetters; infer_instance

/-- The text matches `[a-z]{2,3}`. -/
def lowerLetters23 (s : GoString) : Prop := 2 ≤ s.length ∧ s.length ≤ 3 ∧ lowerLetters s

instance (s : GoString) : Decidable (lowerLetters23 s) := by
  unfold lowerLetters23; infer_instance

/-- The text matches the first alternative of the route pattern of `AddLocale`,
`^[a-z]{2,3}\-[a-z]{2,3}(\-[a-z]{2,3})?$`; the second alternative, `^$`, matches the empty
text only. -/
def matchesLocalePattern (s : GoString) : Prop :=
  ∃ a b, lowerLetters23 a ∧ lowerLetters23 b ∧
    (s = a ++ 45 :: b ∨ ∃ c, lowerLetters23 c ∧ s = a ++ 45 :: (b ++ 45 :: c))

/-- The locale tag `en-us-nc`. -/
def localeTagEnUsNc : LocaleTag :=
  { Language := { code := str "en" }, Region := .iso 20 18, Variant := str "nc" }

/-- A library that knows the language `en` and the region `us`. -/
def languageLibEnUs : LanguageLib :=
  { ParseBase := fun s =>
      if s = str "en" then .ok { code := str "en" }
      else .error (.foreign (str "language: tag is not well-formed"))
    ParseRegion := fun s =>
      if s = str "us" then .ok (.iso 20 18)
      else .error (.foreign (str "language: tag is not well-formed")) }

/-- The decimal numeral of a natural number: its digits, without leading zeros. -/
def decimal (n : Nat) : GoString :=
  if n < 10 then [48 + n] else decimal (n / 10) ++ [48 + n % 10]
termination_by n
decreasing_by omega

/-- The number a text of decimal digits denotes, read after the digits of `acc`. -/
def digitsValue (ds : GoString) (acc : Nat) : Nat :=
  ds.foldl (fun a c => a * 10 + (c - 48)) acc

/-- The text is a decimal numeral without sign: digits only, at least one, and no leading
zero unless the text is `0`. -/
def canonicalDigits (ds : GoString) : Prop :=
  ds ≠ [] ∧ (∀ c ∈ ds, 48 ≤ c ∧ c ≤ 57) ∧ (ds.head? = some 48 → ds = [48])

instance (ds : GoString) : Decidable (canonicalDigits ds) := by
  unfold canonicalDigits; infer_instance

/-- The text is the decimal rendering of an integer: a numeral without sign, or a minus sign
followed by a numeral other than `0`. -/
def canonicalDecimal (s : GoString) : Prop :=
  canonicalDigits s ∨ (s.head? = some 45 ∧ canonicalDigits (s.drop 1) ∧ s.drop 1 ≠ [48])

instance (s : GoString) : Decidable (canonicalDecimal s) := by
  unfold canonicalDecimal; infer_instance

/-- The bearer-stripping rule as the specification words it: a header value longer than seven
bytes that begins with `"Bearer "` (the six letters in either case, followed by a space) loses
its first seven bytes; every other value is used in full. -/
def bearerStripped (h : GoString) : GoString :=
  if h.length > 7 ∧ beginsWithBearerSpace h then h.drop 7 else h

/-- A header value on which the separator after the letters is as the specification expects
it: when the value is longer than seven bytes and begins with the six letters of `Bearer`, its
seventh byte is a space. -/
def bearerSeparated (h : GoString) : Prop :=
  h.length > 7 → hasBearerLetters h → h[6]? = some 32

instance (h : GoString) : Decidable (bearerSeparated h) := by
  unfold bearerSeparated; infer_instance

/-- The value of the cookie with the given name in the request: that of the first cookie with
that name, the empty string when there is none. -/
def cookieValue (r : Request) (name : GoString) : GoString :=
  match r.Cookies.find? (fun c => decide (c.Name = name)) with
  | some c => c.Value
  | none => []

/-- What the four locating strategies of the specification yield, read off the request, in
the order of the specification: the `Authorization` header with the bearer prefix stripped,
the query parameter `iam`, the cookie `iam`, the header `iam` with the bearer prefix
stripped. -/
def locatorResults (r : Request) : List GoString :=
  [bearerStripped (r.Header.Get (str "Authorization")), Values.Get r.Query (str "iam"),
    cookieValue r (str "iam"), bearerStripped (r.Header.Get (str "iam"))]

/-- A request that carries the credential only in the cookie `iam`. -/
def requestCookieOnly : Request :=
  { Header := [(str "Accept", [str "*/*"])], Query := [(str "page", [str "2"])],
    Cookies := [{ Name := str "session", Value := str "s1" },
                { Name := str "iam", Value := str "tok" }],
    ctx := [] }

/-- What `jwt.Parse` of `jwt-go` does with its key function. The token string is decoded
without the key function, and a failure to decode is returned as it is; the decoded token is
handed to the key function, and when the key function fails `Parse` returns a
`*ValidationError` whose `Inner` is that error, so that its text is the text of that error.
`decode` is the decoding step. -/
def World.jwtParseContract (w : World) (decode : GoString → Except GoError Token) : Prop :=
  ∀ (s : GoString) (keyFunc : Token → Except GoError RSAPublicKey),
    match decode s with
    | .error e => w.jwtParse s keyFunc = .error e
    | .ok tk =>
      match keyFunc tk with
      | .error e => ∃ ve, w.jwtParse s keyFunc = .error ve ∧ ve.Error = e.Error
      | .ok _ => True

/-- A token, not yet verified, whose header names the key `42`. -/
def tokenKid42 : Token :=
  { Header := [(str "kid", .string (str "42"))],
    Claims := .MapClaims [(str "sub", .string (str "116"))], Valid := false }

/-- A world in which every token string decodes to `tokenKid42`, `jwt.Parse` wraps the error
of the key function, and the key server answers `404 Not Found`. -/
def worldKeyFn404 : World :=
  { worldKeys404 with
    jwtParse := fun _ keyFunc =>
      match keyFunc tokenKid42 with
      | .error e => .error (.foreign e.Error)
      | .ok _ => .ok { tokenKid42 with Valid := true } }

/-- A world like `worldKeyFn404` in which the key server answers HTTP 200 with a key that
`jwt.ParseRSAPublicKeyFromPEM` accepts, so that `jwt.Parse` returns the token as valid. -/
def worldKeyFnOK : World :=
  { worldReply (str "200 OK") 200
      (str "\x7b\"data\":\x7b\"keyID\":\"42\",\"key\":\"PEM\"\x7d\x7d")
      (.error (.foreign (str "unexpected end of JSON input")))
      (.ok { Message := [], Status := [],
             Data := some { KeyID := str "42", CreatedOn := 0, SourceID := [],
                            Key := str "PEM" } }) with
    ParseRSAPublicKeyFromPEM := fun _ => .ok { N := 3233, E := 17 }
    jwtParse := fun _ keyFunc =>
      match keyFunc tokenKid42 with
      | .error e => .error (.foreign e.Error)
      | .ok _ => .ok { tokenKid42 with Valid := true } }

/-! ## Lemmas -/

theorem findTokenLoop_eq_of_find (r : Request) (fns : List (Request → GoString))
    (t0 tok : GoString)
    (h : (fns.map (fun fn => fn r)).find? (fun t => decide (t ≠ [])) = some tok) :
    findTokenLoop r fns t0 = tok := by
  induction fns generalizing t0 with
  | nil => simp at h
  | cons fn rest ih =>
    simp only [List.map_cons, List.find?_cons] at h
    unfold findTokenLoop
    by_cases hfn : fn r = []
    · simp only [hfn, ne_eq, not_true_eq_false, decide_False] at h
      simp only [hfn, ne_eq, not_true_eq_false, if_false]
      exact ih [] h
    · simp only [ne_eq, hfn, not_false_eq_true, decide_True, Option.some.injEq] at h
      simp only [ne_eq, hfn, not_false_eq_true, if_true]
      exact h

theorem findTokenLoop_eq_nil_of_all (r : Request) (fns : List (Request → GoString))
    (h : ∀ fn ∈ fns, fn r = []) : findTokenLoop r fns [] = [] := by
  induction fns with
  | nil => rfl
  | cons fn rest ih =>
    unfold findTokenLoop
    have hfn : fn r = [] := h fn (List.mem_cons_self _ _)
    simp only [hfn, ne_eq, not_true_eq_false, if_false]
    exact ih (fun g hg => h g (List.mem_cons_of_mem _ hg))

theorem str_Bearer_space : str "Bearer " = [66, 101, 97, 114, 101, 114, 32] := by decide

theorem iamTokenFromHeader_Bearer (header : GoString) (r : Request) (X : GoString)
    (hX : X ≠ []) (h : r.Header.Get header = str "Bearer " ++ X) :
    iamTokenFromHeader header r = X := by
  unfold iamTokenFromHeader
  simp only [h, str_Bearer_space]
  have hlen : ([66, 101, 97, 114, 101, 114, 32] ++ X).length > 7 := by
    cases X with
    | nil => exact absurd rfl hX
    | cons x xs => simp
  have hup : ToUpper (List.take 6 ([66, 101, 97, 114, 101, 114, 32] ++ X)) = str "BEARER" := by
    simp only [List.cons_append, List.nil_append, List.take_succ_cons, List.take_zero]
    decide
  rw [if_pos ⟨hlen, hup⟩]
  simp

theorem upperByte_eq_iff_lowerByte_eq (a b : Nat) :
    upperByte a = upperByte b ↔ lowerByte a = lowerByte b := by
  unfold upperByte lowerByte
  split_ifs <;> omega

theorem map_upperByte_eq_iff (xs ys : GoString) :
    xs.map upperByte = ys.map upperByte ↔ xs.map lowerByte = ys.map lowerByte := by
  induction xs generalizing ys with
  | nil => cases ys <;> simp
  | cons x xs ih =>
    cases ys with
    | nil => simp
    | cons y ys =>
      simp only [List.map_cons, List.cons.injEq]
      rw [upperByte_eq_iff_lowerByte_eq, ih]

theorem ToUpper_eq_BEARER_iff (x : GoString) :
    ToUpper x = str "BEARER" ↔ x.map lowerByte = str "bearer" := by
  have h1 : str "BEARER" = (str "bearer").map upperByte := by decide
  have h2 : str "bearer" = (str "bearer").map lowerByte := by decide
  unfold ToUpper
  rw [h1, map_upperByte_eq_iff, ← h2]

/-- What `iamTokenFromHeader` computes from a header value: the value without its first seven
bytes when it is longer than seven bytes and starts with the letters of `Bearer` in either
case, the value itself otherwise. The seventh byte is not looked at. -/
theorem iamTokenFromHeader_eq (header : GoString) (r : Request) :
    iamTokenFromHeader header r =
      if (r.Header.Get header).length > 7 ∧ hasBearerLetters (r.Header.Get header) then
        (r.Header.Get header).drop 7
      else r.Header.Get header := by
  unfold iamTokenFromHeader hasBearerLetters
  simp only [ToUpper_eq_BEARER_iff]

theorem assertString_true (v : Any) (s : GoString) (h : v.assertString = (s, true)) :
    v = .string s := by
  cases v <;> simp_all [Any.assertString]

/-- A reply `LoadAccess` accepts: one request was sent, the answer had status code 200, its
body was read and decoded, and the decoded `status` is `success`; the profile is the decoded
`data`. -/
theorem LoadAccess_ok_inv (w : World) (url userID token : GoString) (P : Access)
    (h : (LoadAccess w url userID token).1 = .ok P) :
    ∃ req resp b payload,
      (LoadAccess w url userID token).2 = [Effect.Do req] ∧
      w.roundTrip req = .ok resp ∧ resp.StatusCode = 200 ∧ resp.Body = .ok b ∧
      w.unmarshalAccessPayload b = .ok payload ∧ payload.Status = str "success" ∧
      payload.Data = P := by
  unfold LoadAccess at h ⊢
  cases hu : w.urlParse url with
  | error e => simp [hu] at h
  | ok u =>
    simp only [hu] at h ⊢
    cases hreq : NewRequest w (str "GET")
        (w.urlString { u with Path := pathJoin [u.Path, str "access", userID] }) with
    | error e => simp [hreq] at h
    | ok req =>
      simp only [hreq] at h ⊢
      cases hresp : w.roundTrip { req with Header := req.Header.Set (str "iam") token } with
      | error e => simp [hresp] at h
      | ok resp =>
        simp only [hresp] at h ⊢
        by_cases hcode : resp.StatusCode = 200
        · simp only [hcode, ne_eq, not_true_eq_false, if_false] at h ⊢
          cases hb : resp.Body with
          | error e => simp [hb] at h
          | ok b =>
            simp only [hb] at h ⊢
            cases hpay : w.unmarshalAccessPayload b with
            | error e => simp [hpay] at h
            | ok payload =>
              simp only [hpay] at h ⊢
              by_cases hstatus : payload.Status = str "success"
              · simp only [hstatus, ne_eq, not_true_eq_false, if_false] at h ⊢
                exact ⟨_, resp, b, payload, rfl, hresp, hcode, hb, hpay, hstatus,
                  by simpa using h⟩
              · simp [hstatus] at h
        · simp [hcode] at h

/-- The string `Atoi` accepts is not empty. -/
theorem Atoi_ok_ne_nil (w : World) (s : GoString) (h : (Atoi w s).2 = none) : s ≠ [] := by
  intro hs
  subst hs
  simp [Atoi, ParseInt] at h

/-- The error of `Atoi` is a `*NumError` naming `Atoi` and the string as given. -/
theorem Atoi_error_form (w : World) (s : GoString) (e : GoError) (h : (Atoi w s).2 = some e) :
    ∃ kind, e = .numError (str "Atoi") s kind (w.Quote s) := by
  unfold Atoi at h
  by_cases hfast : 0 < s.length ∧ s.length < 19
  · rw [if_pos hfast] at h
    dsimp only at h
    generalize (if s.head? == some 45 ∨ s.head? == some 43 then s.drop 1 else s) = s1 at h
    by_cases hlen : s1.length < 1
    · rw [if_pos hlen] at h
      exact ⟨.ErrSyntax, (Option.some.inj h).symm⟩
    · rw [if_neg hlen] at h
      cases hd : atoiDigits s1 0 with
      | none =>
        rw [hd] at h
        exact ⟨.ErrSyntax, (Option.some.inj h).symm⟩
      | some n =>
        rw [hd] at h
        simp at h
  · rw [if_neg hfast] at h
    rcases hp : ParseInt s with ⟨i64, _ | kind⟩
    · rw [hp] at h
      simp at h
    · rw [hp] at h
      exact ⟨kind, (Option.some.inj h).symm⟩

/-- The validator with a string subject and a string credential: what it returns in terms of
the results of `LoadAccess` and `Atoi`. -/
theorem MakeAuthValidator_eq (w : World) (url : GoString) (claims : MapClaims) (r : Request)
    (s T : GoString) (hsub : mapGet claims (str "sub") = some (.string s))
    (hT : r.ctx.Value (.RequestContext (str "token")) = .string T) :
    MakeAuthValidator w url claims r =
      match LoadAccess w url s T with
      | (.error err, sent) => ⟨r, some err, Effect.LoadAccess url s T :: sent⟩
      | (.ok access, sent) =>
        match Atoi w s with
        | (_, some err) => ⟨r, some err, Effect.LoadAccess url s T :: sent⟩
        | (userID, none) =>
          ⟨r.WithContext (WithValue r.ctx VisitorRequestContext
            (.visitor { UserID := userID, SignedIam := T, Access := some access })), none,
            Effect.LoadAccess url s T :: sent⟩ := by
  unfold MakeAuthValidator
  simp only [hsub, hT, Any.assertString]

/-- Whenever the validator returns an error it returns the request it was given. -/
theorem MakeAuthValidator_err_request (w : World) (url : GoString) (claims : MapClaims)
    (r : Request) (e : GoError) (h : (MakeAuthValidator w url claims r).err = some e) :
    (MakeAuthValidator w url claims r).request = r := by
  cases hsub : mapGet claims (str "sub") with
  | none => simp [MakeAuthValidator, hsub]
  | some v =>
    cases v with
    | string s =>
      cases hT : r.ctx.Value (.RequestContext (str "token")) with
      | string T =>
        rw [MakeAuthValidator_eq w url claims r s T hsub hT] at h ⊢
        generalize LoadAccess w url s T = res at h ⊢
        rcases res with ⟨_ | access, sent⟩
        · rfl
        · generalize Atoi w s = parsed at h ⊢
          rcases parsed with ⟨n, _ | e1⟩
          · exact absurd h (by simp)
          · rfl
      | _ => simp [MakeAuthValidator, hsub, hT, Any.assertString]
    | _ => simp [MakeAuthValidator, hsub, Any.assertString]

/-- A run of the validator without error: the subject is a string, the context holds a string
credential, `LoadAccess` accepted the reply, `Atoi` parsed the subject, and the returned
request is the given one with the visitor bound in its context. -/
theorem MakeAuthValidator_ok_inv (w : World) (url : GoString) (claims : MapClaims)
    (r : Request) (h : (MakeAuthValidator w url claims r).err = none) :
    ∃ s T P n sent,
      mapGet claims (str "sub") = some (.string s) ∧
      r.ctx.Value (.RequestContext (str "token")) = .string T ∧
      LoadAccess w url s T = (.ok P, sent) ∧ Atoi w s = (n, none) ∧
      MakeAuthValidator w url claims r =
        ⟨r.WithContext (WithValue r.ctx VisitorRequestContext
          (.visitor { UserID := n, SignedIam := T, Access := some P })), none,
          Effect.LoadAccess url s T :: sent⟩ := by
  cases hsub : mapGet claims (str "sub") with
  | none => simp [MakeAuthValidator, hsub] at h
  | some sub =>
    cases sub with
    | string s =>
      cases hT : r.ctx.Value (.RequestContext (str "token")) with
      | string T =>
        rw [MakeAuthValidator_eq w url claims r s T hsub hT] at h ⊢
        cases hL : LoadAccess w url s T with
        | mk res sent =>
          cases res with
          | error e => simp [hL] at h
          | ok P =>
            cases hA : Atoi w s with
            | mk n oe =>
              cases oe with
              | some e => simp [hL, hA] at h
              | none => exact ⟨s, T, P, n, sent, rfl, rfl, hL, hA, rfl⟩
      | _ => simp [MakeAuthValidator, hsub, hT, Any.assertString] at h
    | _ => simp [MakeAuthValidator, hsub, Any.assertString] at h

theorem VisitorRequestContext_ne_access :
    VisitorRequestContext ≠ .RequestContext (str "access") := by decide

/-- The middleware on a request without a string credential. -/
theorem VerifyTokenMiddleware_no_credential (w : World) (url : GoString)
    (validator : ClaimsValidator) (r : Request)
    (h : ∀ s, r.ctx.Value (.RequestContext (str "token")) ≠ .string s) :
    VerifyTokenMiddleware w url validator r =
      [Event.respond 500 (str "Internal Server Error: token not found")] := by
  unfold VerifyTokenMiddleware
  cases hv : r.ctx.Value (.RequestContext (str "token")) with
  | string s => exact absurd hv (h s)
  | _ => simp [Any.assertString]

/-- The middleware on a request with the string credential `s`. -/
theorem VerifyTokenMiddleware_eq (w : World) (url : GoString) (validator : ClaimsValidator)
    (r : Request) (s : GoString) (h : r.ctx.Value (.RequestContext (str "token")) = .string s) :
    VerifyTokenMiddleware w url validator r =
      match w.jwtParse s (makeVerificationRSAKeyFn w url) with
      | .error err => [Event.respond 401 err.Error]
      | .ok token =>
        match token.Claims, token.Valid with
        | .MapClaims claims, true =>
          match (validator claims r).err with
          | some err => [Event.respond 401 err.Error]
          | none => [Event.next (validator claims r).request]
        | _, _ => [Event.respond 401 ErrTokenInvalid.Error] := by
  unfold VerifyTokenMiddleware
  simp only [h, Any.assertString]

/-- With a string credential, the middleware either answers 401 once or calls next once. -/
theorem VerifyTokenMiddleware_cases (w : World) (url : GoString) (validator : ClaimsValidator)
    (r : Request) (s : GoString) (h : r.ctx.Value (.RequestContext (str "token")) = .string s) :
    (∃ m, VerifyTokenMiddleware w url validator r = [Event.respond 401 m]) ∨
      ∃ r1, VerifyTokenMiddleware w url validator r = [Event.next r1] := by
  rw [VerifyTokenMiddleware_eq w url validator r s h]
  cases w.jwtParse s (makeVerificationRSAKeyFn w url) with
  | error e => exact Or.inl ⟨_, rfl⟩
  | ok token =>
    rcases token with ⟨hd, cl, valid⟩
    cases cl with
    | foreign id => exact Or.inl ⟨_, rfl⟩
    | MapClaims claims =>
      cases valid with
      | false => exact Or.inl ⟨_, rfl⟩
      | true =>
        simp only
        cases (validator claims r).err with
        | some e => exact Or.inl ⟨_, rfl⟩
        | none => exact Or.inr ⟨_, rfl⟩

/-- The key loader once the URL is parsed, the request built and a response received. -/
theorem loadPublicKey_eq (w : World) (keyID keyServerURL : GoString) (u : URL)
    (req : HTTPRequest) (resp : HTTPResponse) (hu : w.urlParse keyServerURL = .ok u)
    (hreq : NewRequest w (str "GET")
      (w.urlString { u with Path := pathJoin [u.Path, str "keys", keyID] }) = .ok req)
    (hresp : w.roundTrip req = .ok resp) :
    loadPublicKey w keyID keyServerURL =
      if resp.StatusCode ≠ 200 then
        (.error (.errorString (str "unable to retrieve license '" ++ resp.Status ++
          str "', status " ++ fmtInt resp.StatusCode)), [.Do req])
      else
        match resp.Body with
        | .error err =>
          (.error (.errorString
            (str "unable to read response from keys server: " ++ err.Error)), [.Do req])
        | .ok b =>
          match w.unmarshalPublicKeyResponse b with
          | .error err =>
            (.error (.errorString
              (str "unable to unmarshal result from keys server: " ++ err.Error)), [.Do req])
          | .ok keyResponse =>
            match keyResponse.Data with
            | none =>
              (.error (.errorString
                (str "unexpected response body from keys server: " ++ b)), [.Do req])
            | some data =>
              if data.Key = [] then
                (.error (.errorString
                  (str "unexpected response body from keys server: " ++ b)), [.Do req])
              else (.ok data, [.Do req]) := by
  unfold loadPublicKey
  simp only [hu, hreq, hresp]

/-- An error of the key loader is the error of `RetrievePublicKey`. -/
theorem RetrievePublicKey_of_load_error (w : World) (keysServerURL keyID : GoString)
    (e : GoError) (sent : List Effect)
    (h : loadPublicKey w keyID keysServerURL = (.error e, sent)) :
    RetrievePublicKey w keysServerURL keyID = (.error e, sent) := by
  unfold RetrievePublicKey
  rw [h]

/-- The access loader once the URL is parsed, the request built and a response received. -/
theorem LoadAccess_eq (w : World) (url userID token : GoString) (u : URL)
    (req : HTTPRequest) (resp : HTTPResponse) (hu : w.urlParse url = .ok u)
    (hreq : NewRequest w (str "GET")
      (w.urlString { u with Path := pathJoin [u.Path, str "access", userID] }) = .ok req)
    (hresp : w.roundTrip { req with Header := req.Header.Set (str "iam") token } = .ok resp) :
    LoadAccess w url userID token =
      if resp.StatusCode ≠ 200 then
        (.error (.errorString (str "unable to retrieve access data '" ++ resp.Status ++
          str "', status " ++ fmtInt resp.StatusCode)),
          [.Do { req with Header := req.Header.Set (str "iam") token }])
      else
        match resp.Body with
        | .error err => (.error err, [.Do { req with Header := req.Header.Set (str "iam") token }])
        | .ok b =>
          match w.unmarshalAccessPayload b with
          | .error err =>
            (.error (.errorString
              (str "unable to unmarshal result from authorization service: " ++ err.Error)),
              [.Do { req with Header := req.Header.Set (str "iam") token }])
          | .ok payload =>
            if payload.Status ≠ str "success" then
              (.error (.errorString payload.Message),
                [.Do { req with Header := req.Header.Set (str "iam") token }])
            else (.ok payload.Data,
              [.Do { req with Header := req.Header.Set (str "iam") token }]) := by
  unfold LoadAccess
  simp only [hu, hreq, hresp]

/-- Every request `NewRequest` builds has the method it was given. -/
theorem NewRequest_method (w : World) (method url : GoString) (req : HTTPRequest)
    (h : NewRequest w method url = .ok req) :
    req.Method = method ∧ req.Header = [] ∧ w.newRequestURL url = .ok req.URL := by
  unfold NewRequest at h
  cases hu : w.newRequestURL url with
  | error e => simp [hu] at h
  | ok u =>
    simp only [hu, Except.ok.injEq] at h
    subst h
    exact ⟨rfl, rfl, rfl⟩

/-- With a parsed URL and a built request, the key loader hands exactly that request to the
HTTP client, whatever the answer is. -/
theorem loadPublicKey_effects (w : World) (keyID keyServerURL : GoString) (u : URL)
    (req : HTTPRequest) (hu : w.urlParse keyServerURL = .ok u)
    (hreq : NewRequest w (str "GET")
      (w.urlString { u with Path := pathJoin [u.Path, str "keys", keyID] }) = .ok req) :
    (loadPublicKey w keyID keyServerURL).2 = [Effect.Do req] := by
  unfold loadPublicKey
  simp only [hu, hreq]
  cases w.roundTrip req with
  | error e => rfl
  | ok resp =>
    simp only
    by_cases hcode : resp.StatusCode = 200
    · simp only [hcode, ne_eq, not_true_eq_false, if_false]
      cases resp.Body with
      | error e => rfl
      | ok b =>
        simp only
        cases w.unmarshalPublicKeyResponse b with
        | error e => rfl
        | ok keyResponse =>
          simp only
          cases keyResponse.Data with
          | none => rfl
          | some data =>
            simp only
            by_cases hkey : data.Key = []
            · simp only [hkey, if_true]
            · simp only [hkey, if_false]
    · simp only [ne_eq, hcode, not_false_eq_true, if_true]

/-- What `RetrievePublicKey` hands to the HTTP client is what the key loader hands to it. -/
theorem RetrievePublicKey_effects (w : World) (keysServerURL keyID : GoString) :
    (RetrievePublicKey w keysServerURL keyID).2 = (loadPublicKey w keyID keysServerURL).2 := by
  unfold RetrievePublicKey
  rcases loadPublicKey w keyID keysServerURL with ⟨_ | pubKey, sent⟩
  · rfl
  · simp only
    cases w.ParseRSAPublicKeyFromPEM pubKey.Key <;> rfl

/-- With a parsed URL and a built request, `LoadAccess` hands exactly one request to the HTTP
client, the built one with the `iam` header set, whatever the answer is. -/
theorem LoadAccess_effects (w : World) (url userID token : GoString) (u : URL)
    (req : HTTPRequest) (hu : w.urlParse url = .ok u)
    (hreq : NewRequest w (str "GET")
      (w.urlString { u with Path := pathJoin [u.Path, str "access", userID] }) = .ok req) :
    (LoadAccess w url userID token).2 =
      [Effect.Do { req with Header := req.Header.Set (str "iam") token }] := by
  unfold LoadAccess
  simp only [hu, hreq]
  cases w.roundTrip { req with Header := req.Header.Set (str "iam") token } with
  | error e => rfl
  | ok resp =>
    simp only
    by_cases hcode : resp.StatusCode = 200
    · simp only [hcode, ne_eq, not_true_eq_false, if_false]
      cases resp.Body with
      | error e => rfl
      | ok b =>
        simp only
        cases w.unmarshalAccessPayload b with
        | error e => rfl
        | ok payload =>
          simp only
          by_cases hstatus : payload.Status = str "success"
          · simp only [hstatus, ne_eq, not_true_eq_false, if_false]
          · simp only [ne_eq, hstatus, not_false_eq_true, if_true]
    · simp only [ne_eq, hcode, not_false_eq_true, if_true]

/-- `LoadAccess` never hands more than one request to the HTTP client, and the request it
hands over is a built request with the `iam` header set. -/
theorem LoadAccess_effects_cases (w : World) (url userID token : GoString) :
    (LoadAccess w url userID token).2 = [] ∨
      ∃ u req, w.urlParse url = .ok u ∧
        NewRequest w (str "GET")
          (w.urlString { u with Path := pathJoin [u.Path, str "access", userID] }) = .ok req ∧
        (LoadAccess w url userID token).2 =
          [Effect.Do { req with Header := req.Header.Set (str "iam") token }] := by
  cases hu : w.urlParse url with
  | error e =>
    left
    unfold LoadAccess
    simp only [hu]
  | ok u =>
    cases hreq : NewRequest w (str "GET")
        (w.urlString { u with Path := pathJoin [u.Path, str "access", userID] }) with
    | error e =>
      left
      unfold LoadAccess
      simp only [hu, hreq]
    | ok req =>
      right
      exact ⟨u, req, rfl, hreq, LoadAccess_effects w url userID token u req hu hreq⟩

/-- The key loader never hands more than one request to the HTTP client. -/
theorem loadPublicKey_effects_cases (w : World) (keyID keyServerURL : GoString) :
    (loadPublicKey w keyID keyServerURL).2 = [] ∨
      ∃ u req, w.urlParse keyServerURL = .ok u ∧
        NewRequest w (str "GET")
          (w.urlString { u with Path := pathJoin [u.Path, str "keys", keyID] }) = .ok req ∧
        (loadPublicKey w keyID keyServerURL).2 = [Effect.Do req] := by
  cases hu : w.urlParse keyServerURL with
  | error e =>
    left
    unfold loadPublicKey
    simp only [hu]
  | ok u =>
    cases hreq : NewRequest w (str "GET")
        (w.urlString { u with Path := pathJoin [u.Path, str "keys", keyID] }) with
    | error e =>
      left
      unfold loadPublicKey
      simp only [hu, hreq]
    | ok req =>
      right
      exact ⟨u, req, rfl, hreq, loadPublicKey_effects w keyID keyServerURL u req hu hreq⟩

theorem str_slash : str "/" = [47] := by decide

theorem splitBy_ne_nil (sep : Nat) (s : GoString) : splitBy sep s ≠ [] := by
  cases s with
  | nil => simp [splitBy]
  | cons c rest =>
    unfold splitBy
    by_cases h : c = sep
    · simp [h]
    · simp only [h, if_false]
      cases splitBy sep rest <;> simp

theorem splitBy_cons_sep (sep : Nat) (rest : GoString) :
    splitBy sep (sep :: rest) = [] :: splitBy sep rest := by
  rw [splitBy]
  simp

theorem splitBy_cons_ne (sep c : Nat) (rest : GoString) (h : c ≠ sep) :
    splitBy sep (c :: rest) =
      match splitBy sep rest with
      | [] => [[c]]
      | x :: xs => (c :: x) :: xs := by
  rw [splitBy]
  simp only [h, if_false]

/-- Splitting after a piece that holds no separator: the piece joins the first element. -/
theorem splitBy_append (sep : Nat) (m y : GoString) (hm : sep ∉ m) :
    splitBy sep (m ++ y) =
      match splitBy sep y with
      | [] => [m]
      | h :: t => (m ++ h) :: t := by
  induction m with
  | nil =>
    simp only [List.nil_append]
    cases hy : splitBy sep y with
    | nil => exact absurd hy (splitBy_ne_nil sep y)
    | cons h t => rfl
  | cons c m ih =>
    have hc : c ≠ sep := fun h => hm (by simp [h])
    have hm1 : sep ∉ m := fun h => hm (List.mem_cons_of_mem _ h)
    rw [List.cons_append, splitBy_cons_ne sep c _ hc, ih hm1]
    cases splitBy sep y <;> rfl

theorem rootedPath_cons (e : GoString) (L : List GoString) :
    rootedPath (e :: L) = 47 :: (e ++ rootedPath L) := by
  simp [rootedPath]

theorem rootedPath_append (L M : List GoString) :
    rootedPath (L ++ M) = rootedPath L ++ rootedPath M := by
  simp [rootedPath]

theorem splitBy_rootedPath (L : List GoString) (h : ∀ e ∈ L, 47 ∉ e) :
    splitBy 47 (rootedPath L) = [] :: L := by
  induction L with
  | nil => simp [rootedPath, splitBy]
  | cons e L ih =>
    rw [rootedPath_cons, splitBy_cons_sep, splitBy_append 47 e _ (h e (List.mem_cons_self _ _)),
      ih (fun x hx => h x (List.mem_cons_of_mem _ hx))]
    simp

theorem cleanStep_plain (rooted : Bool) (kept : List GoString) (e : GoString)
    (h : plainElem e) : cleanStep rooted kept e = e :: kept := by
  obtain ⟨h1, _, h3, h4⟩ := h
  unfold cleanStep
  simp [h1, h3, h4]

theorem foldl_cleanStep_plain (rooted : Bool) (L kept : List GoString)
    (h : ∀ e ∈ L, plainElem e) : L.foldl (cleanStep rooted) kept = L.reverse ++ kept := by
  induction L generalizing kept with
  | nil => rfl
  | cons e L ih =>
    simp only [List.foldl_cons, List.reverse_cons, List.append_assoc, List.singleton_append]
    rw [cleanStep_plain rooted kept e (h e (List.mem_cons_self _ _)),
      ih _ (fun x hx => h x (List.mem_cons_of_mem _ hx))]

theorem slash_intersperse_flatten (e : GoString) (L : List GoString) :
    47 :: ((e :: L).intersperse [47]).flatten = rootedPath (e :: L) := by
  induction L generalizing e with
  | nil => simp [rootedPath]
  | cons e1 L ih =>
    rw [rootedPath_cons, ← ih e1]
    simp

/-- A rooted path of plain elements is clean: `path.Clean` returns it as it is. -/
theorem pathClean_rootedPath (e : GoString) (L : List GoString)
    (h : ∀ x ∈ e :: L, plainElem x) : pathClean (rootedPath (e :: L)) = rootedPath (e :: L) := by
  have hsplit : splitBy 47 (rootedPath (e :: L)) = [] :: (e :: L) :=
    splitBy_rootedPath _ (fun x hx => (h x hx).2.1)
  have hfold : ([] :: (e :: L)).foldl (cleanStep true) [] = (e :: L).reverse := by
    have h0 : cleanStep true [] [] = [] := by simp [cleanStep]
    rw [List.foldl_cons, h0, foldl_cleanStep_plain true _ _ h, List.append_nil]
  have hne : rootedPath (e :: L) ≠ [] := by simp [rootedPath_cons]
  have hhead : (rootedPath (e :: L)).head? = some 47 := by simp [rootedPath_cons]
  unfold pathClean
  simp only [hne, if_false, hhead, beq_self_eq_true, if_true, hsplit, hfold,
    List.reverse_reverse, str_slash]
  exact slash_intersperse_flatten e L

theorem splitBy_no_sep (sep : Nat) (k : GoString) (hk : sep ∉ k) : splitBy sep k = [k] := by
  have h := splitBy_append sep k [] hk
  simpa [splitBy] using h

theorem pathJoin_three (a b c : GoString) (ha : a ≠ []) (hb : b ≠ []) (hc : c ≠ []) :
    pathJoin [a, b, c] = pathClean (a ++ 47 :: (b ++ 47 :: c)) := by
  have hfilter : [a, b, c].filter (fun e => decide (e ≠ [])) = [a, b, c] := by
    simp [ha, hb, hc]
  have hflat : ([a, b, c].intersperse (str "/")).flatten = a ++ 47 :: (b ++ 47 :: c) := by
    simp [str_slash]
  unfold pathJoin
  rw [hfilter]
  simp only [hflat]

theorem pathJoin_two (b c : GoString) (hb : b ≠ []) (hc : c ≠ []) :
    pathJoin [[], b, c] = pathClean (b ++ 47 :: c) := by
  have hfilter : [[], b, c].filter (fun e => decide (e ≠ [])) = [b, c] := by
    simp [hb, hc]
  have hflat : ([b, c].intersperse (str "/")).flatten = b ++ 47 :: c := by
    simp [str_slash]
  unfold pathJoin
  rw [hfilter]
  simp only [hflat]

/-- `path.Join` of a rooted path of plain elements and two plain elements: the three, joined
by slashes. -/
theorem pathJoin_rooted (e : GoString) (L : List GoString) (mid k : GoString)
    (hL : ∀ x ∈ e :: L, plainElem x) (hmid : plainElem mid) (hk : plainElem k) :
    pathJoin [rootedPath (e :: L), mid, k] =
      rootedPath (e :: L) ++ str "/" ++ mid ++ str "/" ++ k := by
  have hp : rootedPath (e :: L) ≠ [] := by simp [rootedPath_cons]
  have hall : ∀ x ∈ e :: (L ++ [mid, k]), plainElem x := by
    intro x hx
    simp only [List.mem_cons, List.mem_append, List.mem_singleton, List.not_mem_nil,
      or_false] at hx
    rcases hx with rfl | hx | rfl | rfl
    · exact hL _ (List.mem_cons_self _ _)
    · exact hL _ (List.mem_cons_of_mem _ hx)
    · exact hmid
    · exact hk
  have hjoin : rootedPath (e :: L) ++ 47 :: (mid ++ 47 :: k) =
      rootedPath (e :: (L ++ [mid, k])) := by
    rw [show e :: (L ++ [mid, k]) = (e :: L) ++ [mid, k] from rfl, rootedPath_append]
    simp [rootedPath]
  have hgoal : rootedPath (e :: L) ++ str "/" ++ mid ++ str "/" ++ k =
      rootedPath (e :: (L ++ [mid, k])) := by
    rw [← hjoin, str_slash]
    simp
  rw [pathJoin_three _ _ _ hp hmid.1 hk.1, hjoin, hgoal,
    pathClean_rootedPath e (L ++ [mid, k]) hall]

/-- `path.Join` of an empty path and two plain elements: the two, joined by a slash, with no
slash before them. -/
theorem pathJoin_empty (mid k : GoString) (hmid : plainElem mid) (hk : plainElem k) :
    pathJoin [[], mid, k] = mid ++ str "/" ++ k := by
  obtain ⟨c, m, rfl⟩ : ∃ c m, mid = c :: m := by
    cases mid with
    | nil => exact absurd rfl hmid.1
    | cons c m => exact ⟨c, m, rfl⟩
  have hc : c ≠ 47 := fun h => hmid.2.1 (by simp [h])
  have hsplit : splitBy 47 (c :: (m ++ 47 :: k)) = [c :: m, k] := by
    rw [← List.cons_append, splitBy_append 47 (c :: m) _ hmid.2.1, splitBy_cons_sep,
      splitBy_no_sep 47 k hk.2.1]
    simp
  have hb : ((some c : Option Nat) == some 47) = false := by simp [hc]
  have hfold : [c :: m, k].foldl (cleanStep false) [] = [k, c :: m] := by
    rw [foldl_cleanStep_plain false _ _ (by
      intro x hx
      simp only [List.mem_cons, List.mem_singleton, List.not_mem_nil, or_false] at hx
      rcases hx with rfl | rfl
      · exact hmid
      · exact hk)]
    rfl
  rw [pathJoin_two _ _ hmid.1 hk.1]
  unfold pathClean
  simp only [List.cons_append, reduceCtorEq, if_false, List.head?_cons, hb, hsplit, hfold,
    str_slash]
  simp

/-- `path.Join` of the path `/` and two plain elements: the two, each after one slash. -/
theorem pathJoin_root (mid k : GoString) (hmid : plainElem mid) (hk : plainElem k) :
    pathJoin [str "/", mid, k] = str "/" ++ mid ++ str "/" ++ k := by
  have hall : ∀ x ∈ [mid, k], plainElem x := by
    intro x hx
    simp only [List.mem_cons, List.mem_singleton, List.not_mem_nil, or_false] at hx
    rcases hx with rfl | rfl
    · exact hmid
    · exact hk
  have hsplit : splitBy 47 (47 :: 47 :: (mid ++ 47 :: k)) = [[], [], mid, k] := by
    rw [splitBy_cons_sep]
    have h := splitBy_rootedPath [mid, k] (fun x hx => (hall x hx).2.1)
    simp only [rootedPath, List.map_cons, List.map_nil, List.flatten_cons, List.flatten_nil,
      List.append_nil, List.cons_append] at h
    rw [h]
  have hfold : [[], [], mid, k].foldl (cleanStep true) [] = [k, mid] := by
    have h0 : cleanStep true [] [] = [] := by simp [cleanStep]
    rw [List.foldl_cons, h0, List.foldl_cons, h0, foldl_cleanStep_plain true _ _ hall]
    rfl
  rw [str_slash, pathJoin_three _ _ _ (by simp) hmid.1 hk.1]
  unfold pathClean
  simp only [List.cons_append, List.nil_append, reduceCtorEq, if_false, List.head?_cons,
    beq_self_eq_true, if_true, hsplit, hfold, str_slash]
  simp

theorem str_keys_path : str "/keys/" = str "/" ++ str "keys" ++ str "/" := by decide

theorem str_access_path : str "/access/" = str "/" ++ str "access" ++ str "/" := by decide

theorem plainElem_keys : plainElem (str "keys") := by decide

theorem plainElem_access : plainElem (str "access") := by decide

/-- The path `path.Join` computes from a base path, a plain middle element and a plain last
element, for the three shapes of base path: empty, `/`, and rooted with plain elements. -/
theorem pathJoin_plain (base mid k : GoString) (hmid : plainElem mid) (hk : plainElem k) :
    (base = [] → pathJoin [base, mid, k] = mid ++ str "/" ++ k) ∧
      (base = str "/" → pathJoin [base, mid, k] = str "/" ++ mid ++ str "/" ++ k) ∧
      (∀ e L, base = rootedPath (e :: L) → (∀ x ∈ e :: L, plainElem x) →
        pathJoin [base, mid, k] = base ++ str "/" ++ mid ++ str "/" ++ k) := by
  refine ⟨?_, ?_, ?_⟩
  · rintro rfl
    exact pathJoin_empty mid k hmid hk
  · rintro rfl
    exact pathJoin_root mid k hmid hk
  · rintro e L rfl hL
    exact pathJoin_rooted e L mid k hL hmid hk

theorem mapGet_Header_Set (h : Header) (key value : GoString) :
    mapGet (Header.Set h key value) (CanonicalHeaderKey key) = some [value] := by
  simp [Header.Set, mapGet]

theorem decodeInt64Elems_numbers (xs cur : List Int)
    (h : xs.all (fun n => decide (-(2 ^ 63 : Int) ≤ n ∧ n < 2 ^ 63)) = true) :
    decodeInt64Elems (xs.map JSON.number) cur = .ok xs := by
  induction xs generalizing cur with
  | nil => rfl
  | cons x xs ih =>
    simp only [List.all_cons, Bool.and_eq_true, decide_eq_true_eq] at h
    simp only [List.map_cons, decodeInt64Elems, decodeInt64, h.1, and_self, if_true,
      ih cur.tail h.2]

/-- A slice written with `omitempty` and decoded into a nil slice comes back normalized. -/
theorem decodeMembers_sliceMember {α : Type}
    (step : α → GoString × JSON → Except UnmarshalTypeError α) (name : GoString)
    (get : α → Int64Slice) (set : α → Int64Slice → α) (s : Int64Slice) (cur : α)
    (hstep : ∀ c j, step c (name, j) =
      match decodeInt64Slice j (get c) with
      | .error e => .error e
      | .ok v => .ok (set c v))
    (hcur : set cur none = cur) (hs : sliceInRange s = true) :
    decodeMembers step (sliceMember name s) cur = .ok (set cur (normSlice s)) := by
  cases s with
  | none => simp [sliceMember, decodeMembers, normSlice, hcur]
  | some xs =>
    cases xs with
    | nil => simp [sliceMember, decodeMembers, normSlice, hcur]
    | cons x xs =>
      have hd := decodeInt64Elems_numbers (x :: xs) ((get cur).getD []) hs
      simp only [sliceMember, decodeMembers, hstep, decodeInt64Slice, hd, normSlice]

theorem decodeMembers_append {α : Type}
    (step : α → GoString × JSON → Except UnmarshalTypeError α) (a b : List (GoString × JSON))
    (cur mid : α) (h : decodeMembers step a cur = .ok mid) :
    decodeMembers step (a ++ b) cur = decodeMembers step b mid := by
  induction a generalizing cur with
  | nil =>
    simp only [decodeMembers, Except.ok.injEq] at h
    subst h
    rfl
  | cons m ms ih =>
    simp only [List.cons_append, decodeMembers] at h ⊢
    cases hm : step cur m with
    | error e => simp [hm] at h
    | ok next =>
      simp only [hm] at h ⊢
      exact ih next h

theorem decodeAdmin_toJSON (a : AdminType) (h : sliceInRange a.Ent = true) :
    decodeAdmin a.toJSON none = .ok (some ⟨normSlice a.Ent⟩) := by
  have hm := decodeMembers_sliceMember AdminType.decodeMember (str "ent") (fun c => c.Ent)
    (fun c v => { c with Ent := v }) a.Ent ⟨none⟩ (fun c j => rfl) rfl h
  simp only [decodeAdmin, decodePtr, AdminType.toJSON, Option.getD_none, hm]

theorem decodeTeacher_toJSON (a : TeacherType) (h : sliceInRange a.Cls = true) :
    decodeTeacher a.toJSON none = .ok (some ⟨normSlice a.Cls⟩) := by
  have hm := decodeMembers_sliceMember TeacherType.decodeMember (str "cls") (fun c => c.Cls)
    (fun c v => { c with Cls := v }) a.Cls ⟨none⟩ (fun c j => rfl) rfl h
  simp only [decodeTeacher, decodePtr, TeacherType.toJSON, Option.getD_none, hm]

theorem decodeTeamMember_toJSON (a : TeamMemberType) (h : sliceInRange a.Kid = true) :
    decodeTeamMember a.toJSON none = .ok (some ⟨normSlice a.Kid⟩) := by
  have hm := decodeMembers_sliceMember TeamMemberType.decodeMember (str "kid")
    (fun c => c.Kid) (fun c v => { c with Kid := v }) a.Kid ⟨none⟩ (fun c j => rfl) rfl h
  simp only [decodeTeamMember, decodePtr, TeamMemberType.toJSON, Option.getD_none, hm]

theorem decodeFsAdmin_toJSON (a : FsAdminType)
    (h : (sliceInRange a.Ent && sliceInRange a.FundSrc) = true) :
    decodeFsAdmin a.toJSON none = .ok (some ⟨normSlice a.Ent, normSlice a.FundSrc⟩) := by
  simp only [Bool.and_eq_true] at h
  have h1 := decodeMembers_sliceMember FsAdminType.decodeMember (str "ent") (fun c => c.Ent)
    (fun c v => { c with Ent := v }) a.Ent ⟨none, none⟩ (fun c j => rfl) rfl h.1
  have h2 := decodeMembers_sliceMember FsAdminType.decodeMember (str "fundSrc")
    (fun c => c.FundSrc) (fun c v => { c with FundSrc := v }) a.FundSrc
    ⟨normSlice a.Ent, none⟩ (fun c j => rfl) rfl h.2
  simp only [decodeFsAdmin, decodePtr, FsAdminType.toJSON, Option.getD_none,
    decodeMembers_append _ _ _ _ _ h1, h2]

/-- A role written with `omitempty` and decoded into a nil pointer comes back normalized. -/
theorem decodeMembers_ptrMember {β : Type} (name : GoString)
    (decode : JSON → Option β → Except UnmarshalTypeError (Option β)) (toJ : β → JSON)
    (norm : β → β) (get : Access → Option β) (set : Access → Option β → Access)
    (o : Option β) (cur : Access)
    (hstep : ∀ c j, Access.decodeMember c (name, j) = (decode j (get c)).map (set c))
    (hdec : ∀ b, o = some b → decode (toJ b) none = .ok (some (norm b)))
    (hget : get cur = none) (hset : set cur none = cur) :
    decodeMembers Access.decodeMember (ptrMember name (o.map toJ)) cur =
      .ok (set cur (o.map norm)) := by
  cases o with
  | none => simp [ptrMember, decodeMembers, hset]
  | some b =>
    simp only [Option.map_some', ptrMember, decodeMembers, hstep, hget, hdec b rfl, Except.map]

theorem Option_all_some {β : Type} (f : β → Bool) (o : Option β) (b : β) (h : o.all f = true)
    (ho : o = some b) : f b = true := by
  subst ho
  simpa using h

/-- Deserializing the serialization of a profile whose ids are values of `int64` gives the
profile normalized. -/
theorem Access_fromJSON_toJSON (p : Access) (hp : p.inRange = true) :
    Access.fromJSON p.toJSON = .ok p.normalize := by
  simp only [Access.inRange, Bool.and_eq_true] at hp
  obtain ⟨⟨⟨⟨⟨⟨⟨⟨r1, r2⟩, r3⟩, r4⟩, r5⟩, r6⟩, r7⟩, r8⟩, r9⟩ := hp
  have s0 : decodeMembers Access.decodeMember [(str "SuperUser", JSON.bool p.SuperUser)]
      { SuperUser := false, Admin := none, VOAdmin := none, VONoChildAdmin := none,
        FSAdmin := none, FSVOAdmin := none, Teacher := none, CoTeacher := none,
        AssistantTeacher := none, TeamMember := none } = .ok (p.decodedUpTo 0) := rfl
  have s1 : decodeMembers Access.decodeMember
      (ptrMember (str "Admin") (p.Admin.map AdminType.toJSON)) (p.decodedUpTo 0) =
      .ok (p.decodedUpTo 1) :=
    decodeMembers_ptrMember (str "Admin") decodeAdmin AdminType.toJSON
      (fun a => ⟨normSlice a.Ent⟩) (fun c => c.Admin) (fun c v => { c with Admin := v })
      p.Admin (p.decodedUpTo 0) (fun c j => rfl)
      (fun b hb => decodeAdmin_toJSON b (Option_all_some _ _ b r1 hb)) rfl rfl
  have s2 : decodeMembers Access.decodeMember
      (ptrMember (str "VOAdmin") (p.VOAdmin.map AdminType.toJSON)) (p.decodedUpTo 1) =
      .ok (p.decodedUpTo 2) :=
    decodeMembers_ptrMember (str "VOAdmin") decodeAdmin AdminType.toJSON
      (fun a => ⟨normSlice a.Ent⟩) (fun c => c.VOAdmin) (fun c v => { c with VOAdmin := v })
      p.VOAdmin (p.decodedUpTo 1) (fun c j => rfl)
      (fun b hb => decodeAdmin_toJSON b (Option_all_some _ _ b r2 hb)) rfl rfl
  have s3 : decodeMembers Access.decodeMember
      (ptrMember (str "VONoChildAdmin") (p.VONoChildAdmin.map AdminType.toJSON)) (p.decodedUpTo 2) =
      .ok (p.decodedUpTo 3) :=
    decodeMembers_ptrMember (str "VONoChildAdmin") decodeAdmin AdminType.toJSON
      (fun a => ⟨normSlice a.Ent⟩) (fun c => c.VONoChildAdmin) (fun c v => { c with VONoChildAdmin := v })
      p.VONoChildAdmin (p.decodedUpTo 2) (fun c j => rfl)
      (fun b hb => decodeAdmin_toJSON b (Option_all_some _ _ b r3 hb)) rfl rfl
  have s4 : decodeMembers Access.decodeMember
      (ptrMember (str "FSAdmin") (p.FSAdmin.map FsAdminType.toJSON)) (p.decodedUpTo 3) =
      .ok (p.decodedUpTo 4) :=
    decodeMembers_ptrMember (str "FSAdmin") decodeFsAdmin FsAdminType.toJSON
      (fun a => ⟨normSlice a.Ent, normSlice a.FundSrc⟩) (fun c => c.FSAdmin) (fun c v => { c with FSAdmin := v })
      p.FSAdmin (p.decodedUpTo 3) (fun c j => rfl)
      (fun b hb => decodeFsAdmin_toJSON b (Option_all_some _ _ b r4 hb)) rfl rfl
  have s5 : decodeMembers Access.decodeMember
      (ptrMember (str "FSVOAdmin") (p.FSVOAdmin.map FsAdminType.toJSON)) (p.decodedUpTo 4) =
      .ok (p.decodedUpTo 5) :=
    decodeMembers_ptrMember (str "FSVOAdmin") decodeFsAdmin FsAdminType.toJSON
      (fun a => ⟨normSlice a.Ent, normSlice a.FundSrc⟩) (fun c => c.FSVOAdmin) (fun c v => { c with FSVOAdmin := v })
      p.FSVOAdmin (p.decodedUpTo 4) (fun c j => rfl)
      (fun b hb => decodeFsAdmin_toJSON b (Option_all_some _ _ b r5 hb)) rfl rfl
  have s6 : decodeMembers Access.decodeMember
      (ptrMember (str "Teacher") (p.Teacher.map TeacherType.toJSON)) (p.decodedUpTo 5) =
      .ok (p.decodedUpTo 6) :=
    decodeMembers_ptrMember (str "Teacher") decodeTeacher TeacherType.toJSON
      (fun a => ⟨normSlice a.Cls⟩) (fun c => c.Teacher) (fun c v => { c with Teacher := v })
      p.Teacher (p.decodedUpTo 5) (fun c j => rfl)
      (fun b hb => decodeTeacher_toJSON b (Option_all_some _ _ b r6 hb)) rfl rfl
  have s7 : decodeMembers Access.decodeMember
      (ptrMember (str "CoTeacher") (p.CoTeacher.map TeacherType.toJSON)) (p.decodedUpTo 6) =
      .ok (p.decodedUpTo 7) :=
    decodeMembers_ptrMember (str "CoTeacher") decodeTeacher TeacherType.toJSON
      (fun a => ⟨normSlice a.Cls⟩) (fun c => c.CoTeacher) (fun c v => { c with CoTeacher := v })
      p.CoTeacher (p.decodedUpTo 6) (fun c j => rfl)
      (fun b hb => decodeTeacher_toJSON b (Option_all_some _ _ b r7 hb)) rfl rfl
  have s8 : decodeMembers Access.decodeMember
      (ptrMember (str "AssistantTeacher") (p.AssistantTeacher.map TeacherType.toJSON)) (p.decodedUpTo 7) =
      .ok (p.decodedUpTo 8) :=
    decodeMembers_ptrMember (str "AssistantTeacher") decodeTeacher TeacherType.toJSON
      (fun a => ⟨normSlice a.Cls⟩) (fun c => c.AssistantTeacher) (fun c v => { c with AssistantTeacher := v })
      p.AssistantTeacher (p.decodedUpTo 7) (fun c j => rfl)
      (fun b hb => decodeTeacher_toJSON b (Option_all_some _ _ b r8 hb)) rfl rfl
  have s9 : decodeMembers Access.decodeMember
      (ptrMember (str "TeamMember") (p.TeamMember.map TeamMemberType.toJSON)) (p.decodedUpTo 8) =
      .ok (p.decodedUpTo 9) :=
    decodeMembers_ptrMember (str "TeamMember") decodeTeamMember TeamMemberType.toJSON
      (fun a => ⟨normSlice a.Kid⟩) (fun c => c.TeamMember) (fun c v => { c with TeamMember := v })
      p.TeamMember (p.decodedUpTo 8) (fun c j => rfl)
      (fun b hb => decodeTeamMember_toJSON b (Option_all_some _ _ b r9 hb)) rfl rfl
  unfold Access.fromJSON Access.toJSON Access.decode
  simp only [List.append_assoc]
  rw [decodeMembers_append _ _ _ _ _ s0, decodeMembers_append _ _ _ _ _ s1,
    decodeMembers_append _ _ _ _ _ s2, decodeMembers_append _ _ _ _ _ s3,
    decodeMembers_append _ _ _ _ _ s4, decodeMembers_append _ _ _ _ _ s5,
    decodeMembers_append _ _ _ _ _ s6, decodeMembers_append _ _ _ _ _ s7,
    decodeMembers_append _ _ _ _ _ s8, s9]
  rfl

theorem idsOf_normSlice (s : Int64Slice) : idsOf (normSlice s) = idsOf s := by
  cases s with
  | none => rfl
  | some xs => cases xs <;> rfl

theorem sameProfile_normalize (p : Access) : sameProfile p p.normalize := by
  simp only [sameProfile, Access.normalize, Option.map_map, Function.comp_def,
    idsOf_normSlice, and_self]

theorem mapGet_mapSet_self {β : Type} (m : List (GoString × β)) (k : GoString) (v : β) :
    mapGet (mapSet m k v) k = some v := by
  induction m with
  | nil => simp [mapSet, mapGet]
  | cons kv rest ih =>
    rcases kv with ⟨k1, x⟩
    unfold mapSet
    by_cases h : k1 = k
    · simp [h, mapGet]
    · simp [h, mapGet, ih]

theorem mapGet_mapSet_ne {β : Type} (m : List (GoString × β)) (k k1 : GoString) (v : β)
    (h : k1 ≠ k) : mapGet (mapSet m k v) k1 = mapGet m k1 := by
  induction m with
  | nil => simp [mapSet, mapGet, Ne.symm h]
  | cons kv rest ih =>
    rcases kv with ⟨k2, x⟩
    unfold mapSet
    by_cases h2 : k2 = k
    · subst h2
      simp [mapGet, Ne.symm h]
    · by_cases h3 : k2 = k1
      · subst h3
        simp [h2, Ne.symm h, mapGet]
      · simp [h2, h3, mapGet, ih]

/-- The map built from the list of allowed origins binds exactly the origins of the list. -/
theorem originsMap_get (allowedOrigins : List GoString) (m0 : List (GoString × Unit))
    (x : GoString) :
    mapGet (allowedOrigins.foldl (fun m o => mapSet m o ()) m0) x = some () ↔
      (x ∈ allowedOrigins ∨ mapGet m0 x = some ()) := by
  induction allowedOrigins generalizing m0 with
  | nil => simp
  | cons o rest ih =>
    rw [List.foldl_cons, ih]
    by_cases h : x = o
    · subst h
      simp [mapGet_mapSet_self]
    · rw [mapGet_mapSet_ne _ _ _ _ h]
      simp [h]

theorem prepareLoop_length (errs : List ValidationFailure) (i : Nat)
    (responses : ValidationResponses) :
    (prepareLoop errs i responses).length = responses.length := by
  induction errs generalizing i responses with
  | nil => rfl
  | cons e es ih => simp [prepareLoop, ih]

theorem prepareLoop_getElem? (errs : List ValidationFailure) (i j : Nat)
    (responses : ValidationResponses) :
    (prepareLoop errs i responses)[j]? =
      if i ≤ j ∧ j < i + errs.length ∧ j < responses.length then
        errs[j - i]?.map (fun err =>
          { Field := err.Field, Tag := err.Tag, Value := err.Value,
            Allowed := .string err.Param })
      else responses[j]? := by
  induction errs generalizing i responses with
  | nil =>
    have : ¬ (i ≤ j ∧ j < i + 0 ∧ j < responses.length) := by omega
    simp only [prepareLoop, List.length_nil, this, if_false]
  | cons e es ih =>
    simp only [prepareLoop, ih, List.length_set, List.length_cons, List.getElem?_set]
    by_cases hij : i = j
    · subst hij
      have h1 : ¬ (i + 1 ≤ i ∧ i < i + 1 + es.length ∧ i < responses.length) := by omega
      simp only [h1, if_false, if_true, Nat.sub_self, List.getElem?_cons_zero, Option.map_some']
      by_cases hlen : i < responses.length
      · have h2 : i ≤ i ∧ i < i + (es.length + 1) ∧ i < responses.length := by omega
        simp only [hlen, h2, and_self, if_true]
      · have h2 : ¬ (i ≤ i ∧ i < i + (es.length + 1) ∧ i < responses.length) := by omega
        simp only [hlen, h2, if_false]
        have hge : responses.length ≤ i := by omega
        simp only [and_false, if_false]
        exact (List.getElem?_eq_none hge).symm
    · simp only [hij, if_false]
      by_cases hlt : i + 1 ≤ j ∧ j < i + 1 + es.length ∧ j < responses.length
      · have h2 : i ≤ j ∧ j < i + (es.length + 1) ∧ j < responses.length := by omega
        have h3 : j - i = (j - (i + 1)) + 1 := by omega
        simp only [hlt, h2, and_self, if_true, h3, List.getElem?_cons_succ]
      · have h2 : ¬ (i ≤ j ∧ j < i + (es.length + 1) ∧ j < responses.length) := by omega
        simp only [hlt, h2, if_false]

/-- The loop fills the slice with the responses of the failures, in their order. -/
theorem prepareValidationResponses_eq_map (errs : List ValidationFailure) :
    prepareValidationResponses errs =
      errs.map (fun err =>
        { Field := err.Field, Tag := err.Tag, Value := err.Value,
          Allowed := .string err.Param }) := by
  apply List.ext_getElem?
  intro j
  unfold prepareValidationResponses
  rw [prepareLoop_getElem?]
  by_cases hj : j < errs.length
  · have h : 0 ≤ j ∧ j < 0 + errs.length ∧
        j < (List.replicate errs.length
          ({ Field := [], Tag := [], Value := .nil, Allowed := .nil } :
            ValidationFailureResponse)).length := by
      simp [hj]
    simp only [h, and_self, if_true, Nat.sub_zero, List.getElem?_map]
  · have h : ¬ (0 ≤ j ∧ j < 0 + errs.length ∧
        j < (List.replicate errs.length
          ({ Field := [], Tag := [], Value := .nil, Allowed := .nil } :
            ValidationFailureResponse)).length) := by
      simp [hj]
    simp only [h, if_false]
    rw [List.getElem?_eq_none (by simp; omega), List.getElem?_eq_none (by simp; omega)]

theorem New_eq :
    New = { StatusCode := 0, Message := [], Data := .nil, pagination := none,
            validationFailures := [],
            headers := some [(str "Content-Type", [str "application/json"])] } := by
  decide

theorem denyResponse_body (enc : Encoding) (msg : GoString) :
    jsonMarshalBody enc (denyResponse msg).BuildBody =
      .ok (enc.render (envelope msg (str "client error"))) := rfl

theorem Send_deny (enc : Encoding) (w : ResponseWriter) (msg : GoString) :
    Send enc w (denyResponse msg) =
      (ResponseWriter.WriteHeader
          { w with Header := w.Header.Add (str "Content-Type") (str "application/json") }
          400).Write
        (enc.render (envelope msg (str "client error"))) := by
  unfold Send
  simp only [denyResponse_body]
  have h400 : ¬ ((denyResponse msg).StatusCode = 0) := by
    show ¬ ((400 : Int) = 0)
    decide
  have hh : (denyResponse msg).headers.getD [] =
      [(str "Content-Type", [str "application/json"])] := rfl
  have hs : (denyResponse msg).StatusCode = 400 := rfl
  simp only [h400, if_false, hh, hs, addHeaders, List.foldl_cons, List.foldl_nil]
  generalize (ResponseWriter.WriteHeader
      { w with Header := w.Header.Add (str "Content-Type") (str "application/json") }
      400).Write (enc.render (envelope msg (str "client error"))) = res
  rcases res with ⟨w1, _ | err⟩ <;> rfl

/-- Sending the denial on a writer whose header is not yet written sets the status 400. -/
theorem Send_deny_code (enc : Encoding) (w : ResponseWriter) (msg : GoString)
    (hcode : w.Code = none) :
    (Send enc w (denyResponse msg)).1.Code = some 400 := by
  rw [Send_deny]
  unfold ResponseWriter.Write ResponseWriter.WriteHeader
  simp only [hcode]
  cases w.writeError <;> rfl

/-- Sending the denial on a writer that does not fail adds the marshalled body. -/
theorem Send_deny_body (enc : Encoding) (w : ResponseWriter) (msg : GoString)
    (hwrite : w.writeError = none) :
    (Send enc w (denyResponse msg)).1.Body =
      w.Body ++ enc.render (envelope msg (str "client error")) := by
  rw [Send_deny]
  unfold ResponseWriter.Write ResponseWriter.WriteHeader
  cases hc : w.Code <;> simp only [hc, hwrite]

/-- Sending the denial adds the content type to the writer's header. -/
theorem Send_deny_header (enc : Encoding) (w : ResponseWriter) (msg : GoString) :
    (Send enc w (denyResponse msg)).1.Header =
      w.Header.Add (str "Content-Type") (str "application/json") := by
  rw [Send_deny]
  unfold ResponseWriter.Write ResponseWriter.WriteHeader
  cases hc : w.Code <;> cases hw : w.writeError <;> simp only [hc, hw]

/-- The origin check, with the denial written field by field. -/
theorem ValidateOriginMiddleware_eq (enc : Encoding) (allowedOrigins : List GoString)
    (w : ResponseWriter) (r : Request) :
    ValidateOriginMiddleware enc allowedOrigins w r =
      if r.Header.Get (str "Origin") = [] then
        { w := (Send enc w (denyResponse (str "Origin is required"))).1, next := [],
          logged := [{ Msg := str "Request has no Origin header", Fields := [] }] }
      else if r.Header.Get (str "Origin") ∈ allowedOrigins then
        { w := w,
          next := [r.WithContext
            (WithValue r.ctx originTagKey (.string (r.Header.Get (str "Origin"))))],
          logged := [] }
      else
        { w := (Send enc w (denyResponse (str "Origin is not permitted"))).1, next := [],
          logged := [{ Msg := str "Origin is not permitted",
                       Fields := [(str "originIn", r.Header.Get (str "Origin"))] }] } := by
  unfold ValidateOriginMiddleware
  simp only [New_eq]
  by_cases h0 : r.Header.Get (str "Origin") = []
  · simp only [h0, if_true]
    rfl
  · simp only [h0, if_false]
    have hm := originsMap_get allowedOrigins [] (r.Header.Get (str "Origin"))
    by_cases hin : r.Header.Get (str "Origin") ∈ allowedOrigins
    · have hs : mapGet (allowedOrigins.foldl (fun m o => mapSet m o ()) [])
          (r.Header.Get (str "Origin")) = some () := hm.mpr (Or.inl hin)
      simp only [hs, hin, if_true]
    · have hs : mapGet (allowedOrigins.foldl (fun m o => mapSet m o ()) [])
          (r.Header.Get (str "Origin")) = none := by
        cases hg : mapGet (allowedOrigins.foldl (fun m o => mapSet m o ()) [])
            (r.Header.Get (str "Origin")) with
        | none => rfl
        | some u =>
          cases u
          rcases hm.mp hg with h | h
          · exact absurd h hin
          · simp [mapGet] at h
      simp only [hs, hin, if_false]
      rfl

/-- The header map after `AddHeader`, read at any key. -/
theorem AddHeader_headers (r : StandardResponse) (k v : GoString) (k1 : GoString) :
    mapGet ((r.AddHeader k v).headers.getD []) k1 =
      if k1 = CanonicalHeaderKey k then
        some ((mapGet (r.headers.getD []) (CanonicalHeaderKey k)).getD [] ++ [v])
      else mapGet (r.headers.getD []) k1 := by
  have hh : (r.headers.getD [] : Header) = (match r.headers with | none => [] | some h => h) := by
    cases r.headers <;> rfl
  unfold StandardResponse.AddHeader
  simp only [Option.getD_some]
  rw [← hh]
  generalize (r.headers.getD [] : Header) = h0
  by_cases hk : k1 = CanonicalHeaderKey k
  · subst hk
    rw [if_pos rfl, mapGet_mapSet_self]
    cases hg : mapGet h0 (CanonicalHeaderKey k) with
    | none =>
      simp only [mapGet_mapSet_self]
      rfl
    | some vs => simp only [hg]
  · rw [if_neg hk, mapGet_mapSet_ne _ _ _ _ hk]
    cases hg : mapGet h0 (CanonicalHeaderKey k) with
    | none => simp only [mapGet_mapSet_ne _ _ _ _ hk]
    | some vs => rfl

theorem CanonicalHeaderKey_Set_Cookie :
    CanonicalHeaderKey (str "Set-Cookie") = str "Set-Cookie" := by decide

/-- The middleware calls next exactly on the path on which the credential is present, the
token is parsed, has map claims and is valid, and the validator returns no error; on every
other path it writes one response. -/
theorem VerifyTokenMiddleware_outcome (w : World) (url : GoString)
    (validator : ClaimsValidator) (r : Request) :
    (∃ s token claims, r.ctx.Value (.RequestContext (str "token")) = .string s ∧
        w.jwtParse s (makeVerificationRSAKeyFn w url) = .ok token ∧
        token.Claims = .MapClaims claims ∧ token.Valid = true ∧
        (validator claims r).err = none ∧
        VerifyTokenMiddleware w url validator r = [Event.next (validator claims r).request]) ∨
      ((¬ ∃ s token claims, r.ctx.Value (.RequestContext (str "token")) = .string s ∧
          w.jwtParse s (makeVerificationRSAKeyFn w url) = .ok token ∧
          token.Claims = .MapClaims claims ∧ token.Valid = true ∧
          (validator claims r).err = none) ∧
        ∃ code m, VerifyTokenMiddleware w url validator r = [Event.respond code m]) := by
  by_cases hcred : ∃ s, r.ctx.Value (.RequestContext (str "token")) = .string s
  · obtain ⟨s, hs⟩ := hcred
    rw [VerifyTokenMiddleware_eq w url validator r s hs]
    cases hp : w.jwtParse s (makeVerificationRSAKeyFn w url) with
    | error e =>
      refine Or.inr ⟨?_, _, _, rfl⟩
      rintro ⟨s1, token, claims, hs1, hp1, _⟩
      rw [hs] at hs1
      cases hs1
      rw [hp] at hp1
      cases hp1
    | ok token =>
      rcases token with ⟨hd, cl, valid⟩
      cases cl with
      | foreign id =>
        refine Or.inr ⟨?_, _, _, rfl⟩
        rintro ⟨s1, token, claims, hs1, hp1, hc1, _⟩
        rw [hs] at hs1
        cases hs1
        rw [hp] at hp1
        cases hp1
        cases hc1
      | MapClaims claims =>
        cases valid with
        | false =>
          refine Or.inr ⟨?_, _, _, rfl⟩
          rintro ⟨s1, token, claims1, hs1, hp1, _, hv1, _⟩
          rw [hs] at hs1
          cases hs1
          rw [hp] at hp1
          cases hp1
          cases hv1
        | true =>
          simp only
          cases he : (validator claims r).err with
          | some e =>
            refine Or.inr ⟨?_, _, _, rfl⟩
            rintro ⟨s1, token, claims1, hs1, hp1, hc1, _, he1⟩
            rw [hs] at hs1
            cases hs1
            rw [hp] at hp1
            cases hp1
            cases hc1
            rw [he] at he1
            cases he1
          | none =>
            exact Or.inl ⟨s, ⟨hd, .MapClaims claims, true⟩, claims, hs, hp, rfl, rfl, he, rfl⟩
  · have hno : ∀ s, r.ctx.Value (.RequestContext (str "token")) ≠ .string s :=
      fun s hs => hcred ⟨s, hs⟩
    rw [VerifyTokenMiddleware_no_credential w url validator r hno]
    refine Or.inr ⟨?_, _, _, rfl⟩
    rintro ⟨s, _, _, hs, _⟩
    exact hno s hs

/-- What `LoadAccess` hands to the HTTP client holds no marker of a call of `LoadAccess`. -/
theorem LoadAccess_effects_no_call (w : World) (url userID token a u t : GoString) :
    Effect.LoadAccess a u t ∉ (LoadAccess w url userID token).2 := by
  rcases LoadAccess_effects_cases w url userID token with h | ⟨u1, req, _, _, h⟩ <;>
    rw [h] <;> simp

/-- The validator on a request that holds the string credential `s`: either the subject is
rejected before anything is done, or `LoadAccess` is called with `s`, and then either the
validator fails and returns the request it was given, or it binds a visitor whose credential
is `s`. -/
theorem MakeAuthValidator_with_credential (w : World) (url : GoString) (claims : MapClaims)
    (r : Request) (s : GoString)
    (hs : r.ctx.Value (.RequestContext (str "token")) = .string s) :
    MakeAuthValidator w url claims r = ⟨r, some ErrSubNotFound, []⟩ ∨
      ∃ sub, mapGet claims (str "sub") = some (.string sub) ∧
        (MakeAuthValidator w url claims r).effects =
          Effect.LoadAccess url sub s :: (LoadAccess w url sub s).2 ∧
        ((∃ e, (MakeAuthValidator w url claims r).err = some e) ∨
          ∃ n P, (MakeAuthValidator w url claims r).err = none ∧
            (MakeAuthValidator w url claims r).request =
              r.WithContext (WithValue r.ctx VisitorRequestContext
                (.visitor { UserID := n, SignedIam := s, Access := some P }))) := by
  cases hsub : mapGet claims (str "sub") with
  | none =>
    left
    simp [MakeAuthValidator, hsub]
  | some v =>
    cases v with
    | string sub =>
      right
      refine ⟨sub, rfl, ?_⟩
      rw [MakeAuthValidator_eq w url claims r sub s hsub hs]
      rcases LoadAccess w url sub s with ⟨_ | P, sent⟩
      · exact ⟨rfl, Or.inl ⟨_, rfl⟩⟩
      · rcases Atoi w sub with ⟨n, _ | e⟩
        · exact ⟨rfl, Or.inr ⟨n, P, rfl, rfl⟩⟩
        · exact ⟨rfl, Or.inl ⟨_, rfl⟩⟩
    | _ =>
      left
      simp [MakeAuthValidator, hsub, Any.assertString]

/-- The middleware consults the validator only at the request it was given. -/
theorem VerifyTokenMiddleware_congr (w : World) (url : GoString) (v1 v2 : ClaimsValidator)
    (r : Request) (h : ∀ claims, v1 claims r = v2 claims r) :
    VerifyTokenMiddleware w url v1 r = VerifyTokenMiddleware w url v2 r := by
  unfold VerifyTokenMiddleware
  simp only [h]

/-- On a first byte below 128 `ToCamelCase` lower-cases that byte and keeps the length. -/
theorem ToCamelCase_ascii (b : Nat) (rest : GoString) (hb : b < 128) :
    ToCamelCase (b :: rest) = lowerByte b :: rest ∧
      (ToCamelCase (b :: rest)).length = (b :: rest).length := by
  have h : ToCamelCase (b :: rest) = lowerByte b :: rest := by
    have hr : runeToLower b = lowerByte b := by
      unfold runeToLower lowerByte
      split_ifs <;> omega
    have hl : lowerByte b < 128 := by
      unfold lowerByte
      split_ifs <;> omega
    unfold ToCamelCase stringOfByte
    simp only [hr, hl, if_true, List.singleton_append]
  rw [h]
  exact ⟨rfl, rfl⟩

theorem lowerByte_upperByte (c : Nat) : lowerByte (upperByte c) = lowerByte c := by
  unfold lowerByte upperByte
  split_ifs <;> omega

theorem ToLower_ToUpper (s : GoString) : ToLower (ToUpper s) = ToLower s := by
  unfold ToLower ToUpper
  rw [List.map_map]
  apply List.map_congr_left
  intro c _
  exact lowerByte_upperByte c

theorem ToLower_lowerLetters (s : GoString) (h : lowerLetters s) : ToLower s = s := by
  unfold ToLower
  conv_rhs => rw [← List.map_id s]
  apply List.map_congr_left
  intro c hc
  have := h c hc
  unfold lowerByte
  have hn : ¬ (65 ≤ c ∧ c ≤ 90) := by omega
  simp only [hn, if_false, id]

theorem replaceByte_lowerLetters (s : GoString) (h : lowerLetters s) :
    replaceByte 45 95 s = s := by
  unfold replaceByte
  conv_rhs => rw [← List.map_id s]
  apply List.map_congr_left
  intro c hc
  have := h c hc
  have hn : ¬ c = 45 := by omega
  simp only [hn, if_false, id]

theorem replaceByte_append (old new : Nat) (a b : GoString) :
    replaceByte old new (a ++ b) = replaceByte old new a ++ replaceByte old new b := by
  unfold replaceByte
  exact List.map_append _ _ _

theorem ToLower_append (a b : GoString) : ToLower (a ++ b) = ToLower a ++ ToLower b := by
  unfold ToLower
  exact List.map_append _ _ _

/-- The lower-cased text of a region holds no hyphen. -/
theorem replaceByte_ToLower_Region (region : Region) :
    replaceByte 45 95 (ToLower region.String) = ToLower region.String := by
  cases region with
  | iso a b =>
    have ha := a.isLt
    have hb := b.isLt
    have h1 : ¬ (lowerByte (65 + a.val) = 45) := by
      unfold lowerByte
      split_ifs <;> omega
    have h2 : ¬ (lowerByte (65 + b.val) = 45) := by
      unfold lowerByte
      split_ifs <;> omega
    simp only [Region.String, ToLower, replaceByte, List.map_cons, List.map_nil, h1, h2,
      if_false]
  | m49 code =>
    have hc := code.isLt
    have h1 : ¬ (lowerByte (48 + code.val / 100) = 45) := by
      unfold lowerByte
      split_ifs <;> omega
    have h2 : ¬ (lowerByte (48 + code.val / 10 % 10) = 45) := by
      unfold lowerByte
      split_ifs <;> omega
    have h3 : ¬ (lowerByte (48 + code.val % 10) = 45) := by
      unfold lowerByte
      split_ifs <;> omega
    simp only [Region.String, ToLower, replaceByte, List.map_cons, List.map_nil, h1, h2, h3,
      if_false]

theorem lowerLetters_no_hyphen (s : GoString) (h : lowerLetters s) : 45 ∉ s := by
  intro hmem
  have := h 45 hmem
  omega

/-- The parts of a text that matches the locale pattern. -/
theorem splitBy_locale (s : GoString) (h : matchesLocalePattern s) :
    s ≠ [] ∧ ∃ a b rest, splitBy 45 s = a :: b :: rest ∧ lowerLetters23 a ∧
      lowerLetters23 b ∧ (rest = [] ∨ ∃ c, rest = [c] ∧ lowerLetters23 c) := by
  obtain ⟨a, b, ha, hb, hs | ⟨c, hc, hs⟩⟩ := h
  · subst hs
    refine ⟨?_, a, b, [], ?_, ha, hb, Or.inl rfl⟩
    · intro h0
      have := congrArg List.length h0
      simp at this
    · rw [splitBy_append 45 a _ (lowerLetters_no_hyphen a ha.2.2), splitBy_cons_sep,
        splitBy_no_sep 45 b (lowerLetters_no_hyphen b hb.2.2)]
      simp
  · subst hs
    refine ⟨?_, a, b, [c], ?_, ha, hb, Or.inr ⟨c, rfl, hc⟩⟩
    · intro h0
      have := congrArg List.length h0
      simp at this
    · rw [splitBy_append 45 a _ (lowerLetters_no_hyphen a ha.2.2), splitBy_cons_sep,
        splitBy_append 45 b _ (lowerLetters_no_hyphen b hb.2.2), splitBy_cons_sep,
        splitBy_no_sep 45 c (lowerLetters_no_hyphen c hc.2.2)]
      simp

/-- The middleware on a locale text that splits into two or three parts. -/
theorem localeMiddleware_of_split (lib : LanguageLib) (w : ResponseWriter) (r : Request)
    (localeParam l0 l1 : GoString) (rest : List GoString)
    (hsplit : splitBy 45 (if localeParam = [] then str "en-us" else localeParam) =
      l0 :: l1 :: rest)
    (hrest : rest.length ≤ 1) :
    localeMiddleware lib w r localeParam =
      some (match lib.ParseBase l0, lib.ParseRegion l1 with
        | .ok base, .ok region =>
          { w := w,
            next := [r.WithContext (WithValue r.ctx localeTagKey
              (.localeTag { Language := base, Region := region, Variant := rest.headD [] }))],
            logged := [] }
        | _, _ => { w := httpError w (str "Not Found") 404, next := [], logged := [] }) := by
  unfold localeMiddleware
  simp only [hsplit, List.getElem?_cons_zero, List.getElem?_cons_succ, List.length_cons]
  cases lib.ParseBase l0 with
  | error e => rfl
  | ok base =>
    cases lib.ParseRegion l1 with
    | error e => rfl
    | ok region =>
      match rest, hrest with
      | [], _ => rfl
      | [c], _ => simp

theorem utf8Bytes_digitChar (d : Nat) (hd : d < 10) : utf8Bytes (Nat.digitChar d) = [48 + d] := by
  interval_cases d <;> decide

/-- The digits Lean's `Nat.toDigits` produces, as bytes. -/
theorem toDigitsCore_bytes (fuel : Nat) :
    ∀ (n : Nat) (ds : List Char), n < fuel →
      ((Nat.toDigitsCore 10 fuel n ds).map utf8Bytes).flatten =
        decimal n ++ (ds.map utf8Bytes).flatten := by
  induction fuel with
  | zero => intro n ds h; omega
  | succ fuel ih =>
    intro n ds h
    rw [Nat.toDigitsCore]
    by_cases h0 : n / 10 = 0
    · have hlt : n < 10 := by omega
      have hmod : n % 10 = n := by omega
      simp only [h0, if_true, hmod, List.map_cons, List.flatten_cons,
        utf8Bytes_digitChar n hlt]
      rw [decimal]
      simp only [hlt, if_true]
    · have hge : ¬ n < 10 := by omega
      simp only [h0, if_false]
      rw [ih (n / 10) _ (by omega)]
      rw [decimal.eq_1 n]
      simp only [hge, if_false, List.map_cons, List.flatten_cons,
        utf8Bytes_digitChar (n % 10) (by omega), List.append_assoc]

theorem fmtInt_ofNat (n : Nat) : fmtInt (n : Int) = decimal n := by
  have h := toDigitsCore_bytes (n + 1) n [] (by omega)
  simpa using h

theorem fmtInt_negSucc (n : Nat) : fmtInt (Int.negSucc n) = 45 :: decimal (n + 1) := by
  have h := toDigitsCore_bytes (n + 1 + 1) (n + 1) [] (by omega)
  have hs : str (toString (Int.negSucc n)) =
      str "-" ++ ((Nat.toDigitsCore 10 (n + 1 + 1) (n + 1) []).map utf8Bytes).flatten := by
    show ((("-" ++ (Nat.toDigits 10 (n + 1)).asString).data).map utf8Bytes).flatten = _
    rw [String.data_append, List.map_append, List.flatten_append]
    rfl
  have hminus : str "-" = [45] := by decide
  unfold fmtInt
  rw [hs, h, hminus]
  simp

theorem digitsValue_cons (c : Nat) (rest : GoString) (acc : Nat) :
    digitsValue (c :: rest) acc = digitsValue rest (acc * 10 + (c - 48)) := rfl

theorem digitsValue_ge (ds : GoString) : ∀ acc, acc ≤ digitsValue ds acc := by
  induction ds with
  | nil => intro acc; exact Nat.le_refl _
  | cons c rest ih =>
    intro acc
    rw [digitsValue_cons]
    have := ih (acc * 10 + (c - 48))
    omega

/-- The fast path of `Atoi` on a text of digits computes the number the text denotes. -/
theorem atoiDigits_digits (ds : GoString) (h : ∀ c ∈ ds, 48 ≤ c ∧ c ≤ 57) :
    ∀ acc : Nat, atoiDigits ds (acc : Int) = some ((digitsValue ds acc : Nat) : Int) := by
  induction ds with
  | nil => intro acc; rfl
  | cons c rest ih =>
    intro acc
    have hc := h c (List.mem_cons_self _ _)
    have hd : (c + 256 - 48) % 256 = c - 48 := by omega
    have hle : ¬ (c - 48 > 9) := by omega
    rw [atoiDigits, digitsValue_cons]
    simp only [hd, hle, if_false]
    have hcast : ((acc : Int) * 10 + ((c - 48 : Nat) : Int)) = ((acc * 10 + (c - 48) : Nat) : Int) := by
      push_cast
      rfl
    rw [hcast]
    exact ih (fun x hx => h x (List.mem_cons_of_mem _ hx)) _

/-- The loop of `ParseUint` on a text of digits: the number the text denotes when it is
below `2 ^ 64`, the range error otherwise. -/
theorem parseUintLoop_digits (ds : GoString) (h : ∀ c ∈ ds, 48 ≤ c ∧ c ≤ 57) :
    ∀ acc : Nat, acc < 18446744073709551616 →
      parseUintLoop ds acc =
        if digitsValue ds acc < 18446744073709551616 then (digitsValue ds acc, none)
        else (18446744073709551615, some .ErrRange) := by
  induction ds with
  | nil =>
    intro acc hacc
    simp only [parseUintLoop, digitsValue, List.foldl_nil, hacc, if_true]
  | cons c rest ih =>
    intro acc hacc
    have hc := h c (List.mem_cons_self _ _)
    have hrest := ih (fun x hx => h x (List.mem_cons_of_mem _ hx))
    have hmono := digitsValue_ge rest (acc * 10 + (c - 48))
    rw [parseUintLoop, digitsValue_cons]
    simp only [hc, and_self, if_true, intSize]
    norm_num
    by_cases hbig : 1844674407370955162 ≤ acc
    · have hnot : ¬ digitsValue rest (acc * 10 + (c - 48)) < 18446744073709551616 := by omega
      simp only [hbig, if_true, hnot, if_false]
    · simp only [hbig, if_false]
      have h10 : acc * 10 % 18446744073709551616 = acc * 10 := by omega
      rw [h10]
      by_cases hwrap : acc * 10 + (c - 48) < 18446744073709551616
      · have h1 : (acc * 10 + (c - 48)) % 18446744073709551616 = acc * 10 + (c - 48) := by
          omega
        have hno : ¬ (acc * 10 + (c - 48) < acc * 10 ∨
            18446744073709551615 < acc * 10 + (c - 48)) := by omega
        rw [h1]
        simp only [hno, if_false]
        exact hrest _ hwrap
      · have h1 : (acc * 10 + (c - 48)) % 18446744073709551616 =
            acc * 10 + (c - 48) - 18446744073709551616 := by omega
        have hyes : acc * 10 + (c - 48) - 18446744073709551616 < acc * 10 ∨
            18446744073709551615 < acc * 10 + (c - 48) - 18446744073709551616 := by omega
        have hnot : ¬ digitsValue rest (acc * 10 + (c - 48)) < 18446744073709551616 := by omega
        rw [h1]
        simp only [hyes, if_true, hnot, if_false]

theorem decimal_digitsValue_pos (ds : GoString) (h : ∀ c ∈ ds, 48 ≤ c ∧ c ≤ 57) :
    ∀ acc : Nat, 0 < acc → decimal (digitsValue ds acc) = decimal acc ++ ds := by
  induction ds with
  | nil => intro acc _; simp [digitsValue]
  | cons c rest ih =>
    intro acc hacc
    have hc := h c (List.mem_cons_self _ _)
    rw [digitsValue_cons, ih (fun x hx => h x (List.mem_cons_of_mem _ hx)) _ (by omega)]
    rw [decimal.eq_1 (acc * 10 + (c - 48))]
    have hge : ¬ (acc * 10 + (c - 48) < 10) := by omega
    have hdiv : (acc * 10 + (c - 48)) / 10 = acc := by omega
    have hmod : 48 + (acc * 10 + (c - 48)) % 10 = c := by omega
    simp only [hge, if_false, hdiv, hmod, List.append_assoc, List.singleton_append]

/-- The decimal numeral of the number a canonical numeral denotes is that numeral. -/
theorem decimal_digitsValue (ds : GoString) (hc : canonicalDigits ds) :
    decimal (digitsValue ds 0) = ds := by
  obtain ⟨hne, hdig, hzero⟩ := hc
  cases ds with
  | nil => exact absurd rfl hne
  | cons c rest =>
    have hcd := hdig c (List.mem_cons_self _ _)
    by_cases h48 : c = 48
    · subst h48
      have hr : (48 :: rest : GoString) = [48] := hzero rfl
      rw [hr]
      rw [decimal]
      simp [digitsValue]
    · rw [digitsValue_cons,
        decimal_digitsValue_pos rest (fun x hx => hdig x (List.mem_cons_of_mem _ hx)) _
          (by omega)]
      rw [decimal]
      have hlt : 0 * 10 + (c - 48) < 10 := by omega
      have hback : 48 + (0 * 10 + (c - 48)) = c := by omega
      simp only [hlt, if_true, hback, List.singleton_append]

/-- The shape of a decimal numeral. -/
theorem decimal_form (n : Nat) :
    decimal n ≠ [] ∧ (∀ c ∈ decimal n, 48 ≤ c ∧ c ≤ 57) ∧
      (0 < n → (decimal n).head? ≠ some 48) ∧ (n = 0 → decimal n = [48]) := by
  induction n using Nat.strong_induction_on with
  | _ n ih =>
    rw [decimal]
    by_cases hlt : n < 10
    · simp only [hlt, if_true]
      refine ⟨by simp, ?_, ?_, ?_⟩
      · intro c hc
        simp only [List.mem_singleton] at hc
        omega
      · intro hpos
        simp only [List.head?_cons, ne_eq, Option.some.injEq]
        omega
      · intro h0
        subst h0
        rfl
    · simp only [hlt, if_false]
      obtain ⟨hne, hdig, hhead, _⟩ := ih (n / 10) (by omega)
      refine ⟨by simp, ?_, ?_, ?_⟩
      · intro c hc
        rw [List.mem_append] at hc
        rcases hc with hc | hc
        · exact hdig c hc
        · simp only [List.mem_singleton] at hc
          omega
      · intro _
        have h1 := hhead (by omega)
        cases hd : decimal (n / 10) with
        | nil => exact absurd hd hne
        | cons x xs =>
          rw [hd] at h1
          simpa using h1
      · intro h0
        omega

/-- The rendering of an integer is a canonical decimal numeral. -/
theorem fmtInt_canonical (n : Int) : canonicalDecimal (fmtInt n) := by
  cases n with
  | ofNat m =>
    left
    show canonicalDigits (fmtInt ((m : Nat) : Int))
    rw [fmtInt_ofNat]
    obtain ⟨hne, hdig, hhead, hzero⟩ := decimal_form m
    refine ⟨hne, hdig, ?_⟩
    intro h48
    by_cases hm : m = 0
    · exact hzero hm
    · exact absurd h48 (hhead (by omega))
  | negSucc m =>
    right
    rw [fmtInt_negSucc]
    obtain ⟨hne, hdig, hhead, _⟩ := decimal_form (m + 1)
    refine ⟨rfl, ⟨hne, hdig, ?_⟩, ?_⟩
    · intro h48
      exact absurd h48 (hhead (by omega))
    · intro h
      have h1 := hhead (by omega)
      simp only [List.drop_succ_cons, List.drop_zero] at h
      rw [h] at h1
      exact h1 rfl

/-- The value `Atoi` returns without error for a text that is a run of digits `ds` after an
optional sign. -/
theorem Atoi_of_digits (w : World) (s ds : GoString) (neg : Bool)
    (hneg : (s.head? == some 45) = neg)
    (hs1 : (if s.head? == some 45 ∨ s.head? == some 43 then s.drop 1 else s) = ds)
    (hdig : ∀ c ∈ ds, 48 ≤ c ∧ c ≤ 57) (hdne : ds ≠ [])
    (hok : (Atoi w s).2 = none) :
    (Atoi w s).1 =
      if neg = true then -((digitsValue ds 0 : Nat) : Int) else ((digitsValue ds 0 : Nat) : Int) := by
  have hs2 : (if s.head? == some 43 ∨ s.head? == some 45 then s.drop 1 else s) = ds := by
    rw [← hs1]
    by_cases h45 : (s.head? == some 45) = true <;> by_cases h43 : (s.head? == some 43) = true <;>
      simp [h45, h43]
  have hsne : s ≠ [] := by
    intro h0
    subst h0
    simp at hs1
    exact hdne hs1
  have hlen : ¬ ds.length < 1 := by
    cases ds with
    | nil => exact absurd rfl hdne
    | cons c rest => simp
  have hfastv : atoiDigits ds 0 = some ((digitsValue ds 0 : Nat) : Int) := by
    have := atoiDigits_digits ds hdig 0
    simpa using this
  have hPI : (ParseInt s).2 = none →
      (ParseInt s).1 =
        if neg = true then -((digitsValue ds 0 : Nat) : Int) else ((digitsValue ds 0 : Nat) : Int) := by
    unfold ParseInt ParseUint
    dsimp only
    rw [hs2, hneg, if_neg hsne, if_neg hdne, parseUintLoop_digits ds hdig 0 (by norm_num)]
    by_cases hv : digitsValue ds 0 < 18446744073709551616
    · rw [if_pos hv]
      dsimp only
      split_ifs <;> simp
    · rw [if_neg hv]
      dsimp only
      have hc : (2 : Nat) ^ (intSize - 1) = 9223372036854775808 := by
        unfold intSize
        norm_num
      rw [hc]
      cases neg <;> simp
  unfold Atoi at hok ⊢
  dsimp only at hok ⊢
  rw [hs1, hneg] at hok ⊢
  by_cases hfast : 0 < s.length ∧ s.length < 19
  · rw [if_pos hfast, if_neg hlen, hfastv]
  · rw [if_neg hfast] at hok ⊢
    rcases hp : ParseInt s with ⟨i64, _ | kind⟩
    · have := hPI (by rw [hp])
      rw [hp] at this
      exact this
    · rw [hp] at hok
      simp at hok

/-- When `Atoi` accepts a canonical decimal numeral, the rendering of its value is the
numeral. -/
theorem Atoi_canonical (w : World) (s : GoString) (hc : canonicalDecimal s)
    (hok : (Atoi w s).2 = none) : fmtInt (Atoi w s).1 = s := by
  rcases hc with hd | ⟨h45, hd, hnz⟩
  · obtain ⟨hne, hdig, hzero⟩ := hd
    cases s with
    | nil => exact absurd rfl hne
    | cons c rest =>
      have hcd := hdig c (List.mem_cons_self _ _)
      have hneg : ((c :: rest).head? == some 45) = false := by
        simp only [List.head?_cons]
        have : c ≠ 45 := by omega
        simpa using this
      have hplus : ((c :: rest).head? == some 43) = false := by
        simp only [List.head?_cons]
        have : c ≠ 43 := by omega
        simpa using this
      have hs1 : (if (c :: rest).head? == some 45 ∨ (c :: rest).head? == some 43
          then (c :: rest).drop 1 else c :: rest) = c :: rest := by
        rw [hneg, hplus]
        simp
      have hv := Atoi_of_digits w (c :: rest) (c :: rest) false hneg hs1 hdig hne hok
      rw [hv]
      simp only [Bool.false_eq_true, if_false]
      rw [fmtInt_ofNat]
      exact decimal_digitsValue (c :: rest) ⟨hne, hdig, hzero⟩
  · cases s with
    | nil => simp at h45
    | cons c ds =>
      simp only [List.head?_cons, Option.some.injEq] at h45
      subst h45
      simp only [List.drop_succ_cons, List.drop_zero] at hd hnz
      obtain ⟨hne, hdig, hzero⟩ := hd
      have hneg : ((45 :: ds).head? == some 45) = true := by simp
      have hs1 : (if (45 :: ds).head? == some 45 ∨ (45 :: ds).head? == some 43
          then (45 :: ds).drop 1 else 45 :: ds) = ds := by
        simp
      have hv := Atoi_of_digits w (45 :: ds) ds true hneg hs1 hdig hne hok
      rw [hv]
      simp only [if_true]
      have hpos : 0 < digitsValue ds 0 := by
        cases ds with
        | nil => exact absurd rfl hne
        | cons d rest =>
          have hd1 := hdig d (List.mem_cons_self _ _)
          have hd48 : d ≠ 48 := by
            intro h
            subst h
            exact hnz (hzero rfl)
          rw [digitsValue_cons]
          have := digitsValue_ge rest (0 * 10 + (d - 48))
          omega
      have hcast : -((digitsValue ds 0 : Nat) : Int) = Int.negSucc (digitsValue ds 0 - 1) := by
        rw [Int.negSucc_eq]
        omega
      rw [hcast, fmtInt_negSucc]
      have hback : digitsValue ds 0 - 1 + 1 = digitsValue ds 0 := by omega
      rw [hback, decimal_digitsValue ds ⟨hne, hdig, hzero⟩]

/-- Under the law of `net/url`, `http.NewRequest` builds a GET request for the base URL with
any path, and the path of the request is that path behind a slash. -/
theorem NewRequest_of_rendersPaths (w : World) (u : URL) (p : GoString)
    (hr : w.rendersPaths u) :
    ∃ req, NewRequest w (str "GET") (w.urlString { u with Path := p }) = .ok req ∧
      req.Method = str "GET" ∧ req.Header = [] ∧ req.URL.Path = withLeadingSlash p := by
  obtain ⟨u1, hu1, hp⟩ := hr p
  refine ⟨{ Method := str "GET", URL := u1, Header := [] }, ?_, rfl, rfl, hp⟩
  unfold NewRequest
  rw [hu1]

theorem withLeadingSlash_rooted (p : GoString) : withLeadingSlash (47 :: p) = 47 :: p := by
  simp [withLeadingSlash]

theorem withLeadingSlash_plain (m rest : GoString) (hm : plainElem m) :
    withLeadingSlash (m ++ rest) = 47 :: (m ++ rest) := by
  obtain ⟨hne, hno, _, _⟩ := hm
  cases m with
  | nil => exact absurd rfl hne
  | cons c cs =>
    have hc : c ≠ 47 := by
      intro h
      subst h
      exact hno (List.mem_cons_self _ _)
    simp [withLeadingSlash, hc]

/-- The path of the request for the join of a base path, a plain element and a plain id. -/
theorem withLeadingSlash_pathJoin (base mid k : GoString) (hmid : plainElem mid)
    (hk : plainElem k) :
    (base = [] → withLeadingSlash (pathJoin [base, mid, k]) = str "/" ++ mid ++ str "/" ++ k) ∧
      (base = str "/" →
        withLeadingSlash (pathJoin [base, mid, k]) = str "/" ++ mid ++ str "/" ++ k) ∧
      (∀ e L, base = rootedPath (e :: L) → (∀ x ∈ e :: L, plainElem x) →
        withLeadingSlash (pathJoin [base, mid, k]) = base ++ str "/" ++ mid ++ str "/" ++ k) := by
  have h := pathJoin_plain base mid k hmid hk
  refine ⟨fun h0 => ?_, fun h0 => ?_, fun e L h0 hL => ?_⟩
  · rw [h.1 h0, List.append_assoc, withLeadingSlash_plain mid _ hmid, str_slash]
    simp
  · rw [h.2.1 h0, str_slash]
    simp only [List.singleton_append, List.cons_append]
    exact withLeadingSlash_rooted _
  · rw [h.2.2 e L h0 hL, h0, rootedPath_cons]
    simp only [List.cons_append, List.append_assoc]
    exact withLeadingSlash_rooted _

/-- Under the law of `net/url`, the key loader hands exactly one request to the HTTP client,
whatever the answer is: a GET without headers for the joined path. -/
theorem loadPublicKey_sends (w : World) (keyID keyServerURL : GoString) (u : URL)
    (hu : w.urlParse keyServerURL = .ok u) (hr : w.rendersPaths u) :
    ∃ req, (RetrievePublicKey w keyServerURL keyID).2 = [Effect.Do req] ∧
      req.Method = str "GET" ∧ req.Header = [] ∧
      req.URL.Path = withLeadingSlash (pathJoin [u.Path, str "keys", keyID]) := by
  obtain ⟨req, hreq, hm, hh, hp⟩ :=
    NewRequest_of_rendersPaths w u (pathJoin [u.Path, str "keys", keyID]) hr
  refine ⟨req, ?_, hm, hh, hp⟩
  rw [RetrievePublicKey_effects, loadPublicKey_effects w keyID keyServerURL u req hu hreq]

/-- Under the law of `net/url`, `LoadAccess` hands exactly one request to the HTTP client,
whatever the answer is: a GET for the joined path whose only header is `iam`. -/
theorem LoadAccess_sends (w : World) (url userID token : GoString) (u : URL)
    (hu : w.urlParse url = .ok u) (hr : w.rendersPaths u) :
    ∃ req, (LoadAccess w url userID token).2 = [Effect.Do req] ∧
      req.Method = str "GET" ∧ req.Header = [(CanonicalHeaderKey (str "iam"), [token])] ∧
      req.URL.Path = withLeadingSlash (pathJoin [u.Path, str "access", userID]) := by
  obtain ⟨req, hreq, hm, hh, hp⟩ :=
    NewRequest_of_rendersPaths w u (pathJoin [u.Path, str "access", userID]) hr
  refine ⟨{ req with Header := req.Header.Set (str "iam") token }, ?_, hm, ?_, hp⟩
  · rw [LoadAccess_effects w url userID token u req hu hreq]
  · show req.Header.Set (str "iam") token = _
    rw [hh]
    rfl

theorem bearerStripped_eq_nil (h : GoString) : bearerStripped h = [] ↔ h = [] := by
  unfold bearerStripped
  by_cases hc : h.length > 7 ∧ beginsWithBearerSpace h
  · rw [if_pos hc]
    constructor
    · intro h0
      have hlen := congrArg List.length h0
      simp only [List.length_drop, List.length_nil] at hlen
      omega
    · intro h0
      subst h0
      simp at hc
  · rw [if_neg hc]

/-- On a header value whose separator is a space the code strips as the specification says. -/
theorem iamTokenFromHeader_bearerStripped (header : GoString) (r : Request)
    (h : bearerSeparated (r.Header.Get header)) :
    iamTokenFromHeader header r = bearerStripped (r.Header.Get header) := by
  rw [iamTokenFromHeader_eq]
  unfold bearerStripped beginsWithBearerSpace
  by_cases hc : (r.Header.Get header).length > 7 ∧ hasBearerLetters (r.Header.Get header)
  · have hsp := h hc.1 hc.2
    rw [if_pos hc, if_pos ⟨hc.1, hc.2, hsp⟩]
  · have hc2 : ¬ ((r.Header.Get header).length > 7 ∧
        (hasBearerLetters (r.Header.Get header) ∧ (r.Header.Get header)[6]? = some 32)) :=
      fun h2 => hc ⟨h2.1, h2.2.1⟩
    rw [if_neg hc, if_neg hc2]

theorem iamTokenFromCookie_cookieValue (r : Request) :
    iamTokenFromCookie r = cookieValue r (str "iam") := by
  unfold iamTokenFromCookie cookieValue Request.Cookie
  cases r.Cookies.find? (fun c => decide (c.Name = str "iam")) <;> rfl

/-- The first non-empty result of the code's strategies is the first non-empty result of the
strategies of the specification, for header values whose separator is a space. -/
theorem strategyResults_find (r : Request)
    (hA : bearerSeparated (r.Header.Get (str "Authorization")))
    (hI : (r.Header.Get (str "Authorization") = [] ∧ Values.Get r.Query (str "iam") = [] ∧
      cookieValue r (str "iam") = []) → bearerSeparated (r.Header.Get (str "iam"))) :
    (strategyResults r).find? (fun t => decide (t ≠ [])) =
      (locatorResults r).find? (fun t => decide (t ≠ [])) := by
  have h1 := iamTokenFromHeader_bearerStripped (str "Authorization") r hA
  have h3 := iamTokenFromCookie_cookieValue r
  unfold strategyResults locatorResults
  rw [h1, h3]
  have h2 : iamTokenFromQuery r = Values.Get r.Query (str "iam") := rfl
  rw [h2]
  by_cases ha : bearerStripped (r.Header.Get (str "Authorization")) = []
  · by_cases hq : Values.Get r.Query (str "iam") = []
    · by_cases hc : cookieValue r (str "iam") = []
      · have h4 := iamTokenFromHeader_bearerStripped (str "iam") r
          (hI ⟨(bearerStripped_eq_nil _).mp ha, hq, hc⟩)
        rw [h4]
      · simp [List.find?_cons, ha, hq, hc]
    · simp [List.find?_cons, ha, hq]
  · simp [List.find?_cons, ha]

theorem RetrieveKID_invalid (headers : List (GoString × Any))
    (h : ¬ ∃ k, mapGet headers (str "kid") = some (.string k) ∧ k ≠ []) :
    RetrieveKID headers = ([], some ErrInvalidKey) := by
  unfold RetrieveKID
  cases hkid : mapGet headers (str "kid") with
  | none => rfl
  | some v =>
    cases v with
    | string s =>
      by_cases hs : s = []
      · simp [Any.assertString, hs]
      · exact absurd ⟨s, hkid, hs⟩ h
    | _ => simp [Any.assertString]

theorem RetrieveKID_valid (headers : List (GoString × Any)) (k : GoString)
    (h : mapGet headers (str "kid") = some (.string k)) (hk : k ≠ []) :
    RetrieveKID headers = (k, none) := by
  unfold RetrieveKID
  simp [h, Any.assertString, hk]

/-- Under the contract of `jwt.Parse`, the error of the key function is the text of the error
`Parse` returns. -/
theorem jwtParse_keyFunc_error (w : World) (decode : GoString → Except GoError Token)
    (hjwt : w.jwtParseContract decode) (s : GoString)
    (keyFunc : Token → Except GoError RSAPublicKey) (tk : Token) (e : GoError)
    (hdec : decode s = .ok tk) (hkey : keyFunc tk = .error e) :
    ∃ ve, w.jwtParse s keyFunc = .error ve ∧ ve.Error = e.Error := by
  have h := hjwt s keyFunc
  rw [hdec] at h
  simp only [hkey] at h
  exact h

theorem jwtParse_decode_error (w : World) (decode : GoString → Except GoError Token)
    (hjwt : w.jwtParseContract decode) (s : GoString)
    (keyFunc : Token → Except GoError RSAPublicKey) (e : GoError)
    (hdec : decode s = .error e) : w.jwtParse s keyFunc = .error e := by
  have h := hjwt s keyFunc
  rw [hdec] at h
  exact h

/-- The middleware when `jwt.Parse` fails with an error whose text is `m`. -/
theorem VerifyTokenMiddleware_parse_error (w : World) (url : GoString)
    (validator : ClaimsValidator) (r : Request) (s : GoString) (e : GoError)
    (hs : r.ctx.Value (.RequestContext (str "token")) = .string s)
    (he : w.jwtParse s (makeVerificationRSAKeyFn w url) = .error e) :
    VerifyTokenMiddleware w url validator r = [Event.respond 401 e.Error] := by
  rw [VerifyTokenMiddleware_eq w url validator r s hs, he]

/-! ## Theorems -/

/-- C1: `FindTokenMiddleware` against the strategies of the specification, read off the
request. For every request whose headers, as far as they are consulted, have a space after
`Bearer`, when at least one strategy yields a non-empty string the middleware calls the next
handler exactly once, with the request whose context binds `RequestContext("token")` to the
result of the first strategy that is non-empty in the order: `Authorization` header
(bearer-stripped), query parameter `iam`, cookie `iam`, header `iam` (bearer-stripped); with
the header `Authorization: Bearer X` (`X` non-empty) and the query `?iam=Y` that credential is
`X`. At the request whose only credential is the header `Authorization: BearerXabc` the first
non-empty strategy yields `BearerXabc`, but the middleware stores `abc`. -/
theorem FindTokenMiddleware_first_match :
    (∀ (r : Request) (tok : GoString),
      bearerSeparated (r.Header.Get (str "Authorization")) →
      ((r.Header.Get (str "Authorization") = [] ∧ Values.Get r.Query (str "iam") = [] ∧
        cookieValue r (str "iam") = []) → bearerSeparated (r.Header.Get (str "iam"))) →
      (locatorResults r).find? (fun t => decide (t ≠ [])) = some tok →
      FindTokenMiddleware r =
          [Event.next (r.WithContext
            (WithValue r.ctx (.RequestContext (str "token")) (.string tok)))] ∧
        (r.WithContext
          (WithValue r.ctx (.RequestContext (str "token")) (.string tok))).ctx.Value
            (.RequestContext (str "token")) = .string tok ∧
        (∀ X Y : GoString, X ≠ [] → r.Header.Get (str "Authorization") = str "Bearer " ++ X →
          Values.Get r.Query (str "iam") = Y → tok = X)) ∧
      (∀ (r : Request) (X Y : GoString), X ≠ [] →
        r.Header.Get (str "Authorization") = str "Bearer " ++ X →
        Values.Get r.Query (str "iam") = Y →
        FindTokenMiddleware r =
          [Event.next (r.WithContext
            (WithValue r.ctx (.RequestContext (str "token")) (.string X)))]) ∧
      FindTokenMiddleware requestCookieOnly =
        [Event.next (requestCookieOnly.WithContext
          (WithValue requestCookieOnly.ctx (.RequestContext (str "token"))
            (.string (str "tok"))))] ∧
      (locatorResults requestBearerX).find? (fun t => decide (t ≠ [])) =
        some (str "BearerXabc") ∧
      FindTokenMiddleware requestBearerX =
        [Event.next (requestBearerX.WithContext
          (WithValue requestBearerX.ctx (.RequestContext (str "token"))
            (.string (str "abc"))))] ∧
      str "abc" ≠ str "BearerXabc" := by
  have hbearer : ∀ (r : Request) (X : GoString), X ≠ [] →
      r.Header.Get (str "Authorization") = str "Bearer " ++ X →
      FindTokenMiddleware r =
        [Event.next (r.WithContext
          (WithValue r.ctx (.RequestContext (str "token")) (.string X)))] := by
    intro r X hX hAuth
    have h1 : iamTokenFromHeader (str "Authorization") r = X :=
      iamTokenFromHeader_Bearer _ r X hX hAuth
    have hcode : (strategyResults r).find? (fun t => decide (t ≠ [])) = some X := by
      simp only [strategyResults, h1, List.find?_cons, ne_eq, hX, not_false_eq_true,
        decide_True]
    have hloop : findTokenLoop r findTokenFns [] = X :=
      findTokenLoop_eq_of_find r findTokenFns [] X hcode
    unfold FindTokenMiddleware
    simp only [hloop, hX, if_false]
  refine ⟨?_, fun r X Y hX hAuth _ => hbearer r X hX hAuth, by decide, by decide, by decide,
    by decide⟩
  intro r tok hA hI h
  have hcode : (strategyResults r).find? (fun t => decide (t ≠ [])) = some tok := by
    rw [strategyResults_find r hA hI]
    exact h
  have hloop : findTokenLoop r findTokenFns [] = tok :=
    findTokenLoop_eq_of_find r findTokenFns [] tok hcode
  have hne : tok ≠ [] := by
    have := List.find?_some h
    simpa using this
  refine ⟨?_, ?_, ?_⟩
  · unfold FindTokenMiddleware
    simp only [hloop, hne, if_false]
  · simp [Request.WithContext, WithValue, Context.Value]
  · intro X Y hX hAuth _
    have h1 : iamTokenFromHeader (str "Authorization") r = X :=
      iamTokenFromHeader_Bearer _ r X hX hAuth
    simp only [strategyResults, h1, List.find?_cons, ne_eq, hX, not_false_eq_true,
      decide_True, Option.some.injEq] at hcode
    exact hcode.symm

/-- C2: `iamTokenFromHeader` at the header value `BearerXabc`, which is longer than seven bytes
and does not begin with `"Bearer "` (its seventh byte is `X`, not a space): the function
returns `abc`, not the value unchanged. -/
theorem iamTokenFromHeader_BearerX :
    requestBearerX.Header.Get (str "Authorization") = str "BearerXabc" ∧
      (str "BearerXabc").length > 7 ∧
      ¬ beginsWithBearerSpace (str "BearerXabc") ∧
      iamTokenFromHeader (str "Authorization") requestBearerX = str "abc" ∧
      iamTokenFromHeader (str "Authorization") requestBearerX ≠ str "BearerXabc" := by
  decide

/-- C3: a request with no `Authorization` header, no `iam` query parameter, no `iam` cookie
and no `iam` header is answered with HTTP 401 and the message `jwtauth: no token found`, and
the next handler is not called. -/
theorem FindTokenMiddleware_no_token (r : Request)
    (hAuth : mapGet r.Header (CanonicalHeaderKey (str "Authorization")) = none)
    (hQuery : mapGet r.Query (str "iam") = none)
    (hCookie : ∀ c ∈ r.Cookies, c.Name ≠ str "iam")
    (hIam : mapGet r.Header (CanonicalHeaderKey (str "iam")) = none) :
    FindTokenMiddleware r = [Event.respond 401 (str "jwtauth: no token found")] ∧
      ∀ r1 : Request, Event.next r1 ∉ FindTokenMiddleware r := by
  have h1 : iamTokenFromHeader (str "Authorization") r = [] := by
    simp [iamTokenFromHeader, Header.Get, hAuth]
  have h2 : iamTokenFromQuery r = [] := by
    simp [iamTokenFromQuery, Values.Get, hQuery]
  have h3 : iamTokenFromCookie r = [] := by
    have hfind : r.Cookies.find? (fun c => decide (c.Name = str "iam")) = none := by
      rw [List.find?_eq_none]
      intro c hc
      simpa using hCookie c hc
    simp [iamTokenFromCookie, Request.Cookie, hfind]
  have h4 : iamTokenFromHeader (str "iam") r = [] := by
    simp [iamTokenFromHeader, Header.Get, hIam]
  have hloop : findTokenLoop r findTokenFns [] = [] := by
    apply findTokenLoop_eq_nil_of_all
    intro fn hfn
    simp only [findTokenFns, List.mem_cons, List.mem_singleton, List.not_mem_nil,
      or_false] at hfn
    rcases hfn with rfl | rfl | rfl | rfl
    · exact h1
    · exact h2
    · exact h3
    · exact h4
  have hres : FindTokenMiddleware r = [Event.respond 401 (str "jwtauth: no token found")] := by
    unfold FindTokenMiddleware
    simp only [hloop, if_true]
    rfl
  refine ⟨hres, ?_⟩
  intro r1 hmem
  rw [hres] at hmem
  simp at hmem

/-- Witness of C3: a request with only an `Accept` header is answered 401. -/
theorem FindTokenMiddleware_no_token_witness :
    FindTokenMiddleware requestNoToken = [Event.respond 401 (str "jwtauth: no token found")] ∧
      ∀ r1 : Request, Event.next r1 ∉ FindTokenMiddleware requestNoToken :=
  FindTokenMiddleware_no_token requestNoToken (by decide) (by decide) (by decide) (by decide)

/-- C4: when the `sub` claim is absent, nil, or not a string, the validator built by
`MakeAuthValidator` returns `ErrSubNotFound` (`jwtauth: sub is wrong`) together with the
request it was given, and does so before `LoadAccess` is called: nothing is done to the
outside world. This holds for every request, with or without a credential. -/
theorem MakeAuthValidator_sub_wrong (w : World) (url : GoString) (claims : MapClaims)
    (r : Request)
    (hsub : mapGet claims (str "sub") = none ∨ mapGet claims (str "sub") = some .nil ∨
      ∃ v, mapGet claims (str "sub") = some v ∧ ∀ s, v ≠ .string s) :
    (MakeAuthValidator w url claims r).err = some ErrSubNotFound ∧
      ErrSubNotFound.Error = str "jwtauth: sub is wrong" ∧
      (MakeAuthValidator w url claims r).effects = [] ∧
      (MakeAuthValidator w url claims r).request = r := by
  have key : MakeAuthValidator w url claims r = ⟨r, some ErrSubNotFound, []⟩ := by
    rcases hsub with h | h | ⟨v, h, hv⟩
    · simp [MakeAuthValidator, h]
    · simp [MakeAuthValidator, h]
    · cases v with
      | string s => exact absurd rfl (hv s)
      | _ => simp [MakeAuthValidator, h, Any.assertString]
  rw [key]
  exact ⟨rfl, rfl, rfl, rfl⟩

/-- Witness of C4: the claims `{"sub": 42}` with a request that holds a credential. -/
theorem MakeAuthValidator_sub_wrong_witness :
    (MakeAuthValidator worldSuccess (str "http://auth") [(str "sub", .int 42)]
        requestWithToken).err = some ErrSubNotFound ∧
      ErrSubNotFound.Error = str "jwtauth: sub is wrong" ∧
      (MakeAuthValidator worldSuccess (str "http://auth") [(str "sub", .int 42)]
        requestWithToken).effects = [] ∧
      (MakeAuthValidator worldSuccess (str "http://auth") [(str "sub", .int 42)]
        requestWithToken).request = requestWithToken :=
  MakeAuthValidator_sub_wrong worldSuccess (str "http://auth") [(str "sub", .int 42)]
    requestWithToken (Or.inr (Or.inr ⟨.int 42, by decide, by intro s; simp⟩))

/-- C5: when the subject `s` parses as the integer `n`, the request's context holds the
credential `T`, and `LoadAccess` accepts the access service's reply with the profile `P`, the
validator built by `MakeAuthValidator` returns no error and a request whose context holds,
under `VisitorRequestContext`, the visitor `{UserID: n, SignedIam: T, Access: P}`. -/
theorem MakeAuthValidator_success (w : World) (url : GoString) (claims : MapClaims)
    (r : Request) (s T : GoString) (n : Int) (P : Access)
    (hsub : mapGet claims (str "sub") = some (.string s))
    (hn : Atoi w s = (n, none))
    (hT : r.ctx.Value (.RequestContext (str "token")) = .string T)
    (hP : (LoadAccess w url s T).1 = .ok P) :
    (MakeAuthValidator w url claims r).err = none ∧
      (MakeAuthValidator w url claims r).request.ctx.Value VisitorRequestContext =
        .visitor { UserID := n, SignedIam := T, Access := some P } := by
  rw [MakeAuthValidator_eq w url claims r s T hsub hT]
  generalize LoadAccess w url s T = res at hP ⊢
  rcases res with ⟨res1, sent⟩
  simp only at hP
  subst hP
  simp only [hn]
  simp [Request.WithContext, WithValue, Context.Value]

/-- Witness of C5: subject `116`, credential `T`, and the reply
`{"Status":"success","Data":{"SuperUser":true}}` give the visitor
`{116, T, {SuperUser:true}}`. -/
theorem MakeAuthValidator_success_witness :
    (MakeAuthValidator worldSuccess (str "http://auth") [(str "sub", .string (str "116"))]
        requestWithToken).err = none ∧
      (MakeAuthValidator worldSuccess (str "http://auth") [(str "sub", .string (str "116"))]
        requestWithToken).request.ctx.Value VisitorRequestContext =
        .visitor { UserID := 116, SignedIam := str "T", Access := some accessSuperUser } :=
  MakeAuthValidator_success worldSuccess (str "http://auth")
    [(str "sub", .string (str "116"))] requestWithToken (str "116") (str "T") 116
    accessSuperUser (by decide) (by decide) (by decide) rfl

/-- C6: for a request that carries no visitor, the request the validator built by
`MakeAuthValidator` returns carries a visitor only if the validator returned no error; then
the `sub` claim is a non-empty string that `Atoi` parses as an integer, and the access
service answered a request of the validator with HTTP 200 and a body whose decoded status is
exactly `success`. -/
theorem MakeAuthValidator_visitor_only_after_checks (w : World) (url : GoString)
    (claims : MapClaims) (r : Request) (v : Visitor)
    (hin : ∀ v0, r.ctx.Value VisitorRequestContext ≠ .visitor v0)
    (hout : (MakeAuthValidator w url claims r).request.ctx.Value VisitorRequestContext =
      .visitor v) :
    (MakeAuthValidator w url claims r).err = none ∧
      ∃ s, mapGet claims (str "sub") = some (.string s) ∧ s ≠ [] ∧
        (∃ n, Atoi w s = (n, none)) ∧
        ∃ req resp b payload,
          Effect.Do req ∈ (MakeAuthValidator w url claims r).effects ∧
          w.roundTrip req = .ok resp ∧ resp.StatusCode = 200 ∧ resp.Body = .ok b ∧
          w.unmarshalAccessPayload b = .ok payload ∧ payload.Status = str "success" := by
  have herr : (MakeAuthValidator w url claims r).err = none := by
    cases he : (MakeAuthValidator w url claims r).err with
    | none => rfl
    | some e =>
      rw [MakeAuthValidator_err_request w url claims r e he] at hout
      exact absurd hout (hin v)
  refine ⟨herr, ?_⟩
  obtain ⟨s, T, P, n, sent, hsub, _, hL, hA, hrun⟩ := MakeAuthValidator_ok_inv w url claims r herr
  obtain ⟨req, resp, b, payload, hsent, hresp, hcode, hb, hpay, hstatus, _⟩ :=
    LoadAccess_ok_inv w url s T P (by rw [hL])
  refine ⟨s, hsub, Atoi_ok_ne_nil w s (by rw [hA]), ⟨n, hA⟩, req, resp, b, payload, ?_,
    hresp, hcode, hb, hpay, hstatus⟩
  rw [hL] at hsent
  simp only at hsent
  rw [hrun, hsent]
  simp

/-- Witness of C6: the successful run for subject `116`. -/
theorem MakeAuthValidator_visitor_only_after_checks_witness :
    (MakeAuthValidator worldSuccess (str "http://auth") [(str "sub", .string (str "116"))]
        requestWithToken).err = none ∧
      ∃ s, mapGet [(str "sub", Any.string (str "116"))] (str "sub") = some (.string s) ∧
        s ≠ [] ∧ (∃ n, Atoi worldSuccess s = (n, none)) ∧
        ∃ req resp b payload,
          Effect.Do req ∈ (MakeAuthValidator worldSuccess (str "http://auth")
            [(str "sub", .string (str "116"))] requestWithToken).effects ∧
          worldSuccess.roundTrip req = .ok resp ∧ resp.StatusCode = 200 ∧
          resp.Body = .ok b ∧
          worldSuccess.unmarshalAccessPayload b = .ok payload ∧
          payload.Status = str "success" :=
  MakeAuthValidator_visitor_only_after_checks worldSuccess (str "http://auth")
    [(str "sub", .string (str "116"))] requestWithToken
    { UserID := 116, SignedIam := str "T", Access := some accessSuperUser }
    (by
      intro v0 h
      have hnil : requestWithToken.ctx.Value VisitorRequestContext = .nil := by decide
      rw [hnil] at h
      cases h)
    (by decide)

/-- C7: when the subject is a string that `strconv.Atoi` does not parse, the request holds a
credential and the access service's reply is accepted, the validator built by
`MakeAuthValidator` fails with the very error `Atoi` returned (a `*NumError` naming `Atoi`
and the subject), and the request it returns is the request it was given, so no visitor is
attached. -/
theorem MakeAuthValidator_atoi_error (w : World) (url : GoString) (claims : MapClaims)
    (r : Request) (s T : GoString) (P : Access) (e : GoError)
    (hsub : mapGet claims (str "sub") = some (.string s))
    (hT : r.ctx.Value (.RequestContext (str "token")) = .string T)
    (hP : (LoadAccess w url s T).1 = .ok P)
    (he : (Atoi w s).2 = some e) :
    (MakeAuthValidator w url claims r).err = some e ∧
      (∃ kind, e = .numError (str "Atoi") s kind (w.Quote s)) ∧
      (MakeAuthValidator w url claims r).request = r ∧
      (MakeAuthValidator w url claims r).request.ctx.Value VisitorRequestContext =
        r.ctx.Value VisitorRequestContext := by
  have herr : (MakeAuthValidator w url claims r).err = some e := by
    rw [MakeAuthValidator_eq w url claims r s T hsub hT]
    generalize LoadAccess w url s T = res at hP ⊢
    rcases res with ⟨res1, sent⟩
    simp only at hP
    subst hP
    generalize Atoi w s = parsed at he ⊢
    rcases parsed with ⟨n, oe⟩
    simp only at he
    subst he
    rfl
  have hreq := MakeAuthValidator_err_request w url claims r e herr
  exact ⟨herr, Atoi_error_form w s e he, hreq, by rw [hreq]⟩

/-- Witness of C7: subject `42nan` with a successful reply of the access service. -/
theorem MakeAuthValidator_atoi_error_witness :
    (MakeAuthValidator worldSuccess (str "http://auth") [(str "sub", .string (str "42nan"))]
        requestWithToken).err =
        some (.numError (str "Atoi") (str "42nan") .ErrSyntax
          (worldSuccess.Quote (str "42nan"))) ∧
      (∃ kind, GoError.numError (str "Atoi") (str "42nan") .ErrSyntax
          (worldSuccess.Quote (str "42nan")) =
        .numError (str "Atoi") (str "42nan") kind (worldSuccess.Quote (str "42nan"))) ∧
      (MakeAuthValidator worldSuccess (str "http://auth") [(str "sub", .string (str "42nan"))]
        requestWithToken).request = requestWithToken ∧
      (MakeAuthValidator worldSuccess (str "http://auth") [(str "sub", .string (str "42nan"))]
        requestWithToken).request.ctx.Value VisitorRequestContext =
        requestWithToken.ctx.Value VisitorRequestContext :=
  MakeAuthValidator_atoi_error worldSuccess (str "http://auth")
    [(str "sub", .string (str "42nan"))] requestWithToken (str "42nan") (str "T")
    accessSuperUser _ (by decide) (by decide) rfl (by decide)

/-- C8: `VerifyTokenMiddleware` answers HTTP 500 exactly when the request's context holds no
string under `RequestContext("token")`; when it holds one, every response the middleware
writes has status 401, and each rejection (an error of `jwt.Parse`, claims of another type
or a token that is not valid, an error of the claims validator) is one 401 response. -/
theorem VerifyTokenMiddleware_status (w : World) (url : GoString)
    (validator : ClaimsValidator) (r : Request) :
    ((∃ m, Event.respond 500 m ∈ VerifyTokenMiddleware w url validator r) ↔
        ∀ s, r.ctx.Value (.RequestContext (str "token")) ≠ .string s) ∧
      ((∀ s, r.ctx.Value (.RequestContext (str "token")) ≠ .string s) →
        VerifyTokenMiddleware w url validator r =
          [Event.respond 500 (str "Internal Server Error: token not found")]) ∧
      (∀ s, r.ctx.Value (.RequestContext (str "token")) = .string s →
        (∀ code m, Event.respond code m ∈ VerifyTokenMiddleware w url validator r →
          code = 401) ∧
        (∀ e, w.jwtParse s (makeVerificationRSAKeyFn w url) = .error e →
          ∃ m, VerifyTokenMiddleware w url validator r = [Event.respond 401 m]) ∧
        (∀ token, w.jwtParse s (makeVerificationRSAKeyFn w url) = .ok token →
          (token.Valid = false ∨ ∀ claims, token.Claims ≠ .MapClaims claims) →
          ∃ m, VerifyTokenMiddleware w url validator r = [Event.respond 401 m]) ∧
        (∀ token claims e, w.jwtParse s (makeVerificationRSAKeyFn w url) = .ok token →
          token.Claims = .MapClaims claims → token.Valid = true →
          (validator claims r).err = some e →
          ∃ m, VerifyTokenMiddleware w url validator r = [Event.respond 401 m])) := by
  have h401 : ∀ s, r.ctx.Value (.RequestContext (str "token")) = .string s →
      ∀ code m, Event.respond code m ∈ VerifyTokenMiddleware w url validator r →
        code = 401 := by
    intro s hs code m hmem
    rcases VerifyTokenMiddleware_cases w url validator r s hs with ⟨m1, h1⟩ | ⟨r1, h1⟩
    · rw [h1] at hmem
      simp only [List.mem_singleton, Event.respond.injEq] at hmem
      exact hmem.1
    · rw [h1] at hmem
      simp at hmem
  refine ⟨⟨?_, ?_⟩, VerifyTokenMiddleware_no_credential w url validator r, ?_⟩
  · rintro ⟨m, hm⟩ s hs
    have := h401 s hs 500 m hm
    omega
  · intro h
    rw [VerifyTokenMiddleware_no_credential w url validator r h]
    exact ⟨_, List.mem_singleton_self _⟩
  · intro s hs
    refine ⟨h401 s hs, ?_, ?_, ?_⟩
    · intro e he
      rw [VerifyTokenMiddleware_eq w url validator r s hs, he]
      exact ⟨_, rfl⟩
    · intro token htok hbad
      rw [VerifyTokenMiddleware_eq w url validator r s hs, htok]
      rcases token with ⟨hd, cl, valid⟩
      cases cl with
      | foreign id => exact ⟨_, rfl⟩
      | MapClaims claims =>
        cases valid with
        | false => exact ⟨_, rfl⟩
        | true =>
          rcases hbad with hv | hc
          · simp at hv
          · exact absurd rfl (hc claims)
    · intro token claims e htok hcl hvalid herr
      rw [VerifyTokenMiddleware_eq w url validator r s hs, htok]
      rcases token with ⟨hd, cl, valid⟩
      simp only at hcl hvalid
      subst hcl hvalid
      simp only [herr]
      exact ⟨_, rfl⟩

/-- Witness of C8: a request without a credential is answered 500, and a request whose
credential `jwt.Parse` rejects is answered 401. -/
theorem VerifyTokenMiddleware_status_witness :
    VerifyTokenMiddleware worldSuccess (str "http://keys") fakeErrValidator requestNoToken =
        [Event.respond 500 (str "Internal Server Error: token not found")] ∧
      ∃ m, VerifyTokenMiddleware worldParseFails (str "http://keys") fakeErrValidator
        requestWithToken = [Event.respond 401 m] :=
  ⟨(VerifyTokenMiddleware_status worldSuccess (str "http://keys") fakeErrValidator
      requestNoToken).2.1 (by
        intro s h
        have hnil : requestNoToken.ctx.Value (.RequestContext (str "token")) = .nil := by
          decide
        rw [hnil] at h
        cases h),
    ((VerifyTokenMiddleware_status worldParseFails (str "http://keys") fakeErrValidator
      requestWithToken).2.2 (str "T") (by decide)).2.1 _ rfl⟩

/-- C9: with a string credential in the context, for every error `e` returned by token
parsing, by key resolution or by the claims validator, the middleware writes one 401 response
whose message is exactly `e.Error()`. Token parsing and key resolution run inside `jwt.Parse`,
which decodes the token string, hands the token to the key function and wraps the error of the
key function. So a token string that does not decode gives the text of the decoding error; a
token without a usable `kid` gives `key is invalid`; an error of `RetrievePublicKey` gives its
text, which for a key server that answers with a status other than 200 is
`unable to retrieve license '<status>', status <code>`; and an error of the validator gives
its text. -/
theorem VerifyTokenMiddleware_message (w : World) (url : GoString)
    (validator : ClaimsValidator) (r : Request) (s : GoString)
    (decode : GoString → Except GoError Token)
    (hs : r.ctx.Value (.RequestContext (str "token")) = .string s)
    (hjwt : w.jwtParseContract decode) :
    (∀ e, w.jwtParse s (makeVerificationRSAKeyFn w url) = .error e →
        VerifyTokenMiddleware w url validator r = [Event.respond 401 e.Error]) ∧
      (∀ e, decode s = .error e →
        VerifyTokenMiddleware w url validator r = [Event.respond 401 e.Error]) ∧
      (∀ tk, decode s = .ok tk →
        (¬ ∃ k, mapGet tk.Header (str "kid") = some (.string k) ∧ k ≠ []) →
        VerifyTokenMiddleware w url validator r =
          [Event.respond 401 (str "key is invalid")]) ∧
      (∀ tk k e, decode s = .ok tk → mapGet tk.Header (str "kid") = some (.string k) →
        k ≠ [] → (RetrievePublicKey w url k).1 = .error e →
        VerifyTokenMiddleware w url validator r = [Event.respond 401 e.Error]) ∧
      (∀ tk k u req resp, decode s = .ok tk →
        mapGet tk.Header (str "kid") = some (.string k) → k ≠ [] →
        w.urlParse url = .ok u →
        NewRequest w (str "GET")
          (w.urlString { u with Path := pathJoin [u.Path, str "keys", k] }) = .ok req →
        w.roundTrip req = .ok resp → resp.StatusCode ≠ 200 →
        VerifyTokenMiddleware w url validator r =
          [Event.respond 401 (str "unable to retrieve license '" ++ resp.Status ++
            str "', status " ++ fmtInt resp.StatusCode)]) ∧
      (∀ token claims e, w.jwtParse s (makeVerificationRSAKeyFn w url) = .ok token →
        token.Claims = .MapClaims claims → token.Valid = true →
        (validator claims r).err = some e →
        VerifyTokenMiddleware w url validator r = [Event.respond 401 e.Error]) := by
  have hkeyfn : ∀ tk e, decode s = .ok tk → makeVerificationRSAKeyFn w url tk = .error e →
      VerifyTokenMiddleware w url validator r = [Event.respond 401 e.Error] := by
    intro tk e hdec hkey
    obtain ⟨ve, hve, htext⟩ :=
      jwtParse_keyFunc_error w decode hjwt s (makeVerificationRSAKeyFn w url) tk e hdec hkey
    rw [VerifyTokenMiddleware_parse_error w url validator r s ve hs hve, htext]
  have hload : ∀ tk k e, decode s = .ok tk → mapGet tk.Header (str "kid") = some (.string k) →
      k ≠ [] → (RetrievePublicKey w url k).1 = .error e →
      VerifyTokenMiddleware w url validator r = [Event.respond 401 e.Error] := by
    intro tk k e hdec hkid hk hret
    apply hkeyfn tk e hdec
    unfold makeVerificationRSAKeyFn
    simp only [RetrieveKID_valid tk.Header k hkid hk]
    exact hret
  refine ⟨?_, ?_, ?_, hload, ?_, ?_⟩
  · intro e he
    exact VerifyTokenMiddleware_parse_error w url validator r s e hs he
  · intro e hdec
    exact VerifyTokenMiddleware_parse_error w url validator r s e hs
      (jwtParse_decode_error w decode hjwt s _ e hdec)
  · intro tk hdec hno
    have hkey : makeVerificationRSAKeyFn w url tk = .error ErrInvalidKey := by
      unfold makeVerificationRSAKeyFn
      simp only [RetrieveKID_invalid tk.Header hno]
    exact hkeyfn tk ErrInvalidKey hdec hkey
  · intro tk k u req resp hdec hkid hk hu hreq hresp hcode
    have hl := loadPublicKey_eq w k url u req resp hu hreq hresp
    rw [if_pos hcode] at hl
    have hret := RetrievePublicKey_of_load_error w url k _ _ hl
    exact hload tk k _ hdec hkid hk (by rw [hret])
  · intro token claims e htok hcl hvalid herr
    rw [VerifyTokenMiddleware_eq w url validator r s hs, htok]
    rcases token with ⟨hd, cl, valid⟩
    simp only at hcl hvalid
    subst hcl hvalid
    simp only [herr]

/-- Witness of C9: with a key server that answers `404 Not Found` the message is
`unable to retrieve license '404 Not Found', status 404`; with a key server that answers with
a key, the validator error `unable to validate (fake err)` gives the message
`unable to validate (fake err)`. -/
theorem VerifyTokenMiddleware_message_witness :
    VerifyTokenMiddleware worldKeyFn404 (str "http://keys") fakeErrValidator requestWithToken =
        [Event.respond 401 (str "unable to retrieve license '" ++ str "404 Not Found" ++
          str "', status " ++ fmtInt 404)] ∧
      fmtInt 404 = str "404" ∧
      VerifyTokenMiddleware worldKeyFnOK (str "http://keys") fakeErrValidator
          requestWithToken =
        [Event.respond 401 (str "unable to validate (fake err)")] := by
  have hc1 : worldKeyFn404.jwtParseContract (fun _ => .ok tokenKid42) := by
    intro s keyFunc
    show match keyFunc tokenKid42 with
      | .error e => ∃ ve, worldKeyFn404.jwtParse s keyFunc = .error ve ∧ ve.Error = e.Error
      | .ok _ => True
    cases hk : keyFunc tokenKid42 with
    | error e => exact ⟨.foreign e.Error, by simp [worldKeyFn404, hk], rfl⟩
    | ok key => trivial
  have hc2 : worldKeyFnOK.jwtParseContract (fun _ => .ok tokenKid42) := by
    intro s keyFunc
    show match keyFunc tokenKid42 with
      | .error e => ∃ ve, worldKeyFnOK.jwtParse s keyFunc = .error ve ∧ ve.Error = e.Error
      | .ok _ => True
    cases hk : keyFunc tokenKid42 with
    | error e => exact ⟨.foreign e.Error, by simp [worldKeyFnOK, hk], rfl⟩
    | ok key => trivial
  exact ⟨(VerifyTokenMiddleware_message worldKeyFn404 (str "http://keys") fakeErrValidator
      requestWithToken (str "T") (fun _ => .ok tokenKid42) (by decide) hc1).2.2.2.2.1
      tokenKid42 (str "42") (parseHTTP4 (str "http://keys")) requestKeys42
      { Status := str "404 Not Found", StatusCode := 404, Body := .ok [] }
      rfl (by decide) (by decide) rfl rfl rfl (by decide),
    by decide,
    (VerifyTokenMiddleware_message worldKeyFnOK (str "http://keys") fakeErrValidator
      requestWithToken (str "T") (fun _ => .ok tokenKid42) (by decide) hc2).2.2.2.2.2
      { tokenKid42 with Valid := true } [(str "sub", .string (str "116"))]
      (.errorString (str "unable to validate (fake err)")) rfl rfl rfl rfl⟩

/-- C10: the validator built by `MakeAuthValidator` at the subject `116`, the credential `T`
and an access service that answers with the profile `{"SuperUser":true}`. The validator
succeeds, but the context of the request it returns holds nothing under
`RequestContext("access")`, where the doc comment of `MakeAuthValidator` says the `*Access`
is to be found; the profile is held only inside the visitor under `VisitorRequestContext`. -/
theorem MakeAuthValidator_access_key_unbound :
    (MakeAuthValidator worldSuccess (str "http://auth") [(str "sub", .string (str "116"))]
        requestWithToken).err = none ∧
      (LoadAccess worldSuccess (str "http://auth") (str "116") (str "T")).1 =
        .ok accessSuperUser ∧
      (MakeAuthValidator worldSuccess (str "http://auth") [(str "sub", .string (str "116"))]
        requestWithToken).request.ctx.Value (.RequestContext (str "access")) = .nil ∧
      (MakeAuthValidator worldSuccess (str "http://auth") [(str "sub", .string (str "116"))]
        requestWithToken).request.ctx.Value (.RequestContext (str "access")) ≠
        .access accessSuperUser ∧
      (MakeAuthValidator worldSuccess (str "http://auth") [(str "sub", .string (str "116"))]
        requestWithToken).request.ctx.Value VisitorRequestContext =
        .visitor { UserID := 116, SignedIam := str "T", Access := some accessSuperUser } :=
  ⟨by decide, rfl, by decide, by decide, by decide⟩

/-- Where the profile is after the validator built by `MakeAuthValidator` succeeds: the
profile `P` loaded from the access service is the `Access` field of the visitor stored in the
returned request's context under `VisitorRequestContext`; under `RequestContext("access")` the
returned request holds what the given request held. -/
theorem MakeAuthValidator_access_in_visitor (w : World) (url : GoString) (claims : MapClaims)
    (r : Request) (h : (MakeAuthValidator w url claims r).err = none) :
    ∃ s T P n,
      mapGet claims (str "sub") = some (.string s) ∧
      r.ctx.Value (.RequestContext (str "token")) = .string T ∧
      (LoadAccess w url s T).1 = .ok P ∧
      (MakeAuthValidator w url claims r).request.ctx.Value VisitorRequestContext =
        .visitor { UserID := n, SignedIam := T, Access := some P } ∧
      (MakeAuthValidator w url claims r).request.ctx.Value (.RequestContext (str "access")) =
        r.ctx.Value (.RequestContext (str "access")) := by
  obtain ⟨s, T, P, n, sent, hsub, hT, hL, _, hrun⟩ := MakeAuthValidator_ok_inv w url claims r h
  refine ⟨s, T, P, n, hsub, hT, by rw [hL], ?_, ?_⟩
  · rw [hrun]
    simp [Request.WithContext, WithValue, Context.Value]
  · rw [hrun]
    simp [Request.WithContext, WithValue, Context.Value, VisitorRequestContext_ne_access]

/-- The successful run for subject `116`: the profile is in the visitor. -/
theorem MakeAuthValidator_access_in_visitor_witness :
    ∃ s T P n,
      mapGet [(str "sub", Any.string (str "116"))] (str "sub") = some (.string s) ∧
      requestWithToken.ctx.Value (.RequestContext (str "token")) = .string T ∧
      (LoadAccess worldSuccess (str "http://auth") s T).1 = .ok P ∧
      (MakeAuthValidator worldSuccess (str "http://auth") [(str "sub", .string (str "116"))]
        requestWithToken).request.ctx.Value VisitorRequestContext =
        .visitor { UserID := n, SignedIam := T, Access := some P } ∧
      (MakeAuthValidator worldSuccess (str "http://auth") [(str "sub", .string (str "116"))]
        requestWithToken).request.ctx.Value (.RequestContext (str "access")) =
        requestWithToken.ctx.Value (.RequestContext (str "access")) :=
  MakeAuthValidator_access_in_visitor worldSuccess (str "http://auth")
    [(str "sub", .string (str "116"))] requestWithToken (by decide)

/-- C11: `RetrieveKID` returns `(k, nil)` exactly when the header map binds `kid` to the
non-empty string `k`; for every other header map (no `kid`, an empty `kid`, a `kid` that is
not a string) it returns the empty string and `jwt.ErrInvalidKey`, whose text is
`key is invalid`. -/
theorem RetrieveKID_spec (headers : List (GoString × Any)) :
    (∀ k, RetrieveKID headers = (k, none) ↔
        (mapGet headers (str "kid") = some (.string k) ∧ k ≠ [])) ∧
      ((¬ ∃ k, mapGet headers (str "kid") = some (.string k) ∧ k ≠ []) →
        RetrieveKID headers = ([], some ErrInvalidKey)) ∧
      ErrInvalidKey.Error = str "key is invalid" := by
  refine ⟨?_, ?_, rfl⟩
  · intro k
    unfold RetrieveKID
    cases hkid : mapGet headers (str "kid") with
    | none => simp
    | some v =>
      cases v with
      | string s =>
        by_cases hs : s = []
        · subst hs
          simp only [Any.assertString, ne_eq, not_true_eq_false, if_false]
          constructor
          · intro h
            simp at h
          · rintro ⟨h1, h2⟩
            simp only [Option.some.injEq, Any.string.injEq] at h1
            exact absurd h1.symm h2
        · simp only [Any.assertString, ne_eq, hs, not_false_eq_true, if_true]
          constructor
          · intro h
            simp only [Prod.mk.injEq, and_true] at h
            subst h
            exact ⟨rfl, hs⟩
          · rintro ⟨h1, _⟩
            simp only [Option.some.injEq, Any.string.injEq] at h1
            subst h1
            rfl
      | _ => simp [Any.assertString]
  · intro hno
    unfold RetrieveKID
    cases hkid : mapGet headers (str "kid") with
    | none => rfl
    | some v =>
      cases v with
      | string s =>
        by_cases hs : s = []
        · simp [Any.assertString, hs]
        · exact absurd ⟨s, hkid, hs⟩ hno
      | _ => simp [Any.assertString]

/-- C13: when the key server's response has a status code `c` other than 200, with the
status text `s`, `RetrievePublicKey` returns no key and an error whose text is
`unable to retrieve license '<s>', status <c>`; for the code 404 that text contains `404`. -/
theorem RetrievePublicKey_status_not_ok (w : World) (keysServerURL keyID : GoString) (u : URL)
    (req : HTTPRequest) (resp : HTTPResponse) (hu : w.urlParse keysServerURL = .ok u)
    (hreq : NewRequest w (str "GET")
      (w.urlString { u with Path := pathJoin [u.Path, str "keys", keyID] }) = .ok req)
    (hresp : w.roundTrip req = .ok resp) (hcode : resp.StatusCode ≠ 200) :
    ∃ e, (RetrievePublicKey w keysServerURL keyID).1 = .error e ∧
      e.Error = str "unable to retrieve license '" ++ resp.Status ++ str "', status " ++
        fmtInt resp.StatusCode ∧
      (resp.StatusCode = 404 → str "404" <:+: e.Error) := by
  have hload := loadPublicKey_eq w keyID keysServerURL u req resp hu hreq hresp
  rw [if_pos hcode] at hload
  refine ⟨.errorString (str "unable to retrieve license '" ++ resp.Status ++
    str "', status " ++ fmtInt resp.StatusCode),
    by rw [RetrievePublicKey_of_load_error w keysServerURL keyID _ _ hload], rfl, ?_⟩
  intro h404
  simp only [GoError.Error]
  rw [h404]
  have h : fmtInt 404 = str "404" := by decide
  rw [h]
  exact List.IsSuffix.isInfix (List.suffix_append _ _)

/-- Witness of C13: key id `42` and the answer `404 Not Found`. -/
theorem RetrievePublicKey_status_not_ok_witness :
    ∃ e, (RetrievePublicKey worldKeys404 (str "http://keys") (str "42")).1 = .error e ∧
      e.Error = str "unable to retrieve license '" ++ str "404 Not Found" ++
        str "', status " ++ fmtInt 404 ∧
      ((404 : Int) = 404 → str "404" <:+: e.Error) :=
  RetrievePublicKey_status_not_ok worldKeys404 (str "http://keys") (str "42")
    (parseHTTP4 (str "http://keys"))
    requestKeys42
    { Status := str "404 Not Found", StatusCode := 404, Body := .ok [] }
    rfl rfl rfl (by decide)

/-- C14, as stated, fails: the key server answers HTTP 200 with the body `[]`, which is valid
JSON and has no `data` object; `json.Unmarshal` does not decode an array into the response
struct, so `RetrievePublicKey` returns the decoding error, not the
`unexpected response body` error. -/
theorem RetrievePublicKey_valid_json_counterexample :
    (∃ resp, worldKeysArray.roundTrip
        requestKeys42 =
          .ok resp ∧ resp.StatusCode = 200 ∧ resp.Body = .ok (str "[]")) ∧
      (RetrievePublicKey worldKeysArray (str "http://keys") (str "42")).1 =
        .error (.errorString (str "unable to unmarshal result from keys server: json: cannot unmarshal array into Go value of type tokens.PublicKeyResponse")) ∧
      (RetrievePublicKey worldKeysArray (str "http://keys") (str "42")).1 ≠
        .error (.errorString (str "unexpected response body from keys server: []")) := by
  refine ⟨⟨_, rfl, rfl, rfl⟩, rfl, ?_⟩
  have h : (RetrievePublicKey worldKeysArray (str "http://keys") (str "42")).1 =
      .error (.errorString (str "unable to unmarshal result from keys server: json: cannot unmarshal array into Go value of type tokens.PublicKeyResponse")) := rfl
  rw [h]
  intro hEq
  have hEq1 := Except.error.inj hEq
  revert hEq1
  decide

/-- C14, amended: when the key server answers HTTP 200 and `json.Unmarshal` decodes the body
without error into a response whose `data` is missing or whose `data.key` is empty,
`RetrievePublicKey` returns no key and an error whose text is
`unexpected response body from keys server: ` followed by the body as it was read. -/
theorem RetrievePublicKey_unexpected_body (w : World) (keysServerURL keyID : GoString)
    (u : URL) (req : HTTPRequest) (resp : HTTPResponse) (b : GoString)
    (keyResponse : PublicKeyResponse) (hu : w.urlParse keysServerURL = .ok u)
    (hreq : NewRequest w (str "GET")
      (w.urlString { u with Path := pathJoin [u.Path, str "keys", keyID] }) = .ok req)
    (hresp : w.roundTrip req = .ok resp) (hcode : resp.StatusCode = 200)
    (hb : resp.Body = .ok b) (hkr : w.unmarshalPublicKeyResponse b = .ok keyResponse)
    (hdata : keyResponse.Data = none ∨ ∃ d, keyResponse.Data = some d ∧ d.Key = []) :
    ∃ e, (RetrievePublicKey w keysServerURL keyID).1 = .error e ∧
      e.Error = str "unexpected response body from keys server: " ++ b := by
  have hload := loadPublicKey_eq w keyID keysServerURL u req resp hu hreq hresp
  simp only [hcode, ne_eq, not_true_eq_false, if_false, hb, hkr] at hload
  have hload1 : loadPublicKey w keyID keysServerURL =
      (.error (.errorString (str "unexpected response body from keys server: " ++ b)),
        [.Do req]) := by
    rcases hdata with hnone | ⟨d, hd, hkey⟩
    · rw [hload, hnone]
    · rw [hload, hd]
      simp only [hkey, if_true]
  exact ⟨.errorString (str "unexpected response body from keys server: " ++ b),
    by rw [RetrievePublicKey_of_load_error w keysServerURL keyID _ _ hload1], rfl⟩

/-- Witness of C14, amended: the body `{"key":"123"}` of the repository's test. -/
theorem RetrievePublicKey_unexpected_body_witness :
    ∃ e, (RetrievePublicKey worldKeysNoData (str "http://keys") (str "42")).1 = .error e ∧
      e.Error = str "unexpected response body from keys server: " ++
        str "\x7b\"key\":\"123\"\x7d" :=
  RetrievePublicKey_unexpected_body worldKeysNoData (str "http://keys") (str "42")
    (parseHTTP4 (str "http://keys"))
    requestKeys42
    { Status := str "200 OK", StatusCode := 200, Body := .ok (str "\x7b\"key\":\"123\"\x7d") }
    (str "\x7b\"key\":\"123\"\x7d") { Message := [], Status := [], Data := none }
    rfl rfl rfl rfl rfl rfl (Or.inl rfl)

/-- C15: when the access service answers HTTP 200 with a body that decodes into
`{Message, Data, Status}`, `LoadAccess` returns a profile without error exactly when the
decoded status is `success`, and the profile is the decoded data; for any other status it
returns no profile and an error whose text is the decoded message, as it is. -/
theorem LoadAccess_status_success_iff (w : World) (url userID token : GoString) (u : URL)
    (req : HTTPRequest) (resp : HTTPResponse) (b : GoString) (payload : AccessPayload)
    (hu : w.urlParse url = .ok u)
    (hreq : NewRequest w (str "GET")
      (w.urlString { u with Path := pathJoin [u.Path, str "access", userID] }) = .ok req)
    (hresp : w.roundTrip { req with Header := req.Header.Set (str "iam") token } = .ok resp)
    (hcode : resp.StatusCode = 200) (hb : resp.Body = .ok b)
    (hpay : w.unmarshalAccessPayload b = .ok payload) :
    (∀ P, (LoadAccess w url userID token).1 = .ok P ↔
        (payload.Status = str "success" ∧ P = payload.Data)) ∧
      (payload.Status ≠ str "success" →
        ∃ e, (LoadAccess w url userID token).1 = .error e ∧ e.Error = payload.Message) := by
  have hload := LoadAccess_eq w url userID token u req resp hu hreq hresp
  simp only [hcode, ne_eq, not_true_eq_false, if_false, hb, hpay] at hload
  by_cases hstatus : payload.Status = str "success"
  · simp only [hstatus, not_true_eq_false, if_false] at hload
    refine ⟨?_, fun h => absurd hstatus h⟩
    intro P
    rw [hload]
    constructor
    · intro h
      exact ⟨hstatus, (Except.ok.inj h).symm⟩
    · rintro ⟨_, rfl⟩
      rfl
  · simp only [hstatus, not_false_eq_true, if_true] at hload
    refine ⟨?_, fun _ => ⟨.errorString payload.Message, by rw [hload], rfl⟩⟩
    intro P
    rw [hload]
    constructor
    · intro h
      cases h
    · rintro ⟨h, _⟩
      exact absurd h hstatus

/-- Witness of C15: the reply `{"Message":"fail message","Status":"fail"}` gives the error
`fail message`. -/
theorem LoadAccess_status_success_iff_witness :
    ∃ e, (LoadAccess worldAccessFail (str "http://auth") (str "42") (str "T")).1 = .error e ∧
      e.Error = str "fail message" :=
  (LoadAccess_status_success_iff worldAccessFail (str "http://auth") (str "42") (str "T")
    (parseHTTP4 (str "http://auth"))
    requestAccess42
    { Status := str "200 OK", StatusCode := 200,
      Body := .ok (str "\x7b\"Message\":\"fail message\",\"Status\":\"fail\"\x7d") }
    (str "\x7b\"Message\":\"fail message\",\"Status\":\"fail\"\x7d")
    { Message := str "fail message", Data := accessZero, Status := str "fail" }
    rfl rfl rfl rfl rfl rfl).2 (by decide)

/-- C12, as stated, fails. For the base URL `http://keys/api/` and the key id `42` the URL
`RetrievePublicKey` requests has the path `/api/keys/42`, which is not the base path `/api/`
followed by `/keys/` and the key id; and for the base URL `http://keys/api` and the key id
`..` it has the path `/api`, not `/api/keys/..`. -/
theorem RetrievePublicKey_path_counterexample :
    worldKeys404.urlParse (str "http://keys/api/") =
        .ok (parseHTTP4 (str "http://keys/api/")) ∧
      (parseHTTP4 (str "http://keys/api/")).Path = str "/api/" ∧
      (RetrievePublicKey worldKeys404 (str "http://keys/api/") (str "42")).2 =
        [Effect.Do { Method := str "GET", URL := parseHTTP4 (str "http://keys/api/keys/42"),
                     Header := [] }] ∧
      (parseHTTP4 (str "http://keys/api/keys/42")).Path = str "/api/keys/42" ∧
      (parseHTTP4 (str "http://keys/api/keys/42")).Path ≠
        str "/api/" ++ str "/keys/" ++ str "42" ∧
      worldKeys404.urlParse (str "http://keys/api") = .ok (parseHTTP4 (str "http://keys/api")) ∧
      (parseHTTP4 (str "http://keys/api")).Path = str "/api" ∧
      (RetrievePublicKey worldKeys404 (str "http://keys/api") (str "..")).2 =
        [Effect.Do { Method := str "GET", URL := parseHTTP4 (str "http://keys/api"),
                     Header := [] }] ∧
      (parseHTTP4 (str "http://keys/api")).Path ≠ str "/api" ++ str "/keys/" ++ str ".." :=
  ⟨rfl, by decide, by decide, by decide, by decide, rfl, by decide, by decide, by decide⟩

/-- C12, amended: for a base URL that `url.Parse` accepts and `net/url` renders (a URL with a
host) and a key id that is one plain path element (not empty, without a slash, neither `.` nor
`..`), `RetrievePublicKey` hands exactly one request to the HTTP client, a GET, and the path of
the URL it requests is `path.Join(base path, "keys", keyID)` behind a slash: the base path
followed by `/keys/` and the key id when the base path is empty or a rooted path of plain
elements, and `/keys/` followed by the key id when the base path is `/`. -/
theorem RetrievePublicKey_request_path (w : World) (keysServerURL keyID : GoString) (u : URL)
    (hu : w.urlParse keysServerURL = .ok u) (hr : w.rendersPaths u) (hk : plainElem keyID) :
    ∃ req, (RetrievePublicKey w keysServerURL keyID).2 = [Effect.Do req] ∧
      req.Method = str "GET" ∧
      req.URL.Path = withLeadingSlash (pathJoin [u.Path, str "keys", keyID]) ∧
      (u.Path = [] → req.URL.Path = u.Path ++ str "/keys/" ++ keyID) ∧
      (u.Path = str "/" → req.URL.Path = str "/keys/" ++ keyID) ∧
      (∀ e L, u.Path = rootedPath (e :: L) → (∀ x ∈ e :: L, plainElem x) →
        req.URL.Path = u.Path ++ str "/keys/" ++ keyID) := by
  obtain ⟨req, hsent, hm, _, hp⟩ := loadPublicKey_sends w keyID keysServerURL u hu hr
  have h := withLeadingSlash_pathJoin u.Path (str "keys") keyID plainElem_keys hk
  have hkeys : str "/" ++ str "keys" ++ str "/" = str "/keys/" := by decide
  refine ⟨req, hsent, hm, hp, fun h0 => ?_, fun h0 => ?_, fun e L h0 hL => ?_⟩
  · rw [hp, h.1 h0, hkeys, h0]
    rfl
  · rw [hp, h.2.1 h0, hkeys]
  · rw [hp, h.2.2 e L h0 hL, ← hkeys]
    simp only [List.append_assoc]

/-- Witness of C12, amended: base URL `http://keys` and key id `42` give one GET for the path
`/keys/42`. -/
theorem RetrievePublicKey_request_path_witness :
    ∃ req, (RetrievePublicKey worldKeys404 (str "http://keys") (str "42")).2 =
        [Effect.Do req] ∧
      req.Method = str "GET" ∧ req.URL.Path = str "/keys/" ++ str "42" := by
  obtain ⟨req, hsent, hm, _, h0, _⟩ :=
    RetrievePublicKey_request_path worldKeys404 (str "http://keys") (str "42")
      (parseHTTP4 (str "http://keys")) rfl (fun _ => ⟨_, rfl, rfl⟩) (by decide)
  exact ⟨req, hsent, hm, h0 (by decide)⟩

/-- C16, as stated, fails. For the base URL `http://auth/api/` and the subject id `42` the
request `LoadAccess` sends has the path `/api/access/42`, which is not the base path `/api/`
followed by `/access/` and the subject id; and for the base URL `http://auth/api` and the
subject id `..` it has the path `/api`, not `/api/access/..`. -/
theorem LoadAccess_path_counterexample :
    worldAccessZero.urlParse (str "http://auth/api/") =
        .ok (parseHTTP4 (str "http://auth/api/")) ∧
      (parseHTTP4 (str "http://auth/api/")).Path = str "/api/" ∧
      (LoadAccess worldAccessZero (str "http://auth/api/") (str "42") (str "T")).2 =
        [Effect.Do { Method := str "GET", URL := parseHTTP4 (str "http://auth/api/access/42"),
                     Header := [(str "Iam", [str "T"])] }] ∧
      (parseHTTP4 (str "http://auth/api/access/42")).Path = str "/api/access/42" ∧
      (parseHTTP4 (str "http://auth/api/access/42")).Path ≠
        str "/api/" ++ str "/access/" ++ str "42" ∧
      worldAccessZero.urlParse (str "http://auth/api") =
        .ok (parseHTTP4 (str "http://auth/api")) ∧
      (parseHTTP4 (str "http://auth/api")).Path = str "/api" ∧
      (LoadAccess worldAccessZero (str "http://auth/api") (str "..") (str "T")).2 =
        [Effect.Do { Method := str "GET", URL := parseHTTP4 (str "http://auth/api"),
                     Header := [(str "Iam", [str "T"])] }] ∧
      (parseHTTP4 (str "http://auth/api")).Path ≠ str "/api" ++ str "/access/" ++ str ".." :=
  ⟨rfl, by decide, by decide, by decide, by decide, rfl, by decide, by decide, by decide⟩

/-- C16, amended: for a base URL that `url.Parse` accepts and `net/url` renders (a URL with a
host), a subject id that is one plain path element (not empty, without a slash, neither `.`
nor `..`) and any credential, `LoadAccess` hands exactly one request to the HTTP client. It is
a GET whose only header is `iam`, with the credential as its only value, and whose path is
`path.Join(base path, "access", userID)` behind a slash: the base path followed by `/access/`
and the subject id when the base path is empty or a rooted path of plain elements, and
`/access/` followed by the subject id when the base path is `/`. -/
theorem LoadAccess_request (w : World) (url userID token : GoString) (u : URL)
    (hu : w.urlParse url = .ok u) (hr : w.rendersPaths u) (hk : plainElem userID) :
    ∃ req, (LoadAccess w url userID token).2 = [Effect.Do req] ∧
      req.Method = str "GET" ∧
      req.Header = [(CanonicalHeaderKey (str "iam"), [token])] ∧
      mapGet req.Header (CanonicalHeaderKey (str "iam")) = some [token] ∧
      req.URL.Path = withLeadingSlash (pathJoin [u.Path, str "access", userID]) ∧
      (u.Path = [] → req.URL.Path = u.Path ++ str "/access/" ++ userID) ∧
      (u.Path = str "/" → req.URL.Path = str "/access/" ++ userID) ∧
      (∀ e L, u.Path = rootedPath (e :: L) → (∀ x ∈ e :: L, plainElem x) →
        req.URL.Path = u.Path ++ str "/access/" ++ userID) := by
  obtain ⟨req, hsent, hm, hh, hp⟩ := LoadAccess_sends w url userID token u hu hr
  have h := withLeadingSlash_pathJoin u.Path (str "access") userID plainElem_access hk
  have hacc : str "/" ++ str "access" ++ str "/" = str "/access/" := by decide
  refine ⟨req, hsent, hm, hh, ?_, hp, fun h0 => ?_, fun h0 => ?_, fun e L h0 hL => ?_⟩
  · rw [hh]
    simp [mapGet]
  · rw [hp, h.1 h0, hacc, h0]
    rfl
  · rw [hp, h.2.1 h0, hacc]
  · rw [hp, h.2.2 e L h0 hL, ← hacc]
    simp only [List.append_assoc]

/-- Witness of C16, amended: base URL `http://auth`, subject id `42` and credential `T` give
one GET for the path `/access/42` with the header `Iam: T`. -/
theorem LoadAccess_request_witness :
    ∃ req, (LoadAccess worldAccessZero (str "http://auth") (str "42") (str "T")).2 =
        [Effect.Do req] ∧
      req.Method = str "GET" ∧ req.Header = [(str "Iam", [str "T"])] ∧
      req.URL.Path = str "/access/" ++ str "42" := by
  obtain ⟨req, hsent, hm, hh, _, _, h0, _⟩ :=
    LoadAccess_request worldAccessZero (str "http://auth") (str "42") (str "T")
      (parseHTTP4 (str "http://auth")) rfl (fun _ => ⟨_, rfl, rfl⟩) (by decide)
  refine ⟨req, hsent, hm, ?_, h0 (by decide)⟩
  rw [hh]
  decide

/-- C17: for every profile whose ids are values of `int64`, deserializing its JSON
serialization succeeds and gives a profile with the same `SuperUser` flag, the same role
fields present and absent, and the same ids in each present role (an omitted and an empty list
not being told apart); the profile with only `SuperUser: false` comes back with
`SuperUser` false and every role field absent. -/
theorem Access_json_round_trip (p : Access) (hp : p.inRange = true) :
    (∃ q, Access.fromJSON p.toJSON = .ok q ∧ sameProfile p q) ∧
      Access.fromJSON accessZero.toJSON = .ok accessZero ∧
      accessZero.SuperUser = false ∧ accessZero.Admin = none ∧ accessZero.VOAdmin = none ∧
      accessZero.VONoChildAdmin = none ∧ accessZero.FSAdmin = none ∧
      accessZero.FSVOAdmin = none ∧ accessZero.Teacher = none ∧ accessZero.CoTeacher = none ∧
      accessZero.AssistantTeacher = none ∧ accessZero.TeamMember = none :=
  ⟨⟨p.normalize, Access_fromJSON_toJSON p hp, sameProfile_normalize p⟩,
    Access_fromJSON_toJSON accessZero rfl, rfl, rfl, rfl, rfl, rfl, rfl, rfl, rfl, rfl, rfl⟩

/-- Witness of C17: a profile with three present roles, one of them with an empty list and
one with an omitted list. -/
theorem Access_json_round_trip_witness :
    ∃ q, Access.fromJSON accessMixed.toJSON = .ok q ∧ sameProfile accessMixed q :=
  (Access_json_round_trip accessMixed (by decide)).1

/-- C19: for every list of allowed origins and every request, on a writer whose header is
not yet written, `ValidateOriginMiddleware` calls the next handler if and only if the
`Origin` header is non-empty and is in the list; in that case it calls it once, with the
request whose context makes `OriginFromContext` return exactly that header value, and writes
nothing. Otherwise it does not call next and answers with status 400 and the body of the
message "Origin is required" when the header is empty, and of "Origin is not permitted"
when the header is not in the list. -/
theorem ValidateOriginMiddleware_spec (enc : Encoding) (allowedOrigins : List GoString)
    (w : ResponseWriter) (r : Request) (hcode : w.Code = none)
    (hwrite : w.writeError = none) :
    ((ValidateOriginMiddleware enc allowedOrigins w r).next ≠ [] ↔
      (r.Header.Get (str "Origin") ≠ [] ∧ r.Header.Get (str "Origin") ∈ allowedOrigins)) ∧
    ((r.Header.Get (str "Origin") ≠ [] ∧ r.Header.Get (str "Origin") ∈ allowedOrigins) →
      ∃ r1, (ValidateOriginMiddleware enc allowedOrigins w r).next = [r1] ∧
        OriginFromContext r1.ctx = some (r.Header.Get (str "Origin")) ∧
        r1.Header = r.Header ∧ r1.Query = r.Query ∧ r1.Cookies = r.Cookies ∧
        (ValidateOriginMiddleware enc allowedOrigins w r).w = w) ∧
    (r.Header.Get (str "Origin") = [] →
      (ValidateOriginMiddleware enc allowedOrigins w r).next = [] ∧
      (ValidateOriginMiddleware enc allowedOrigins w r).w.Code = some 400 ∧
      (ValidateOriginMiddleware enc allowedOrigins w r).w.Body =
        w.Body ++ enc.render (envelope (str "Origin is required") (str "client error"))) ∧
    ((r.Header.Get (str "Origin") ≠ [] ∧ r.Header.Get (str "Origin") ∉ allowedOrigins) →
      (ValidateOriginMiddleware enc allowedOrigins w r).next = [] ∧
      (ValidateOriginMiddleware enc allowedOrigins w r).w.Code = some 400 ∧
      (ValidateOriginMiddleware enc allowedOrigins w r).w.Body =
        w.Body ++
          enc.render (envelope (str "Origin is not permitted") (str "client error"))) := by
  rw [ValidateOriginMiddleware_eq]
  by_cases h0 : r.Header.Get (str "Origin") = []
  · rw [if_pos h0]
    refine ⟨?_, ?_, ?_, ?_⟩
    · constructor
      · intro h
        exact absurd rfl h
      · intro h
        exact absurd h0 h.1
    · intro h
      exact absurd h0 h.1
    · intro _
      exact ⟨rfl, Send_deny_code enc w _ hcode, Send_deny_body enc w _ hwrite⟩
    · intro h
      exact absurd h0 h.1
  · rw [if_neg h0]
    by_cases hin : r.Header.Get (str "Origin") ∈ allowedOrigins
    · rw [if_pos hin]
      refine ⟨?_, ?_, ?_, ?_⟩
      · constructor
        · intro _
          exact ⟨h0, hin⟩
        · intro _ h
          cases h
      · intro _
        refine ⟨_, rfl, ?_, rfl, rfl, rfl, rfl⟩
        simp [OriginFromContext, Request.WithContext, WithValue, Context.Value, originTagKey]
      · intro h
        exact absurd h h0
      · intro h
        exact absurd hin h.2
    · rw [if_neg hin]
      refine ⟨?_, ?_, ?_, ?_⟩
      · constructor
        · intro h
          exact absurd rfl h
        · intro h
          exact absurd h.2 hin
      · intro h
        exact absurd h.2 hin
      · intro h
        exact absurd h h0
      · intro _
        exact ⟨rfl, Send_deny_code enc w _ hcode, Send_deny_body enc w _ hwrite⟩

/-- C19, witness: with the allowed origins of the test and a new writer, the request from
`http://abc.com` is passed on and the one from `http://notallowed.com` is answered with
status 400. -/
theorem ValidateOriginMiddleware_spec_witness :
    writerNew.Code = none ∧ writerNew.writeError = none ∧
    (∃ r1, (ValidateOriginMiddleware encodingPlain allowedOriginsTest writerNew
        requestOriginAbc).next = [r1] ∧
      OriginFromContext r1.ctx = some (str "http://abc.com")) ∧
    (ValidateOriginMiddleware encodingPlain allowedOriginsTest writerNew
        requestOriginOther).next = [] ∧
    (ValidateOriginMiddleware encodingPlain allowedOriginsTest writerNew
        requestOriginOther).w.Code = some 400 ∧
    (ValidateOriginMiddleware encodingPlain allowedOriginsTest writerNew
        requestOriginOther).w.Body =
      str "\x7b\"message\":\"Origin is not permitted\",\"status\":\"client error\"\x7d" := by
  have ha := (ValidateOriginMiddleware_spec encodingPlain allowedOriginsTest writerNew
    requestOriginAbc rfl rfl).2.1 (by decide)
  have hb := (ValidateOriginMiddleware_spec encodingPlain allowedOriginsTest writerNew
    requestOriginOther rfl rfl).2.2.2 (by decide)
  refine ⟨rfl, rfl, ?_, hb.1, hb.2.1, ?_⟩
  · rcases ha with ⟨r1, h1, h2, _⟩
    exact ⟨r1, h1, h2⟩
  · rw [hb.2.2]
    decide

/-- C20: for every `StandardResponse` `r`, `BuildBody` returns a body whose status is
`getStatus r.StatusCode`, whose message and data are those of `r`, whose pagination is the
stored one (absent when none is stored, and the one given to `SetPagination` after it), and
whose validations are absent when `r` has no validation failures and otherwise a list of the
same length in which the i-th entry holds the field, tag, value and, as `Allowed`, the
parameter of the i-th failure. -/
theorem BuildBody_spec (r : StandardResponse) :
    r.BuildBody.Status = getStatus r.StatusCode ∧
    r.BuildBody.Message = r.Message ∧
    r.BuildBody.Data = r.Data ∧
    r.BuildBody.Pagination = r.pagination ∧
    New.BuildBody.Pagination = none ∧
    (∀ p, (r.SetPagination p).BuildBody.Pagination = p) ∧
    (r.validationFailures = [] → r.BuildBody.Validations = none) ∧
    (r.validationFailures ≠ [] →
      ∃ vs, r.BuildBody.Validations = some vs ∧
        vs.length = r.validationFailures.length ∧
        ∀ i (hi : i < r.validationFailures.length) (hv : i < vs.length),
          vs[i] =
            { Field := r.validationFailures[i].Field, Tag := r.validationFailures[i].Tag,
              Value := r.validationFailures[i].Value,
              Allowed := .string r.validationFailures[i].Param }) := by
  have hpag : ∀ q : StandardResponse, q.BuildBody.Pagination = q.pagination := by
    intro q
    unfold StandardResponse.BuildBody
    cases hq : q.pagination with
    | none => simp only [ne_eq, not_true_eq_false, if_false]; split <;> rfl
    | some p => simp only [ne_eq, not_false_eq_true, reduceCtorEq, if_true]
  have hfld : ∀ q : StandardResponse, q.BuildBody.Status = getStatus q.StatusCode ∧
      q.BuildBody.Message = q.Message ∧ q.BuildBody.Data = q.Data := by
    intro q
    unfold StandardResponse.BuildBody
    simp only
    split <;> split <;> exact ⟨rfl, rfl, rfl⟩
  have hval : ∀ q : StandardResponse, q.BuildBody.Validations =
      if q.validationFailures = [] then none
      else some (q.validationFailures.map (fun err =>
        { Field := err.Field, Tag := err.Tag, Value := err.Value,
          Allowed := .string err.Param })) := by
    intro q
    unfold StandardResponse.BuildBody
    simp only [prepareValidationResponses_eq_map, List.length_map]
    cases hq : q.validationFailures with
    | nil => simp only [List.length_nil, gt_iff_lt, Nat.lt_irrefl, if_false, if_true]; split <;> rfl
    | cons e es =>
      have hpos : (e :: es).length > 0 := Nat.succ_pos _
      simp only [hpos, if_true, reduceCtorEq, if_false]
      split <;> rfl
  refine ⟨(hfld r).1, (hfld r).2.1, (hfld r).2.2, hpag r, ?_, ?_, ?_, ?_⟩
  · rw [hpag]; rfl
  · intro p
    rw [hpag]; rfl
  · intro h
    rw [hval, if_pos h]
  · intro h
    refine ⟨_, by rw [hval, if_neg h], by simp, ?_⟩
    intro i hi hv
    simp

/-- C21: for every `StandardResponse`, key `k` and value `v`, `AddHeader(k, v)` puts `v` at
the end of the list of values stored under the canonical form of `k` (the list is created
when the map or the key is absent), leaves the lists of all other keys as they are and changes
no other field; two values added under the same key are kept in the order they were added, and
two calls of `AddCookie` on a new response give `Set-Cookie = [first, second]`. -/
theorem AddHeader_appends (r : StandardResponse) (k v : GoString) :
    mapGet ((r.AddHeader k v).headers.getD []) (CanonicalHeaderKey k) =
        some ((mapGet (r.headers.getD []) (CanonicalHeaderKey k)).getD [] ++ [v]) ∧
      (∀ k1, k1 ≠ CanonicalHeaderKey k →
        mapGet ((r.AddHeader k v).headers.getD []) k1 = mapGet (r.headers.getD []) k1) ∧
      ((r.AddHeader k v).StatusCode = r.StatusCode ∧ (r.AddHeader k v).Message = r.Message ∧
        (r.AddHeader k v).Data = r.Data ∧ (r.AddHeader k v).pagination = r.pagination ∧
        (r.AddHeader k v).validationFailures = r.validationFailures) ∧
      (∀ v2, mapGet (((r.AddHeader k v).AddHeader k v2).headers.getD [])
          (CanonicalHeaderKey k) =
        some ((mapGet (r.headers.getD []) (CanonicalHeaderKey k)).getD [] ++ [v, v2])) ∧
      (∀ first second : GoString,
        mapGet (((New.AddCookie first).AddCookie second).headers.getD []) (str "Set-Cookie") =
          some [first, second]) := by
  refine ⟨?_, ?_, ⟨rfl, rfl, rfl, rfl, rfl⟩, ?_, ?_⟩
  · rw [AddHeader_headers, if_pos rfl]
  · intro k1 hk1
    rw [AddHeader_headers, if_neg hk1]
  · intro v2
    rw [AddHeader_headers, if_pos rfl, AddHeader_headers, if_pos rfl]
    simp
  · intro first second
    unfold StandardResponse.AddCookie
    have h1 := AddHeader_headers New (str "Set-Cookie") first (str "Set-Cookie")
    have h2 := AddHeader_headers (New.AddHeader (str "Set-Cookie") first) (str "Set-Cookie")
      second (str "Set-Cookie")
    rw [CanonicalHeaderKey_Set_Cookie, if_pos rfl] at h1 h2
    have hnone : mapGet (New.headers.getD []) (str "Set-Cookie") = none := by decide
    rw [h2, h1, hnone]
    rfl

/-- C25: for every integer `code`, `getStatus` returns the empty string if `code < 1`, `info`
if `1 ≤ code ≤ 199`, `success` if `200 ≤ code ≤ 299`, `redirect` if `300 ≤ code ≤ 399`,
`client error` if `400 ≤ code ≤ 499` and `server error` if `code ≥ 500`; every integer lies in
exactly one of the six ranges. -/
theorem getStatus_ranges (code : Int) :
    (code < 1 → getStatus code = str "") ∧
      (1 ≤ code ∧ code ≤ 199 → getStatus code = str "info") ∧
      (200 ≤ code ∧ code ≤ 299 → getStatus code = str "success") ∧
      (300 ≤ code ∧ code ≤ 399 → getStatus code = str "redirect") ∧
      (400 ≤ code ∧ code ≤ 499 → getStatus code = str "client error") ∧
      (500 ≤ code → getStatus code = str "server error") ∧
      (∃ i, statusRange code i ∧ getStatus code = statusText i ∧
        ∀ j, statusRange code j → j = i) := by
  have huniq : ∀ i j, statusRange code i → statusRange code j → j = i := by
    intro i j hi hj
    match i, j, hi, hj with
    | 0, 0, _, _ => rfl
    | 1, 1, _, _ => rfl
    | 2, 2, _, _ => rfl
    | 3, 3, _, _ => rfl
    | 4, 4, _, _ => rfl
    | 5, 5, _, _ => rfl
    | 0, 1, hi, hj | 0, 2, hi, hj | 0, 3, hi, hj | 0, 4, hi, hj | 0, 5, hi, hj
    | 1, 0, hi, hj | 1, 2, hi, hj | 1, 3, hi, hj | 1, 4, hi, hj | 1, 5, hi, hj
    | 2, 0, hi, hj | 2, 1, hi, hj | 2, 3, hi, hj | 2, 4, hi, hj | 2, 5, hi, hj
    | 3, 0, hi, hj | 3, 1, hi, hj | 3, 2, hi, hj | 3, 4, hi, hj | 3, 5, hi, hj
    | 4, 0, hi, hj | 4, 1, hi, hj | 4, 2, hi, hj | 4, 3, hi, hj | 4, 5, hi, hj
    | 5, 0, hi, hj | 5, 1, hi, hj | 5, 2, hi, hj | 5, 3, hi, hj | 5, 4, hi, hj =>
      simp only [statusRange] at hi hj
      omega
    | n + 6, _, hi, _ => exact absurd hi (by simp [statusRange])
    | 0, n + 6, _, hj | 1, n + 6, _, hj | 2, n + 6, _, hj | 3, n + 6, _, hj
    | 4, n + 6, _, hj | 5, n + 6, _, hj => exact absurd hj (by simp [statusRange])
  have h0 : code < 1 → getStatus code = str "" := by
    intro h
    simp only [getStatus, h, if_true]
  have h1 : 1 ≤ code ∧ code ≤ 199 → getStatus code = str "info" := by
    intro h
    have a : ¬ code < 1 := by omega
    have b : code > 0 ∧ code < 200 := by omega
    simp only [getStatus, a, b, and_self, if_false, if_true]
  have h2 : 200 ≤ code ∧ code ≤ 299 → getStatus code = str "success" := by
    intro h
    have a : ¬ code < 1 := by omega
    have b : ¬ (code > 0 ∧ code < 200) := by omega
    have c : code > 199 ∧ code < 300 := by omega
    simp only [getStatus, a, b, c, and_self, if_false, if_true]
  have h3 : 300 ≤ code ∧ code ≤ 399 → getStatus code = str "redirect" := by
    intro h
    have a : ¬ code < 1 := by omega
    have b : ¬ (code > 0 ∧ code < 200) := by omega
    have c : ¬ (code > 199 ∧ code < 300) := by omega
    have d : code > 299 ∧ code < 400 := by omega
    simp only [getStatus, a, b, c, d, and_self, if_false, if_true]
  have h4 : 400 ≤ code ∧ code ≤ 499 → getStatus code = str "client error" := by
    intro h
    have a : ¬ code < 1 := by omega
    have b : ¬ (code > 0 ∧ code < 200) := by omega
    have c : ¬ (code > 199 ∧ code < 300) := by omega
    have d : ¬ (code > 299 ∧ code < 400) := by omega
    have e : code > 399 ∧ code < 500 := by omega
    simp only [getStatus, a, b, c, d, e, and_self, if_false, if_true]
  have h5 : 500 ≤ code → getStatus code = str "server error" := by
    intro h
    have a : ¬ code < 1 := by omega
    have b : ¬ (code > 0 ∧ code < 200) := by omega
    have c : ¬ (code > 199 ∧ code < 300) := by omega
    have d : ¬ (code > 299 ∧ code < 400) := by omega
    have e : ¬ (code > 399 ∧ code < 500) := by omega
    simp only [getStatus, a, b, c, d, e, if_false]
  refine ⟨h0, h1, h2, h3, h4, h5, ?_⟩
  by_cases c0 : code < 1
  · exact ⟨0, c0, h0 c0, fun j hj => huniq 0 j c0 hj⟩
  by_cases c1 : code ≤ 199
  · exact ⟨1, ⟨by omega, c1⟩, h1 ⟨by omega, c1⟩, fun j hj => huniq 1 j ⟨by omega, c1⟩ hj⟩
  by_cases c2 : code ≤ 299
  · exact ⟨2, ⟨by omega, c2⟩, h2 ⟨by omega, c2⟩, fun j hj => huniq 2 j ⟨by omega, c2⟩ hj⟩
  by_cases c3 : code ≤ 399
  · exact ⟨3, ⟨by omega, c3⟩, h3 ⟨by omega, c3⟩, fun j hj => huniq 3 j ⟨by omega, c3⟩ hj⟩
  by_cases c4 : code ≤ 499
  · exact ⟨4, ⟨by omega, c4⟩, h4 ⟨by omega, c4⟩, fun j hj => huniq 4 j ⟨by omega, c4⟩ hj⟩
  · have c5 : 500 ≤ code := by omega
    exact ⟨5, c5, h5 c5, fun j hj => huniq 5 j c5 hj⟩

/-- C24: for every request, `VerifyTokenMiddleware` calls the next handler at most once, and
calls it if and only if the credential is present in the request's context, `jwt.Parse`
returns the token (it parses and verifies), the token has map claims and is valid, and the
claims validator returns no error. When it calls next it passes the request the validator
returned and writes no response; when any stage rejects, it writes exactly one error response
and does not call next. -/
theorem VerifyTokenMiddleware_next_once (w : World) (url : GoString)
    (validator : ClaimsValidator) (r : Request) :
    (VerifyTokenMiddleware w url validator r).countP Event.isNext ≤ 1 ∧
      ((∃ r1, Event.next r1 ∈ VerifyTokenMiddleware w url validator r) ↔
        ∃ s token claims, r.ctx.Value (.RequestContext (str "token")) = .string s ∧
          w.jwtParse s (makeVerificationRSAKeyFn w url) = .ok token ∧
          token.Claims = .MapClaims claims ∧ token.Valid = true ∧
          (validator claims r).err = none) ∧
      (∀ s token claims, r.ctx.Value (.RequestContext (str "token")) = .string s →
        w.jwtParse s (makeVerificationRSAKeyFn w url) = .ok token →
        token.Claims = .MapClaims claims → token.Valid = true →
        (validator claims r).err = none →
        VerifyTokenMiddleware w url validator r = [Event.next (validator claims r).request]) ∧
      ((¬ ∃ s token claims, r.ctx.Value (.RequestContext (str "token")) = .string s ∧
          w.jwtParse s (makeVerificationRSAKeyFn w url) = .ok token ∧
          token.Claims = .MapClaims claims ∧ token.Valid = true ∧
          (validator claims r).err = none) →
        ∃ code m, VerifyTokenMiddleware w url validator r = [Event.respond code m]) := by
  rcases VerifyTokenMiddleware_outcome w url validator r with
    ⟨s, token, claims, hs, hp, hc, hv, he, hrun⟩ | ⟨hnot, code, m, hrun⟩
  · refine ⟨?_, ?_, ?_, ?_⟩
    · rw [hrun]
      simp [Event.isNext]
    · constructor
      · intro _
        exact ⟨s, token, claims, hs, hp, hc, hv, he⟩
      · intro _
        rw [hrun]
        exact ⟨_, List.mem_singleton_self _⟩
    · intro s1 token1 claims1 hs1 hp1 hc1 _ _
      rw [hs] at hs1
      cases hs1
      rw [hp] at hp1
      cases hp1
      rw [hc] at hc1
      cases hc1
      exact hrun
    · intro hnot
      exact absurd ⟨s, token, claims, hs, hp, hc, hv, he⟩ hnot
  · refine ⟨?_, ?_, ?_, ?_⟩
    · rw [hrun]
      simp [Event.isNext]
    · constructor
      · rintro ⟨r1, hmem⟩
        rw [hrun] at hmem
        simp at hmem
      · intro h
        exact absurd h hnot
    · intro s token claims hs hp hc hv he
      exact absurd ⟨s, token, claims, hs, hp, hc, hv, he⟩ hnot
    · intro _
      exact ⟨code, m, hrun⟩

/-- C27: when the validator built by `MakeAuthValidator` is run by `VerifyTokenMiddleware`,
its `ErrNoTokenFound` branch is not reached. The middleware consults the validator only at
the request it was given, and without a string credential under `RequestContext("token")` it
answers before the validator is run (only there would the validator return `ErrNoTokenFound`
with nothing done). With the string credential `s`, which is the string the middleware hands
to `jwt.Parse`, the validator's own lookup yields `s`, the validator does not return by that
branch, every call of `LoadAccess` it makes carries `s`, and the visitor it binds has `s` as
its credential. -/
theorem MakeAuthValidator_token_branch_unreachable (w : World) (keysServerURL url : GoString)
    (r : Request) :
    (∀ v1 v2 : ClaimsValidator, (∀ claims, v1 claims r = v2 claims r) →
        VerifyTokenMiddleware w keysServerURL v1 r =
          VerifyTokenMiddleware w keysServerURL v2 r) ∧
      ((∀ s, r.ctx.Value (.RequestContext (str "token")) ≠ .string s) →
        (∀ validator : ClaimsValidator, VerifyTokenMiddleware w keysServerURL validator r =
          [Event.respond 500 (str "Internal Server Error: token not found")]) ∧
        (∀ claims sub, mapGet claims (str "sub") = some (.string sub) →
          MakeAuthValidator w url claims r = ⟨r, some ErrNoTokenFound, []⟩)) ∧
      (∀ s, r.ctx.Value (.RequestContext (str "token")) = .string s →
        VerifyTokenMiddleware w keysServerURL (MakeAuthValidator w url) r =
          (match w.jwtParse s (makeVerificationRSAKeyFn w keysServerURL) with
          | .error err => [Event.respond 401 err.Error]
          | .ok token =>
            match token.Claims, token.Valid with
            | .MapClaims claims, true =>
              match (MakeAuthValidator w url claims r).err with
              | some err => [Event.respond 401 err.Error]
              | none => [Event.next (MakeAuthValidator w url claims r).request]
            | _, _ => [Event.respond 401 ErrTokenInvalid.Error]) ∧
        ∀ claims,
          (r.ctx.Value (.RequestContext (str "token"))).assertString = (s, true) ∧
          MakeAuthValidator w url claims r ≠ ⟨r, some ErrNoTokenFound, []⟩ ∧
          (∀ a u t, Effect.LoadAccess a u t ∈ (MakeAuthValidator w url claims r).effects →
            t = s) ∧
          (∀ v, (MakeAuthValidator w url claims r).err = none →
            (MakeAuthValidator w url claims r).request.ctx.Value VisitorRequestContext =
              .visitor v → v.SignedIam = s)) := by
  refine ⟨fun v1 v2 h => VerifyTokenMiddleware_congr w keysServerURL v1 v2 r h, ?_, ?_⟩
  · intro hno
    refine ⟨fun validator => VerifyTokenMiddleware_no_credential w keysServerURL validator r hno,
      ?_⟩
    intro claims sub hsub
    unfold MakeAuthValidator
    cases hv : r.ctx.Value (.RequestContext (str "token")) with
    | string s => exact absurd hv (hno s)
    | _ => simp [hsub, Any.assertString]
  · intro s hs
    refine ⟨VerifyTokenMiddleware_eq w keysServerURL _ r s hs, ?_⟩
    intro claims
    refine ⟨by rw [hs]; rfl, ?_, ?_, ?_⟩
    · rcases MakeAuthValidator_with_credential w url claims r s hs with h | ⟨sub, _, heff, _⟩
      · rw [h]
        intro heq
        have herr : some ErrSubNotFound = some ErrNoTokenFound := congrArg Validated.err heq
        revert herr
        decide
      · intro h
        rw [h] at heff
        cases heff
    · intro a u t hmem
      rcases MakeAuthValidator_with_credential w url claims r s hs with h | ⟨sub, _, heff, _⟩
      · rw [h] at hmem
        cases hmem
      · rw [heff, List.mem_cons] at hmem
        rcases hmem with h | h
        · cases h
          rfl
        · exact absurd h (LoadAccess_effects_no_call w url sub s a u t)
    · intro v herr hv
      rcases MakeAuthValidator_with_credential w url claims r s hs with
        h | ⟨sub, _, _, ⟨e, he⟩ | ⟨n, P, _, hreq⟩⟩
      · rw [h] at herr
        cases herr
      · rw [he] at herr
        cases herr
      · rw [hreq] at hv
        simp only [Request.WithContext, WithValue, Context.Value, if_true] at hv
        cases hv
        rfl

/-- C22: `Date.String` at 2020-01-01 00:30 in a location two hours east of UTC. The time
formatted with the layout `2006-01-02` is `2020-01-01`, which is also what `MarshalJSON` emits
between double quotes, but `String` returns `2019-12-31`, the date in UTC. -/
theorem Date_String_east_of_UTC :
    Time.Format dateNewYearEast DateFormat = str "2020-01-01" ∧
      Date.MarshalJSON dateNewYearEast = (str "\"2020-01-01\"", none) ∧
      Date.String dateNewYearEast = str "2019-12-31" ∧
      Date.String dateNewYearEast ≠ Time.Format dateNewYearEast DateFormat := by
  decide

/-- C23: `ToCamelCase` at `Éa`, whose first character is encoded in the two bytes 195 137. The
function lower-cases the code point of the first byte alone: it returns the four bytes
195 163 137 97, not `éa`, and the result is one byte longer than the string. `FirstName` does
become `firstName`, and the empty string is returned as it is. -/
theorem ToCamelCase_two_byte_first_character :
    str "Éa" = [195, 137, 97] ∧
      ToCamelCase (str "Éa") = [195, 163, 137, 97] ∧
      ToCamelCase (str "Éa") ≠ str "éa" ∧
      (ToCamelCase (str "Éa")).length ≠ (str "Éa").length ∧
      ToCamelCase (str "FirstName") = str "firstName" ∧
      ToCamelCase [] = [] := by
  decide

/-- C26: for every `LocaleTag` whose language code is lower-case letters and whose variant is
empty or lower-case letters, the lower-cased `BundleName()` equals `Original()` with every
`-` replaced by `_`; and `Original()` is the language, `-` and the lower-cased region,
followed by `-` and the variant only when the variant is not empty. -/
theorem LocaleTag_BundleName_Original (lt : LocaleTag)
    (hlang : lowerLetters lt.Language.String) (hvar : lowerLetters lt.Variant) :
    ToLower lt.BundleName = replaceByte 45 95 lt.Original ∧
      (lt.Variant = [] →
        lt.Original = lt.Language.String ++ str "-" ++ ToLower lt.Region.String) ∧
      (lt.Variant ≠ [] →
        lt.Original =
          lt.Language.String ++ str "-" ++ ToLower lt.Region.String ++ str "-" ++
            lt.Variant) := by
  have hdash : replaceByte 45 95 (str "-") = str "_" := by decide
  have hunder : ToLower (str "_") = str "_" := by decide
  refine ⟨?_, ?_, ?_⟩
  · unfold LocaleTag.BundleName LocaleTag.Original
    by_cases hv : lt.Variant = []
    · simp only [hv, if_true, ToLower_append, replaceByte_append, ToLower_ToUpper, hdash,
        hunder, ToLower_lowerLetters _ hlang, replaceByte_lowerLetters _ hlang,
        replaceByte_ToLower_Region]
    · simp only [hv, if_false, ToLower_append, replaceByte_append, ToLower_ToUpper, hdash,
        hunder, ToLower_lowerLetters _ hlang, replaceByte_lowerLetters _ hlang,
        replaceByte_ToLower_Region, ToLower_lowerLetters _ hvar,
        replaceByte_lowerLetters _ hvar]
  · intro hv
    unfold LocaleTag.Original
    simp only [hv, if_true]
  · intro hv
    unfold LocaleTag.Original
    simp only [hv, if_false]

/-- Witness of C26: the tag `en-us-nc` has the bundle name `en_US_NC`. -/
theorem LocaleTag_BundleName_Original_witness :
    localeTagEnUsNc.BundleName = str "en_US_NC" ∧
      localeTagEnUsNc.Original = str "en-us-nc" ∧
      ToLower localeTagEnUsNc.BundleName = replaceByte 45 95 localeTagEnUsNc.Original :=
  ⟨by decide, by decide,
    (LocaleTag_BundleName_Original localeTagEnUsNc (by decide) (by decide)).1⟩

/-- C29: for every locale path value that is empty or matches the route pattern
`^[a-z]{2,3}\-[a-z]{2,3}(\-[a-z]{2,3})?$`, the value, with `en-us` in place of the empty one,
splits on `-` into two parts or three, so `localeMiddleware` reads `locale[0]` and `locale[1]`
in range and does not panic; the variant of the tag it passes on is the third part when there
is one and stays empty when there is none. -/
theorem localeMiddleware_reads_in_range (lib : LanguageLib) (w : ResponseWriter) (r : Request)
    (localeParam : GoString) (h : localeParam = [] ∨ matchesLocalePattern localeParam) :
    ∃ l0 l1 rest,
      splitBy 45 (if localeParam = [] then str "en-us" else localeParam) = l0 :: l1 :: rest ∧
      2 ≤ (splitBy 45 (if localeParam = [] then str "en-us" else localeParam)).length ∧
      (rest = [] ∨ ∃ l2, rest = [l2]) ∧
      localeMiddleware lib w r localeParam =
        some (match lib.ParseBase l0, lib.ParseRegion l1 with
          | .ok base, .ok region =>
            { w := w,
              next := [r.WithContext (WithValue r.ctx localeTagKey
                (.localeTag { Language := base, Region := region, Variant := rest.headD [] }))],
              logged := [] }
          | _, _ => { w := httpError w (str "Not Found") 404, next := [], logged := [] }) := by
  have key : ∃ l0 l1 rest,
      splitBy 45 (if localeParam = [] then str "en-us" else localeParam) = l0 :: l1 :: rest ∧
      (rest = [] ∨ ∃ l2, rest = [l2]) := by
    rcases h with h0 | hm
    · subst h0
      exact ⟨str "en", str "us", [], by decide, Or.inl rfl⟩
    · obtain ⟨hne, a, b, rest, hsplit, _, _, hrest⟩ := splitBy_locale localeParam hm
      refine ⟨a, b, rest, by rw [if_neg hne]; exact hsplit, ?_⟩
      rcases hrest with h1 | ⟨c, h1, _⟩
      · exact Or.inl h1
      · exact Or.inr ⟨c, h1⟩
  obtain ⟨l0, l1, rest, hsplit, hrest⟩ := key
  have hlen : rest.length ≤ 1 := by
    rcases hrest with h1 | ⟨c, h1⟩ <;> simp [h1]
  refine ⟨l0, l1, rest, hsplit, ?_, hrest,
    localeMiddleware_of_split lib w r localeParam l0 l1 rest hsplit hlen⟩
  rw [hsplit]
  simp

/-- Witness of C29: the path value `en-us-nc` is passed on with the tag `en-us-nc`. -/
theorem localeMiddleware_reads_in_range_witness :
    matchesLocalePattern (str "en-us-nc") ∧
      localeMiddleware languageLibEnUs writerNew requestNoToken (str "en-us-nc") =
        some { w := writerNew,
               next := [requestNoToken.WithContext (WithValue requestNoToken.ctx localeTagKey
                 (.localeTag localeTagEnUsNc))],
               logged := [] } := by
  have hm : matchesLocalePattern (str "en-us-nc") :=
    ⟨str "en", str "us", by decide, by decide, Or.inr ⟨str "nc", by decide, by decide⟩⟩
  obtain ⟨l0, l1, rest, hsplit, _, _, hrun⟩ :=
    localeMiddleware_reads_in_range languageLibEnUs writerNew requestNoToken (str "en-us-nc")
      (Or.inr hm)
  have hs : splitBy 45 (if str "en-us-nc" = [] then str "en-us" else str "en-us-nc") =
      [str "en", str "us", str "nc"] := by decide
  rw [hs] at hsplit
  cases hsplit
  exact ⟨hm, hrun⟩

/-- C28, as stated, fails: with the subject `+5`, and likewise with the subject `007`, and an
access service that accepts the request, the validator built by `MakeAuthValidator` succeeds
and attaches a visitor whose `UserID` is 5, respectively 7; the decimal rendering of that id
is `5`, respectively `7`, not the subject. -/
theorem MakeAuthValidator_userID_counterexample :
    (MakeAuthValidator worldSuccess (str "http://auth") [(str "sub", .string (str "+5"))]
        requestWithToken).err = none ∧
      (MakeAuthValidator worldSuccess (str "http://auth") [(str "sub", .string (str "+5"))]
        requestWithToken).request.ctx.Value VisitorRequestContext =
        .visitor { UserID := 5, SignedIam := str "T", Access := some accessSuperUser } ∧
      fmtInt 5 = str "5" ∧ fmtInt 5 ≠ str "+5" ∧
      (MakeAuthValidator worldSuccess (str "http://auth") [(str "sub", .string (str "007"))]
        requestWithToken).err = none ∧
      (MakeAuthValidator worldSuccess (str "http://auth") [(str "sub", .string (str "007"))]
        requestWithToken).request.ctx.Value VisitorRequestContext =
        .visitor { UserID := 7, SignedIam := str "T", Access := some accessSuperUser } ∧
      fmtInt 7 = str "7" ∧ fmtInt 7 ≠ str "007" := by
  decide

/-- C28, amended: for every subject string `s` for which the validator built by
`MakeAuthValidator` succeeds, the `UserID` of the attached visitor is the integer
`strconv.Atoi` reads from `s`, and `s` is the user id `LoadAccess` was called with; the decimal
rendering of that `UserID` equals `s` exactly when `s` is a canonical decimal numeral (digits
without a plus sign and without leading zeros, a minus sign only before a numeral other than
`0`). -/
theorem MakeAuthValidator_userID_rendering (w : World) (url : GoString) (claims : MapClaims)
    (r : Request) (h : (MakeAuthValidator w url claims r).err = none) :
    ∃ s T P n,
      mapGet claims (str "sub") = some (.string s) ∧
      Atoi w s = (n, none) ∧
      (MakeAuthValidator w url claims r).request.ctx.Value VisitorRequestContext =
        .visitor { UserID := n, SignedIam := T, Access := some P } ∧
      (MakeAuthValidator w url claims r).effects =
        Effect.LoadAccess url s T :: (LoadAccess w url s T).2 ∧
      (fmtInt n = s ↔ canonicalDecimal s) := by
  obtain ⟨s, T, P, n, sent, hsub, _, hL, hA, hrun⟩ := MakeAuthValidator_ok_inv w url claims r h
  refine ⟨s, T, P, n, hsub, hA, ?_, ?_, ?_, ?_⟩
  · rw [hrun]
    simp [Request.WithContext, WithValue, Context.Value]
  · rw [hrun, hL]
  · intro hfmt
    rw [← hfmt]
    exact fmtInt_canonical n
  · intro hc
    have hok : (Atoi w s).2 = none := by rw [hA]
    have := Atoi_canonical w s hc hok
    rw [hA] at this
    exact this

/-- Witness of C28, amended: the subject `116` gives the user id 116, rendered `116`. -/
theorem MakeAuthValidator_userID_rendering_witness :
    ∃ s T P n,
      mapGet [(str "sub", Any.string (str "116"))] (str "sub") = some (.string s) ∧
      Atoi worldSuccess s = (n, none) ∧
      (MakeAuthValidator worldSuccess (str "http://auth") [(str "sub", .string (str "116"))]
        requestWithToken).request.ctx.Value VisitorRequestContext =
        .visitor { UserID := n, SignedIam := T, Access := some P } ∧
      (MakeAuthValidator worldSuccess (str "http://auth") [(str "sub", .string (str "116"))]
        requestWithToken).effects =
        Effect.LoadAccess (str "http://auth") s T ::
          (LoadAccess worldSuccess (str "http://auth") s T).2 ∧
      (fmtInt n = s ↔ canonicalDecimal s) :=
  MakeAuthValidator_userID_rendering worldSuccess (str "http://auth")
    [(str "sub", .string (str "116"))] requestWithToken (by decide)

end Bootstrap
